import Mathlib

/-!
# MrRSS blog discovery: a shallow embedding of `internal/discovery/discovery.go`

Go strings are modelled by Lean strings (sequences of Unicode code points), Go
errors by their message, and the collaborators of the package (the standard
library functions it imports, the HTTP client, the feed parser and the HTML
query library) by explicit records that the embedded functions take as an
argument.  Every theorem that quantifies over such a record holds for every
implementation of the collaborator, the Go one included.
-/

namespace Discovery

/-! ## Go `strings` helpers (on character lists, by structural recursion) -/

/-- Go `strings.HasPrefix` on character lists. -/
def hasPrefixL : List Char → List Char → Bool
  | _, [] => true
  | [], _ :: _ => false
  | c :: cs, p :: ps => c == p && hasPrefixL cs ps

/-- Go `strings.Contains` on character lists: some suffix of the text starts with the pattern. -/
def containsL : List Char → List Char → Bool
  | [], sub => hasPrefixL [] sub
  | c :: cs, sub => hasPrefixL (c :: cs) sub || containsL cs sub

/-- Go `strings.Contains`. -/
def Contains (s substr : String) : Bool := containsL s.data substr.data

/-- Go `unicode.IsSpace`: the white space characters of Unicode. -/
def isSpace (c : Char) : Bool :=
  let n := c.toNat
  n == 0x09 || n == 0x0A || n == 0x0B || n == 0x0C || n == 0x0D || n == 0x20 ||
  n == 0x85 || n == 0xA0 || n == 0x1680 || (0x2000 ≤ n && n ≤ 0x200A) ||
  n == 0x2028 || n == 0x2029 || n == 0x202F || n == 0x205F || n == 0x3000

/-- Go `strings.TrimSpace`: leading and trailing white space removed. -/
def TrimSpace (s : String) : String :=
  ⟨((s.data.dropWhile isSpace).reverse.dropWhile isSpace).reverse⟩

/-- The UTF-8 encoding of one character, as Go stores it in a string: one to
four bytes. -/
def utf8Bytes (c : Char) : List Nat :=
  let n := c.toNat
  if n < 0x80 then [n]
  else if n < 0x800 then [0xC0 + n / 0x40, 0x80 + n % 0x40]
  else if n < 0x10000 then [0xE0 + n / 0x1000, 0x80 + n / 0x40 % 0x40, 0x80 + n % 0x40]
  else [0xF0 + n / 0x40000, 0x80 + n / 0x1000 % 0x40, 0x80 + n / 0x40 % 0x40, 0x80 + n % 0x40]

/-- The bytes of a text: the UTF-8 encodings of its characters, one after the other. -/
def utf8Encode : List Char → List Nat
  | [] => []
  | c :: cs => utf8Bytes c ++ utf8Encode cs

/-- Go `strings.HasPrefix` on byte sequences. -/
def hasPrefixB : List Nat → List Nat → Bool
  | _, [] => true
  | [], _ :: _ => false
  | c :: cs, p :: ps => c == p && hasPrefixB cs ps

/-- Go `strings.Contains` on byte sequences: some suffix starts with the pattern. -/
def containsB : List Nat → List Nat → Bool
  | [], sub => hasPrefixB [] sub
  | c :: cs, sub => hasPrefixB (c :: cs) sub || containsB cs sub

/-- Go `strings.Contains(content, marker)` for a content given by its bytes and
a marker written as text. -/
def ContainsBytes (content : List Nat) (marker : String) : Bool :=
  containsB content (utf8Encode marker.data)

/-- Go `strings.Cut` with a one-character separator: the text before the first
separator, the text after it, and whether the separator occurs. -/
def cutL (sep : Char) : List Char → List Char × List Char × Bool
  | [] => ([], [], false)
  | c :: cs =>
    if c = sep then ([], cs, true)
    else
      let r := cutL sep cs
      (c :: r.1, r.2.1, r.2.2)

/-- The segments of a text between the occurrences of a separator (never empty). -/
def splitL (sep : Char) : List Char → List (List Char)
  | [] => [[]]
  | c :: cs =>
    if c = sep then [] :: splitL sep cs
    else
      match splitL sep cs with
      | [] => [[c]]
      | seg :: rest => (c :: seg) :: rest

/-- The text up to and including the last occurrence of the separator
(`s[:strings.LastIndex(s, sep)+1]`), empty when the separator does not occur. -/
def uptoLastL (sep : Char) (s : List Char) : List Char :=
  (s.reverse.dropWhile (fun c => c != sep)).reverse

/-- The text before the last occurrence of the separator
(`s[:strings.LastIndexByte(s, sep)]`), or `none` when it does not occur. -/
def beforeLastL (sep : Char) (s : List Char) : Option (List Char) :=
  match s.reverse.dropWhile (fun c => c != sep) with
  | [] => none
  | _ :: r => some r.reverse

/-- The text from the last occurrence of the separator on (`s[strings.LastIndex(s, sep):]`),
or `none` when it does not occur. -/
def fromLastL (sep : Char) (s : List Char) : Option (List Char) :=
  if s.contains sep then some (sep :: (s.reverse.takeWhile (fun c => c != sep)).reverse) else none

/-! ## The `net/url` values and the standard-library record -/

/-- Go `url.URL`, the fields the package reads or that `String` prints. -/
structure URL where
  Scheme : String := ""
  Opaque : String := ""
  User : Option String := none
  Host : String := ""
  Path : String := ""
  OmitHost : Bool := false
  ForceQuery : Bool := false
  RawQuery : String := ""
  Fragment : String := ""
deriving DecidableEq, Repr

/-- The standard-library functions `discovery.go` calls: `url.Parse` (`none` is a
parse error), `(*URL).ResolveReference`, `(*URL).String` and `strings.ToLower`. -/
structure Stdlib where
  urlParse : String → Option URL
  urlResolveReference : URL → URL → URL
  urlString : URL → String
  toLower : String → String

/-! ## A model of Go's `net/url` and `strings.ToLower`

The model follows `net/url` (Go 1.19 and later) on the URLs written with the
characters of `plainChar` and at most one `#`: on these Go neither decodes nor
re-encodes any character, so that paths, hosts and fragments are kept as they
are written. On every other input `Parse` answers `none`, which here stands
for "parse error, or outside the model". The model is used to evaluate the
functions on concrete URLs only; the general theorems quantify over `Stdlib`. -/

/-- Characters that `net/url` leaves as written in every component. -/
def plainChar (c : Char) : Bool :=
  c.isAlphanum || "-._~/:?#=&+,;$!*()".data.contains c

/-- Go `stringContainsCTLByte`. -/
def isCTL (c : Char) : Bool := c.toNat < 0x20 || c.toNat == 0x7F

/-- Go `getScheme`, the loop over the remaining characters: `seen` holds the
characters already read, in reverse. `none` is the error "missing protocol scheme". -/
def getSchemeLoop (raw : List Char) : List Char → List Char → Option (List Char × List Char)
  | _, [] => some ([], raw)
  | seen, c :: cs =>
    if c.isAlpha then getSchemeLoop raw (c :: seen) cs
    else if c.isDigit || c = '+' || c = '-' || c = '.' then
      if seen.isEmpty then some ([], raw) else getSchemeLoop raw (c :: seen) cs
    else if c = ':' then
      if seen.isEmpty then none else some (seen.reverse, cs)
    else some ([], raw)

/-- Go `getScheme`. -/
def getScheme (raw : List Char) : Option (List Char × List Char) :=
  getSchemeLoop raw [] raw

/-- Go `validOptionalPort`: empty, or a colon followed by digits only. -/
def validOptionalPort : List Char → Bool
  | [] => true
  | c :: cs => c = ':' && cs.all Char.isDigit

/-- Go `parseHost` on a host without brackets or escapes: the port after the
last colon, if any, must be numeric. -/
def parseHost (host : List Char) : Option (List Char) :=
  match fromLastL ':' host with
  | none => some host
  | some colonPort => if validOptionalPort colonPort then some host else none

/-- Go `url.parse` (the part of `Parse` before the fragment is set). -/
def goParseNoFragment (rawURL : List Char) : Option URL :=
  if rawURL.any isCTL then none
  else if rawURL = ['*'] then some { Path := "*" }
  else
    match getScheme rawURL with
    | none => none
    | some (scheme0, rest0) =>
      let scheme := scheme0.map Char.toLower
      let forceQuery := (rest0.getLast? == some '?') && rest0.count '?' == 1
      let rest := if forceQuery then rest0.dropLast else (cutL '?' rest0).1
      let rawQuery := if forceQuery then [] else (cutL '?' rest0).2.1
      if !hasPrefixL rest ['/'] && !scheme.isEmpty then
        some { Scheme := ⟨scheme⟩, Opaque := ⟨rest⟩, ForceQuery := forceQuery, RawQuery := ⟨rawQuery⟩ }
      else if !hasPrefixL rest ['/'] && (cutL '/' rest).1.contains ':' then none
      else if (!scheme.isEmpty || !hasPrefixL rest ['/', '/', '/']) && hasPrefixL rest ['/', '/'] then
        let authority := (cutL '/' (rest.drop 2)).1
        let path := (rest.drop 2).drop authority.length
        match parseHost authority with
        | none => none
        | some host =>
          some { Scheme := ⟨scheme⟩, Host := ⟨host⟩, Path := ⟨path⟩,
                 ForceQuery := forceQuery, RawQuery := ⟨rawQuery⟩ }
      else
        some { Scheme := ⟨scheme⟩, Path := ⟨rest⟩,
               OmitHost := !scheme.isEmpty && hasPrefixL rest ['/'],
               ForceQuery := forceQuery, RawQuery := ⟨rawQuery⟩ }

/-- Go `url.Parse`: the fragment is cut off at the first `#`, the rest is parsed
and the fragment is set. -/
def goParse (rawURL : String) : Option URL :=
  if rawURL.data.all plainChar && rawURL.data.count '#' ≤ 1 then
    match goParseNoFragment (cutL '#' rawURL.data).1 with
    | none => none
    | some u => some { u with Fragment := ⟨(cutL '#' rawURL.data).2.1⟩ }
  else none

/-- State of the loop of Go `resolvePath`: the text written so far (after the
leading slash), the flag `first`, and the last element read. -/
structure ResolveState where
  dst : List Char := []
  first : Bool := true
  elem : List Char := []

/-- One iteration of the loop of Go `resolvePath`, on the element `elem`. -/
def resolveStep (st : ResolveState) (elem : List Char) : ResolveState :=
  if elem = ['.'] then { st with first := false, elem := elem }
  else if elem = ['.', '.'] then
    match beforeLastL '/' st.dst with
    | none => { dst := [], first := true, elem := elem }
    | some kept => { dst := kept, first := st.first, elem := elem }
  else
    { dst := (if st.first then st.dst else st.dst ++ ['/']) ++ elem, first := false, elem := elem }

/-- Go `resolvePath`: the reference path merged with the base path, `.` and
`..` elements removed (RFC 3986, 5.2.3 and 5.2.4). -/
def resolvePath (base ref : List Char) : List Char :=
  let full :=
    match ref with
    | [] => base
    | c :: _ => if c != '/' then uptoLastL '/' base ++ ref else ref
  if full.isEmpty then []
  else
    let st := (splitL '/' full).foldl resolveStep {}
    let r := '/' :: (if st.elem = ['.'] || st.elem = ['.', '.'] then st.dst ++ ['/'] else st.dst)
    match r with
    | _ :: '/' :: _ => r.drop 1
    | _ => r

/-- Go `(*URL).ResolveReference` (RFC 3986, 5.2.2). -/
def goResolveReference (u ref : URL) : URL :=
  let url : URL := if ref.Scheme = "" then { ref with Scheme := u.Scheme } else ref
  if ref.Scheme ≠ "" || ref.Host ≠ "" || ref.User.isSome then
    { url with Path := ⟨resolvePath ref.Path.data []⟩ }
  else if ref.Opaque ≠ "" then
    { url with User := none, Host := "", Path := "" }
  else
    let inherit := ref.Path = "" && !ref.ForceQuery && ref.RawQuery = ""
    let url : URL :=
      if inherit then
        { url with RawQuery := u.RawQuery,
                   Fragment := if ref.Fragment = "" then u.Fragment else url.Fragment }
      else url
    if ref.Path = "" && u.Opaque ≠ "" then
      { url with Opaque := u.Opaque, User := none, Host := "", Path := "" }
    else
      { url with Host := u.Host, User := u.User, Path := ⟨resolvePath u.Path.data ref.Path.data⟩ }

/-- Go `(*URL).String`. -/
def goString (u : URL) : String :=
  let scheme := if u.Scheme ≠ "" then u.Scheme.data ++ [':'] else []
  let body :=
    if u.Opaque ≠ "" then scheme ++ u.Opaque.data
    else
      let auth :=
        if u.Scheme ≠ "" || u.Host ≠ "" || u.User.isSome then
          if u.OmitHost && u.Host = "" && u.User.isNone then []
          else
            (if u.Host ≠ "" || u.Path ≠ "" || u.User.isSome then ['/', '/'] else []) ++
            (match u.User with
             | some ui => ui.data ++ ['@']
             | none => []) ++
            u.Host.data
        else []
      let slash := if u.Path ≠ "" && !hasPrefixL u.Path.data ['/'] && u.Host ≠ "" then ['/'] else []
      let buf := scheme ++ auth ++ slash
      let dot := if buf.isEmpty && (cutL '/' u.Path.data).1.contains ':' then ['.', '/'] else []
      buf ++ dot ++ u.Path.data
  let query := if u.ForceQuery || u.RawQuery ≠ "" then '?' :: u.RawQuery.data else []
  let frag := if u.Fragment ≠ "" then '#' :: u.Fragment.data else []
  ⟨body ++ query ++ frag⟩

/-- Go `strings.ToLower` on ASCII text: the letters `A` to `Z` are mapped to
`a` to `z` and every other character is kept. -/
def asciiToLower (s : String) : String := ⟨s.data.map Char.toLower⟩

/-- The Go standard library, as modelled above. -/
def goStd : Stdlib where
  urlParse := goParse
  urlResolveReference := goResolveReference
  urlString := goString
  toLower := asciiToLower

/-! ## `discovery.go`: the pure helpers -/

/-- Source `resolveURL`: resolves a relative URL to an absolute URL. -/
def resolveURL (L : Stdlib) (base href : String) : String :=
  if href = "" then ""
  else
    match L.urlParse base with
    | none => ""
    | some baseURL =>
      match L.urlParse href with
      | none => ""
      | some hrefURL => L.urlString (L.urlResolveReference baseURL hrefURL)

/-- The deny list `skipDomains` of `isValidBlogDomain`. -/
def skipDomains : List String :=
  [ "facebook.com", "twitter.com", "instagram.com", "linkedin.com",
    "youtube.com", "github.com", "stackoverflow.com", "reddit.com",
    "weibo.com", "zhihu.com", "bilibili.com", "douban.com",
    "google.com", "baidu.com", "bing.com", "yahoo.com" ]

/-- The loop of `isValidBlogDomain` over the deny list: `false` at the first
entry contained in the lower-cased host. -/
def isValidBlogDomainLoop (hostLower : String) : List String → Bool
  | [] => true
  | skip :: rest => if Contains hostLower skip then false else isValidBlogDomainLoop hostLower rest

/-- Source `isValidBlogDomain`: checks if a domain is likely a blog. -/
def isValidBlogDomain (L : Stdlib) (host : String) : Bool :=
  isValidBlogDomainLoop (L.toLower host) skipDomains

/-! ## The data model of `discovery.go` and its collaborators -/

/-- Source `Progress`: the current discovery progress. -/
structure Progress where
  Stage : String := ""
  Message : String := ""
  Detail : String := ""
  Current : Nat := 0
  Total : Nat := 0
  FeedName : String := ""
  FoundCount : Nat := 0
deriving DecidableEq, Repr

/-- Source `RecentArticle`: a recent article with title and date. -/
structure RecentArticle where
  Title : String
  Date : String
deriving DecidableEq, Repr

/-- Source `DiscoveredBlog`: a blog found through friend links. -/
structure DiscoveredBlog where
  Name : String
  Homepage : String
  RSSFeed : String
  IconURL : String
  RecentArticles : List RecentArticle
deriving DecidableEq, Repr

/-- An `<a>` element as goquery presents it: the value of its `href` attribute
(`none` when the attribute is absent) and its text content. -/
structure Anchor where
  href : Option String
  text : String
deriving DecidableEq, Repr

/-- A `<link>` element: the values of its `rel`, `type` and `href` attributes. -/
structure LinkTag where
  relAttr : Option String
  typeAttr : Option String
  hrefAttr : Option String
deriving DecidableEq, Repr

/-- A parsed HTML document, as far as `discovery.go` queries it: the `<a>`
elements (`doc.Find("a")`) and the `<link>` elements, both in document order. -/
structure Document where
  anchors : List Anchor := []
  links : List LinkTag := []
deriving DecidableEq, Repr

/-- A calendar date, the part of `time.Time` that the layout `2006-01-02` prints. -/
structure Date where
  Year : Nat
  Month : Nat
  Day : Nat
deriving DecidableEq, Repr

/-- A `gofeed.Item`, the fields the package reads. -/
structure Item where
  Title : String
  PublishedParsed : Option Date
deriving DecidableEq, Repr

/-- A `gofeed.Feed`, the fields the package reads. -/
structure Feed where
  Title : String
  Link : String
  Items : List Item
deriving DecidableEq, Repr

/-- An HTTP request as the package builds it: method, URL and `User-Agent` header. -/
structure Request where
  Method : String
  URL : String
  UserAgent : String := ""
deriving DecidableEq, Repr

/-- An HTTP response: status code, `Content-Type` header, and the body as the
sequence of chunks that successive reads deliver. -/
structure Response where
  StatusCode : Nat
  ContentType : String := ""
  Body : List String := []
deriving DecidableEq, Repr

/-- The collaborators of `Service`, over a state `σ` of the outside world that
every network call may read and change: the standard library, the HTTP client
(`http.NewRequestWithContext` followed by `client.Do`), the feed parser
(`ParseURLWithContext`), the HTML parser (`goquery.NewDocumentFromReader`) and
the context (`ctx.Done()` has fired in the state). -/
structure World (σ : Type) where
  std : Stdlib
  clientDo : Request → σ → Except String Response × σ
  parseURLWithContext : String → σ → Except String Feed × σ
  newDocumentFromReader : String → Except String Document
  ctxDone : σ → Bool

/-- The state of one run: the outside world and the `Progress` values passed to
the callback so far, oldest first. -/
structure Run (σ : Type) where
  world : σ
  emitted : List Progress := []

/-- Source `ProgressCallback`, possibly nil: the callback runs synchronously
and may itself change the outside world. -/
abbrev ProgressCallback (σ : Type) := Option (Progress → σ → σ)

/-- The guarded call `if progressCb != nil { progressCb(p) }`. -/
def emit {σ : Type} (progressCb : ProgressCallback σ) (p : Progress) (r : Run σ) : Run σ :=
  match progressCb with
  | none => r
  | some cb => { world := cb p r.world, emitted := r.emitted ++ [p] }

/-! ## The progress updates of `discovery.go` -/

/-- The update sent by `DiscoverFromFeedWithProgress` before the feed is parsed. -/
def progressFetchingHomepage (feedURL : String) : Progress :=
  { Stage := "fetching_homepage", Message := "Fetching homepage from feed", Detail := feedURL }

/-- The update sent by `DiscoverFromFeedWithProgress` before the friend links are searched. -/
def progressFindingFriendLinks (homepage : String) : Progress :=
  { Stage := "finding_friend_links", Message := "Searching for friend links", Detail := homepage }

/-- The update sent by `findFriendLinksWithProgress` before the friend-link page is fetched. -/
def progressFetchingFriendPage (friendPageURL : String) : Progress :=
  { Stage := "fetching_friend_page", Message := "Fetching friend links page", Detail := friendPageURL }

/-- The update sent by `findFriendLinksWithProgress` after the links are extracted. -/
def progressFoundLinks (n : Nat) : Progress :=
  { Stage := "found_links", Message := "Found " ++ toString n ++ " potential blog links", Total := n }

/-- The update sent by `DiscoverFromFeedWithProgress` before the feeds are checked. -/
def progressCheckingRSS (total : Nat) : Progress :=
  { Stage := "checking_rss", Message := "Checking RSS feeds", Total := total }

/-- The update sent by each worker of `discoverRSSFeedsWithProgress`. -/
def progressCheckingFeed (u : String) (current total found : Nat) : Progress :=
  { Stage := "checking_rss", Message := "Checking RSS feed", Detail := u,
    Current := current, Total := total, FoundCount := found }

/-! ## `discovery.go`: pages and links -/

/-- Source `fetchHTML`: fetches and parses HTML from a URL. -/
def fetchHTML {σ : Type} (W : World σ) (urlStr : String) (s : σ) : Except String Document × σ :=
  match W.clientDo { Method := "GET", URL := urlStr, UserAgent := "MrRSS/1.0 (Blog Discovery Bot)" } s with
  | (.error err, s1) => (.error err, s1)
  | (.ok resp, s1) =>
    if resp.StatusCode ≠ 200 then (.error ("HTTP error: " ++ toString resp.StatusCode), s1)
    else
      match W.newDocumentFromReader (String.join resp.Body) with
      | .error err => (.error err, s1)
      | .ok doc => (.ok doc, s1)

/-- The body of the `Each` callback of `extractExternalLinks`, on the pair of
the map `seen` (its keys) and the slice `links`. -/
def extractStep (L : Stdlib) (baseURL : String) (baseU : URL)
    (acc : List String × List String) (sel : Anchor) : List String × List String :=
  let href := sel.href.getD ""
  let absURL := resolveURL L baseURL href
  if absURL = "" then acc
  else
    match L.urlParse absURL with
    | none => acc
    | some u =>
      if u.Host ≠ baseU.Host && u.Host ≠ "" then
        if isValidBlogDomain L u.Host && !acc.1.contains absURL then
          (absURL :: acc.1, acc.2 ++ [absURL])
        else acc
      else acc

/-- Source `extractExternalLinks`: extracts all external links from a page. -/
def extractExternalLinks (L : Stdlib) (doc : Document) (baseURL : String) : List String :=
  match L.urlParse baseURL with
  | none => []
  | some baseU =>
    ((doc.anchors.filter (fun a => a.href.isSome)).foldl (extractStep L baseURL baseU) ([], [])).2

/-- The `patterns` of `findFriendLinkPage`. -/
def friendLinkPatterns : List String :=
  [ "友链", "友情链接", "博客友链", "友情", "朋友们", "小伙伴", "友邻", "链接",
    "blogroll", "friends", "links", "friend links", "blog links",
    "link", "buddy", "buddies", "partner", "partners", "bloggers",
    "recommended", "blog roll", "favorite blogs", "other blogs",
    "about/links", "friends.html", "links.html", "blogroll.html",
    "friend", "flink", "link-exchange" ]

/-- The loop over the patterns in the `Each` callback of `findFriendLinkPage`:
the value given to `foundURL`, empty when the loop ends without setting it. -/
def matchPatterns (L : Stdlib) (homepage href text hrefLower : String) : List String → String
  | [] => ""
  | pattern :: rest =>
    if Contains text pattern || Contains hrefLower pattern then
      let absURL := resolveURL L homepage href
      if absURL ≠ "" then absURL else matchPatterns L homepage href text hrefLower rest
    else matchPatterns L homepage href text hrefLower rest

/-- The body of the `Each` callback of `findFriendLinkPage`, on `foundURL`. -/
def findFriendLinkStep (L : Stdlib) (homepage : String) (foundURL : String) (sel : Anchor) : String :=
  if foundURL ≠ "" then foundURL
  else
    match sel.href with
    | none => foundURL
    | some href =>
      let text := L.toLower (TrimSpace sel.text)
      let hrefLower := L.toLower href
      matchPatterns L homepage href text hrefLower friendLinkPatterns

/-- The scan of `findFriendLinkPage` over the anchors of the fetched homepage. -/
def scanFriendLink (L : Stdlib) (homepage : String) (doc : Document) : Except String String :=
  let foundURL := doc.anchors.foldl (findFriendLinkStep L homepage) ""
  if foundURL ≠ "" then .ok foundURL else .error "friend link page not found"

/-- Source `findFriendLinkPage`: searches for a friend link page. -/
def findFriendLinkPage {σ : Type} (W : World σ) (homepage : String) (s : σ) : Except String String × σ :=
  match fetchHTML W homepage s with
  | (.error err, s1) => (.error err, s1)
  | (.ok doc, s1) => (scanFriendLink W.std homepage doc, s1)

/-- Source `findFriendLinksWithProgress`: searches for friend link pages with
progress updates (the `log.Printf` of the fallback is not modelled). -/
def findFriendLinksWithProgress {σ : Type} (W : World σ) (homepage : String)
    (progressCb : ProgressCallback σ) (r : Run σ) : Except String (List String) × Run σ :=
  let found := findFriendLinkPage W homepage r.world
  let friendPageURL :=
    match found.1 with
    | .ok u => u
    | .error _ => homepage
  let r1 := emit progressCb (progressFetchingFriendPage friendPageURL) { r with world := found.2 }
  match fetchHTML W friendPageURL r1.world with
  | (.error err, s2) => (.error err, { r1 with world := s2 })
  | (.ok doc, s2) =>
    let links := extractExternalLinks W.std doc friendPageURL
    let r2 := emit progressCb (progressFoundLinks links.length) { r1 with world := s2 }
    (.ok links, r2)

/-- Source `getFeedHomepage`: extracts the homepage URL from a feed (the message
of the error of `url.Parse` is not modelled). -/
def getFeedHomepage {σ : Type} (W : World σ) (feedURL : String) (s : σ) : Except String String × σ :=
  match W.parseURLWithContext feedURL s with
  | (.error err, s1) => (.error err, s1)
  | (.ok feed, s1) =>
    if feed.Link ≠ "" then (.ok feed.Link, s1)
    else
      match W.std.urlParse feedURL with
      | none => (.error "parse error", s1)
      | some u => (.ok (u.Scheme ++ "://" ++ u.Host), s1)

/-! ## `discovery.go`: the feed probe -/

/-- Go `io.ReadAtLeast(resp.Body, buf, 1)` into a buffer of 512 bytes, followed
by `buf[:n]`: reading stops at the first read that delivers data, so the
content is the first non-empty chunk, cut to the 512 bytes of the buffer (empty
when no data arrives); the cut may fall inside a character. A body that ends
is not told apart from a body whose read fails: both deliver no further data. -/
def readAtLeastOne (body : List String) : List Nat :=
  match body.find? (fun chunk => chunk ≠ "") with
  | none => []
  | some chunk => (utf8Encode chunk.data).take 512

/-- Source `isValidFeed`: checks if a URL is a valid RSS/Atom feed. -/
def isValidFeed {σ : Type} (W : World σ) (feedURL : String) (s : σ) : Bool × σ :=
  match W.clientDo { Method := "HEAD", URL := feedURL } s with
  | (.error _, s1) => (false, s1)
  | (.ok resp, s1) =>
    if resp.StatusCode ≠ 200 then
      match W.clientDo { Method := "GET", URL := feedURL } s1 with
      | (.error _, s2) => (false, s2)
      | (.ok resp2, s2) =>
        if resp2.StatusCode ≠ 200 then (false, s2)
        else
          let content := readAtLeastOne resp2.Body
          if content = [] then (false, s2)
          else
            (ContainsBytes content "<?xml" || ContainsBytes content "<rss" ||
              ContainsBytes content "<feed" || ContainsBytes content "<atom", s2)
    else
      let contentType := resp.ContentType
      (Contains contentType "xml" || Contains contentType "rss" || Contains contentType "atom", s1)

/-- The `commonPaths` of `findRSSFeed`. -/
def commonPaths : List String :=
  [ "/rss.xml", "/feed.xml", "/atom.xml", "/feed", "/rss", "/feeds/posts/default",
    "/index.xml", "/feed/", "/rss/", "/atom/", "/blog/feed", "/blog/rss",
    "/blog/feed.xml", "/blog/rss.xml", "/posts/feed", "/posts/rss.xml",
    "/?feed=rss2", "/feed/?type=rss", "/rss2.xml", "/feed.atom", "/feed.rss" ]

/-- The selector of `findRSSFeed`: `link[type='application/rss+xml'],
link[type='application/atom+xml'], link[rel='alternate'][type*='xml']`. -/
def feedLinkSelected (l : LinkTag) : Bool :=
  l.typeAttr == some "application/rss+xml" || l.typeAttr == some "application/atom+xml" ||
  (l.relAttr == some "alternate" &&
    (match l.typeAttr with
     | some t => Contains t "xml"
     | none => false))

/-- The body of the `Each` callback of `findRSSFeed`, on `foundFeed`. -/
def foundFeedStep (L : Stdlib) (blogURL : String) (foundFeed : String) (sel : LinkTag) : String :=
  if foundFeed ≠ "" then foundFeed
  else
    match sel.hrefAttr with
    | some href => resolveURL L blogURL href
    | none => foundFeed

/-- The checks of the common feed paths of `findRSSFeed`, in the schedule in
which the checks run one after the other in catalog order: the feed URLs sent
to `resultCh`, in the order they are sent. -/
def checkCommonPaths {σ : Type} (W : World σ) (baseURL : String) : List String → σ → List String × σ
  | [], s => ([], s)
  | path :: rest, s =>
    let fURL := baseURL ++ path
    let checked := isValidFeed W fURL s
    let later := checkCommonPaths W baseURL rest checked.2
    (if checked.1 then fURL :: later.1 else later.1, later.2)

/-- Source `findRSSFeed`: finds the RSS feed URL for a blog. -/
def findRSSFeed {σ : Type} (W : World σ) (blogURL : String) (s : σ) : Except String String × σ :=
  match W.std.urlParse blogURL with
  | none => (.error "parse error", s)
  | some u =>
    let baseURL := u.Scheme ++ "://" ++ u.Host
    let fetched := fetchHTML W blogURL s
    let foundFeed :=
      match fetched.1 with
      | .ok doc => (doc.links.filter feedLinkSelected).foldl (foundFeedStep W.std blogURL) ""
      | .error _ => ""
    let headCheck := if foundFeed ≠ "" then isValidFeed W foundFeed fetched.2 else (false, fetched.2)
    if headCheck.1 then (.ok foundFeed, headCheck.2)
    else
      let sent := checkCommonPaths W baseURL commonPaths headCheck.2
      match sent.1 with
      | fURL :: _ => (.ok fURL, sent.2)
      | [] => (.error "RSS feed not found", sent.2)

/-- Source `getFavicon`: gets the favicon URL for a blog. -/
def getFavicon (L : Stdlib) (blogURL : String) : String :=
  match L.urlParse blogURL with
  | none => ""
  | some u => "https://www.google.com/s2/favicons?domain=" ++ u.Host

/-- A number in decimal, padded with zeros on the left to the given width. -/
def zeroPad (width n : Nat) : String :=
  ⟨List.replicate (width - (toString n).length) '0' ++ (toString n).data⟩

/-- Go `t.Format("2006-01-02")`. -/
def formatDate (d : Date) : String :=
  zeroPad 4 d.Year ++ "-" ++ zeroPad 2 d.Month ++ "-" ++ zeroPad 2 d.Day

/-- The loop body of `discoverBlogRSS` that builds one `RecentArticle`. -/
def recentArticle (item : Item) : RecentArticle :=
  { Title := item.Title,
    Date := match item.PublishedParsed with
      | some d => formatDate d
      | none => "" }

/-- The loop `for i := 0; i < len(feed.Items) && i < 3; i++` of `discoverBlogRSS`,
at index `i`: the first argument holds the items from index `i` on (it is empty
exactly when `i` has reached the length), the last one the slice built so far. -/
def recentArticlesLoop : List Item → Nat → List RecentArticle → List RecentArticle
  | [], _, recentArticles => recentArticles
  | item :: rest, i, recentArticles =>
    if i < 3 then recentArticlesLoop rest (i + 1) (recentArticles ++ [recentArticle item])
    else recentArticles

/-- Source `discoverBlogRSS`: discovers the RSS feed for a single blog. -/
def discoverBlogRSS {σ : Type} (W : World σ) (blogURL : String) (s : σ) :
    Except String DiscoveredBlog × σ :=
  match findRSSFeed W blogURL s with
  | (.error err, s1) => (.error err, s1)
  | (.ok rssURL, s1) =>
    match W.parseURLWithContext rssURL s1 with
    | (.error err, s2) => (.error err, s2)
    | (.ok feed, s2) =>
      (.ok { Name := feed.Title, Homepage := blogURL, RSSFeed := rssURL,
             IconURL := getFavicon W.std blogURL,
             RecentArticles := recentArticlesLoop feed.Items 0 [] }, s2)

/-! ## `discovery.go`: the orchestrator -/

/-- The variables shared by the workers of `discoverRSSFeedsWithProgress`: the
counters under `progressMu`, the blogs sent to `results`, and the run. -/
structure FanOut (σ : Type) where
  processed : Nat := 0
  foundCount : Nat := 0
  results : List DiscoveredBlog := []
  run : Run σ

/-- One iteration of the loop of `discoverRSSFeedsWithProgress` together with
the worker it starts, in the schedule in which each worker finishes before the
next iteration. The `select` on `ctx.Done()` has `break` as its body, which
leaves the `select` statement only: the loop goes on in both cases. -/
def fanOutStep {σ : Type} (W : World σ) (total : Nat) (progressCb : ProgressCallback σ)
    (st : FanOut σ) (u : String) : FanOut σ :=
  let st0 := if W.ctxDone st.run.world then st else st
  let st1 : FanOut σ :=
    match progressCb with
    | none => st0
    | some _ =>
      { st0 with
        processed := st0.processed + 1,
        run := emit progressCb
          (progressCheckingFeed u (st0.processed + 1) total st0.foundCount) st0.run }
  match discoverBlogRSS W u st1.run.world with
  | (.ok blog, s2) =>
    { st1 with foundCount := st1.foundCount + 1, results := st1.results ++ [blog],
               run := { st1.run with world := s2 } }
  | (.error _, s2) => { st1 with run := { st1.run with world := s2 } }

/-- Source `discoverRSSFeedsWithProgress`: discovers RSS feeds with progress
updates; the blogs are returned in the order they were sent to `results`. -/
def discoverRSSFeedsWithProgress {σ : Type} (W : World σ) (blogURLs : List String)
    (progressCb : ProgressCallback σ) (r : Run σ) : List DiscoveredBlog × Run σ :=
  let fin := blogURLs.foldl (fanOutStep W blogURLs.length progressCb) { run := r }
  (fin.results, fin.run)

/-- Source `DiscoverFromFeedWithProgress`: discovers blogs from a feed's
homepage with progress updates. -/
def DiscoverFromFeedWithProgress {σ : Type} (W : World σ) (feedURL : String)
    (progressCb : ProgressCallback σ) (r : Run σ) : Except String (List DiscoveredBlog) × Run σ :=
  let r0 := emit progressCb (progressFetchingHomepage feedURL) r
  match getFeedHomepage W feedURL r0.world with
  | (.error err, s1) =>
    (.error ("failed to get homepage from feed: " ++ err), { r0 with world := s1 })
  | (.ok homepage, s1) =>
    let r1 := emit progressCb (progressFindingFriendLinks homepage) { r0 with world := s1 }
    match findFriendLinksWithProgress W homepage progressCb r1 with
    | (.error err, r2) => (.error ("failed to find friend links: " ++ err), r2)
    | (.ok friendLinks, r2) =>
      if friendLinks.length = 0 then (.ok [], r2)
      else
        let r3 := emit progressCb (progressCheckingRSS friendLinks.length) r2
        let fanned := discoverRSSFeedsWithProgress W friendLinks progressCb r3
        (.ok fanned.1, fanned.2)

/-- Source `DiscoverFromFeed`: discovers blogs from a feed's homepage. -/
def DiscoverFromFeed {σ : Type} (W : World σ) (feedURL : String) (r : Run σ) :
    Except String (List DiscoveredBlog) × Run σ :=
  DiscoverFromFeedWithProgress W feedURL none r

/-! ## A concrete outside world, for evaluating the functions

The state is the number of network calls made so far. Every URL has a fixed
answer, taken from the tables of a `Site`; when a cancellation point is given,
the context is done from that call on and every later call fails with
`context canceled`. -/

/-- The tables of a static web: answers to `GET` and `HEAD`, the feeds the feed
parser finds, and the documents the HTML parser builds from a body. -/
structure Site where
  gets : List (String × Response) := []
  heads : List (String × Response) := []
  feeds : List (String × Feed) := []
  docs : List (String × Document) := []

/-- The answer of the static web to one request; an unknown URL answers 404. -/
def Site.respond (site : Site) (req : Request) : Response :=
  ((if req.Method = "HEAD" then site.heads else site.gets).lookup req.URL).getD { StatusCode := 404 }

/-- The static web as a `World`, cancelled from the call `cancelAt` on (never, if `none`). -/
def staticWorld (site : Site) (cancelAt : Option Nat) : World Nat where
  std := goStd
  ctxDone := fun s => match cancelAt with
    | some k => decide (k ≤ s)
    | none => false
  clientDo := fun req s =>
    match cancelAt with
    | some k => if k ≤ s then (.error "context canceled", s + 1) else (.ok (site.respond req), s + 1)
    | none => (.ok (site.respond req), s + 1)
  parseURLWithContext := fun u s =>
    let answer : Except String Feed :=
      match site.feeds.lookup u with
      | some feed => .ok feed
      | none => .error "failed to parse feed"
    match cancelAt with
    | some k => if k ≤ s then (.error "context canceled", s + 1) else (answer, s + 1)
    | none => (answer, s + 1)
  newDocumentFromReader := fun body => .ok ((site.docs.lookup body).getD {})

/-- The friend-link page of the demo site. -/
def demoLinksDoc : Document :=
  { anchors := [{ href := some "https://b.example/", text := "B" },
                { href := some "/about", text := "About" },
                { href := some "https://c.example/", text := "C" },
                { href := some "https://github.com/a", text := "code" },
                { href := some "https://b.example/", text := "B again" }] }

/-- The scenario of the specification: the feed of `a.example`, whose homepage
links to its friend-link page `/links`, which links to `b.example` and
`c.example`; `b.example` announces its feed in a `<link>` element and
`c.example` serves one at `/feed`. -/
def demoSite : Site where
  feeds :=
    [ ("https://a.example/feed.xml", { Title := "A", Link := "https://a.example/", Items := [] }),
      ("https://b.example/feed",
        { Title := "B Blog", Link := "https://b.example/",
          Items := [{ Title := "Hello", PublishedParsed := some { Year := 2024, Month := 1, Day := 1 } }] }),
      ("https://c.example/feed", { Title := "C Blog", Link := "https://c.example/", Items := [] }) ]
  gets :=
    [ ("https://a.example/", { StatusCode := 200, Body := ["home"] }),
      ("https://a.example/links", { StatusCode := 200, Body := ["links"] }),
      ("https://b.example/", { StatusCode := 200, Body := ["b"] }),
      ("https://c.example/", { StatusCode := 200, Body := ["c"] }) ]
  heads :=
    [ ("https://b.example/feed", { StatusCode := 200, ContentType := "application/rss+xml" }),
      ("https://c.example/feed", { StatusCode := 200, ContentType := "text/xml" }) ]
  docs :=
    [ ("home", { anchors := [{ href := some "/about", text := "About" },
                             { href := some "/links", text := " 友链 " }] }),
      ("links", demoLinksDoc),
      ("b", { links := [{ relAttr := some "alternate", typeAttr := some "application/rss+xml",
                          hrefAttr := some "/feed" }] }),
      ("c", {}) ]

/-! ## RFC 3986: reference resolution, in the words of the standard -/

/-- The five components of a URI reference (RFC 3986, section 3); a component is
`none` when it is undefined. -/
structure Components where
  scheme : Option (List Char) := none
  authority : Option (List Char) := none
  path : List Char := []
  query : Option (List Char) := none
  fragment : Option (List Char) := none
deriving DecidableEq, Repr

/-- RFC 3986, appendix B, the group `(([^:/?#]+):)?`: the scheme, if there is
one, and the rest of the reference. -/
def rfcScheme (s : List Char) : Option (List Char) × List Char :=
  let notEnd := fun c : Char => c != ':' && c != '/' && c != '?' && c != '#'
  if !(s.takeWhile notEnd).isEmpty && (s.dropWhile notEnd).head? == some ':' then
    (some (s.takeWhile notEnd), (s.dropWhile notEnd).drop 1)
  else (none, s)

/-- RFC 3986, appendix B, the group `(//([^/?#]*))?`: the authority, if there is
one, and the rest of the reference. -/
def rfcAuthority (s : List Char) : Option (List Char) × List Char :=
  let notEnd := fun c : Char => c != '/' && c != '?' && c != '#'
  if hasPrefixL s ['/', '/'] then
    (some ((s.drop 2).takeWhile notEnd), (s.drop 2).dropWhile notEnd)
  else (none, s)

/-- RFC 3986, appendix B, the group `(\?([^#]*))?`: the query, if there is one,
and the rest of the reference. -/
def rfcQuery (s : List Char) : Option (List Char) × List Char :=
  if s.head? == some '?' then
    (some ((s.drop 1).takeWhile (fun c => c != '#')), (s.drop 1).dropWhile (fun c => c != '#'))
  else (none, s)

/-- RFC 3986, appendix B: the components of a reference, as the regular expression
`^(([^:/?#]+):)?(//([^/?#]*))?([^?#]*)(\?([^#]*))?(#(.*))?` cuts it. -/
def rfcParse (s : List Char) : Components :=
  let afterScheme := rfcScheme s
  let afterAuthority := rfcAuthority afterScheme.2
  let afterPath := afterAuthority.2.dropWhile (fun c => c != '?' && c != '#')
  let afterQuery := rfcQuery afterPath
  { scheme := afterScheme.1,
    authority := afterAuthority.1,
    path := afterAuthority.2.takeWhile (fun c => c != '?' && c != '#'),
    query := afterQuery.1,
    fragment := if afterQuery.2.head? == some '#' then some (afterQuery.2.drop 1) else none }

/-- RFC 3986, 5.2.4, step 2C: "removing the last segment and its preceding `/`
(if any) from the output buffer". -/
def rfcRemoveLastSegment (output : List Char) : List Char :=
  ((output.reverse.dropWhile (fun c => c != '/')).drop 1).reverse

/-- RFC 3986, 5.2.4, one pass of the loop of step 2 on the input buffer and the
output buffer (rules A to E). -/
def rfcRemoveDotStep (input output : List Char) : List Char × List Char :=
  if hasPrefixL input ['.', '.', '/'] then (input.drop 3, output)
  else if hasPrefixL input ['.', '/'] then (input.drop 2, output)
  else if hasPrefixL input ['/', '.', '/'] then (input.drop 2, output)
  else if input = ['/', '.'] then (['/'], output)
  else if hasPrefixL input ['/', '.', '.', '/'] then (input.drop 3, rfcRemoveLastSegment output)
  else if input = ['/', '.', '.'] then (['/'], rfcRemoveLastSegment output)
  else if input = ['.'] ∨ input = ['.', '.'] then ([], output)
  else
    match input with
    | '/' :: rest =>
      (rest.dropWhile (fun c => c != '/'), output ++ '/' :: rest.takeWhile (fun c => c != '/'))
    | _ => (input.dropWhile (fun c => c != '/'), output ++ input.takeWhile (fun c => c != '/'))

/-- RFC 3986, 5.2.4, the loop of step 2: "while the input buffer is not empty".
Every pass shortens the input buffer, so the first argument, which bounds the
number of passes, is never exhausted when it starts at the length of the input. -/
def rfcRemoveDotLoop : Nat → List Char → List Char → List Char
  | 0, _, output => output
  | fuel + 1, input, output =>
    if input.isEmpty then output
    else rfcRemoveDotLoop fuel (rfcRemoveDotStep input output).1 (rfcRemoveDotStep input output).2

/-- RFC 3986, 5.2.4: `remove_dot_segments`. -/
def rfcRemoveDotSegments (path : List Char) : List Char :=
  rfcRemoveDotLoop path.length path []

/-- RFC 3986, 5.2.3: `merge` of a relative-path reference with the path of the base. -/
def rfcMerge (base : Components) (refPath : List Char) : List Char :=
  if base.authority.isSome && base.path.isEmpty then '/' :: refPath
  else uptoLastL '/' base.path ++ refPath

/-- RFC 3986, 5.2.2: the path of the target before `remove_dot_segments` is
applied to it (for a reference without scheme, authority and path it is the
path of the base, to which `remove_dot_segments` is not applied). -/
def rfcTargetPath (base r : Components) : List Char :=
  if r.scheme.isSome || r.authority.isSome then r.path
  else if r.path.isEmpty then base.path
  else if hasPrefixL r.path ['/'] then r.path
  else rfcMerge base r.path

/-- RFC 3986, 5.2.2: "Transform References", for a strict parser. -/
def rfcTransform (base r : Components) : Components :=
  if r.scheme.isSome then
    { scheme := r.scheme, authority := r.authority, path := rfcRemoveDotSegments r.path,
      query := r.query, fragment := r.fragment }
  else if r.authority.isSome then
    { scheme := base.scheme, authority := r.authority, path := rfcRemoveDotSegments r.path,
      query := r.query, fragment := r.fragment }
  else if r.path.isEmpty then
    { scheme := base.scheme, authority := base.authority, path := base.path,
      query := if r.query.isSome then r.query else base.query, fragment := r.fragment }
  else if hasPrefixL r.path ['/'] then
    { scheme := base.scheme, authority := base.authority, path := rfcRemoveDotSegments r.path,
      query := r.query, fragment := r.fragment }
  else
    { scheme := base.scheme, authority := base.authority,
      path := rfcRemoveDotSegments (rfcMerge base r.path),
      query := r.query, fragment := r.fragment }

/-- RFC 3986, 5.3: "Component Recomposition". -/
def rfcRecompose (c : Components) : List Char :=
  (match c.scheme with
   | some scheme => scheme ++ [':']
   | none => []) ++
  (match c.authority with
   | some authority => '/' :: '/' :: authority
   | none => []) ++
  c.path ++
  (match c.query with
   | some query => '?' :: query
   | none => []) ++
  (match c.fragment with
   | some fragment => '#' :: fragment
   | none => [])

/-- The standard reference resolution of `href` against `base` (RFC 3986, 5.2):
both are cut into their components (appendix B), the reference is transformed
(5.2.2) and the target is recomposed (5.3). -/
def rfcResolve (base href : String) : String :=
  ⟨rfcRecompose (rfcTransform (rfcParse base.data) (rfcParse href.data))⟩

/-- The components of a parsed `url.URL` without user information and opaque
part: a scheme, a host, a query or a fragment is undefined when the field is
empty (for the query, when moreover `ForceQuery` is not set). -/
def components (u : URL) : Components :=
  { scheme := if u.Scheme = "" then none else some u.Scheme.data,
    authority := if u.Host = "" then none else some u.Host.data,
    path := u.Path.data,
    query := if u.RawQuery = "" ∧ u.ForceQuery = false then none else some u.RawQuery.data,
    fragment := if u.Fragment = "" then none else some u.Fragment.data }

/-! ## Paths as lists of segments (used to compare `resolvePath` with RFC 3986) -/

/-- The path that consists of the given segments, each after a slash. -/
def renderSegments : List (List Char) → List Char
  | [] => []
  | s :: rest => '/' :: s ++ renderSegments rest

/-- The segments that remain of a path when the segments `.` are dropped and
every segment `..` removes the segment before it; a last segment `.` or `..`
leaves an empty last segment (a trailing slash). The first argument holds the
segments kept so far. -/
def normalizeSegments : List (List Char) → List (List Char) → List (List Char)
  | stack, [] => stack
  | stack, [s] =>
    if s = ['.'] then stack ++ [[]]
    else if s = ['.', '.'] then stack.dropLast ++ [[]]
    else stack ++ [s]
  | stack, s :: t :: rest =>
    if s = ['.'] then normalizeSegments stack (t :: rest)
    else if s = ['.', '.'] then normalizeSegments stack.dropLast (t :: rest)
    else normalizeSegments (stack ++ [s]) (t :: rest)

/-- The statements of `resolvePath` that follow its loop, on the state the loop
has left. -/
def resolveFinish (st : ResolveState) : List Char :=
  let r := '/' :: (if st.elem = ['.'] || st.elem = ['.', '.'] then st.dst ++ ['/'] else st.dst)
  match r with
  | _ :: '/' :: _ => r.drop 1
  | _ => r

/-- The state of the loop of `resolvePath` holds the given segments: either
every segment is written after a slash, or (after a `..` that found nothing
to remove) the first segment is written without its slash, or nothing is
written and the flag `first` is set. -/
def Represents (st : ResolveState) (stack : List (List Char)) : Prop :=
  (st.first = false ∧ st.dst = renderSegments stack) ∨
  (st.first = false ∧ stack ≠ [] ∧ st.dst = (renderSegments stack).drop 1) ∨
  (st.first = true ∧ stack = [] ∧ st.dst = [])

/-! ## Definitions that follow the words of the specification -/

/-- The candidate of one anchor, in the words of the specification: the
absolute resolution of its href against the base URL, provided the anchor has
an href, the href resolves, and the host of the resolved URL is non-empty,
differs from the host of the base URL and passes `isValidBlogDomain`. -/
def candidateOf (L : Stdlib) (baseURL : String) (a : Anchor) : Option String :=
  match a.href, L.urlParse baseURL with
  | some href, some baseU =>
    match L.urlParse (resolveURL L baseURL href) with
    | some u =>
      if resolveURL L baseURL href ≠ "" ∧ u.Host ≠ "" ∧ u.Host ≠ baseU.Host ∧
          isValidBlogDomain L u.Host = true
      then some (resolveURL L baseURL href) else none
    | none => none
  | _, _ => none

/-- The candidates of a page, one per qualifying anchor, in document order. -/
def candidates (L : Stdlib) (doc : Document) (baseURL : String) : List String :=
  doc.anchors.filterMap (candidateOf L baseURL)

/-- A list without its repetitions: every element is kept at its first
occurrence only. -/
def firstOccurrences : List String → List String
  | [] => []
  | x :: xs => x :: (firstOccurrences xs).filter (fun y => y ≠ x)

/-- An anchor matches a friend-link pattern, in the words of the specification:
its visible text or its href contains, case-insensitively, one of the patterns. -/
def anchorMatches (L : Stdlib) (a : Anchor) : Bool :=
  friendLinkPatterns.any (fun pattern =>
    Contains (L.toLower (TrimSpace a.text)) pattern ||
    (match a.href with
     | some href => Contains (L.toLower href) pattern
     | none => false))

/-- The friend-link page as C7 states it: the resolution of the href of the
first matching anchor, or the report that no page was found. -/
def claimedFriendLinkPage (L : Stdlib) (homepage : String) (doc : Document) : Except String String :=
  match doc.anchors.find? (anchorMatches L) with
  | some a => .ok (resolveURL L homepage (a.href.getD ""))
  | none => .error "friend link page not found"

/-- An anchor can win the scan of `findFriendLinkPage`: it has an href
attribute, it matches a pattern, and its href resolves to a non-empty URL. -/
def eligibleAnchor (L : Stdlib) (homepage : String) (a : Anchor) : Bool :=
  match a.href with
  | some href => anchorMatches L a && resolveURL L homepage href != ""
  | none => false

/-- The friend-link page as C7 is amended: the resolution of the href of the
first eligible anchor, or the report that no page was found. -/
def firstEligibleFriendLink (L : Stdlib) (homepage : String) (doc : Document) :
    Except String String :=
  match doc.anchors.find? (eligibleAnchor L homepage) with
  | some a => .ok (resolveURL L homepage (a.href.getD ""))
  | none => .error "friend link page not found"

/-- The URL that `findFriendLinksWithProgress` fetches as the friend-link page:
the page the locator found, or the homepage when the locator failed. -/
def friendPageURL {σ : Type} (W : World σ) (homepage : String) (r : Run σ) : String :=
  match (findFriendLinkPage W homepage r.world).1 with
  | .ok u => u
  | .error _ => homepage

/-- The run state in which `findFriendLinksWithProgress` fetches the friend-link
page: after the locator and after the update `fetching_friend_page`. -/
def friendPageRun {σ : Type} (W : World σ) (homepage : String)
    (progressCb : ProgressCallback σ) (r : Run σ) : Run σ :=
  emit progressCb (progressFetchingFriendPage (friendPageURL W homepage r))
    { r with world := (findFriendLinkPage W homepage r.world).2 }

/-- The fetch of the friend-link page by `findFriendLinksWithProgress`. -/
def friendPageFetch {σ : Type} (W : World σ) (homepage : String)
    (progressCb : ProgressCallback σ) (r : Run σ) : Except String Document × σ :=
  fetchHTML W (friendPageURL W homepage r) (friendPageRun W homepage progressCb r).world

/-- The run state in which `DiscoverFromFeedWithProgress` parses the feed:
after the update `fetching_homepage`. -/
def homepageRun {σ : Type} (feedURL : String) (progressCb : ProgressCallback σ) (r : Run σ) : Run σ :=
  emit progressCb (progressFetchingHomepage feedURL) r

/-- The run state in which `DiscoverFromFeedWithProgress` calls
`findFriendLinksWithProgress`: after the update `finding_friend_links`. -/
def friendLinksRun {σ : Type} (W : World σ) (feedURL homepage : String)
    (progressCb : ProgressCallback σ) (r : Run σ) : Run σ :=
  emit progressCb (progressFindingFriendLinks homepage)
    { homepageRun feedURL progressCb r with
      world := (getFeedHomepage W feedURL (homepageRun feedURL progressCb r).world).2 }

/-- The network honours the context: a request or a feed parse started when
the context is done fails. -/
def honoursCtx {σ : Type} (W : World σ) : Prop :=
  (∀ req s, W.ctxDone s = true → ∃ e, (W.clientDo req s).1 = .error e) ∧
  (∀ u s, W.ctxDone s = true → ∃ e, (W.parseURLWithContext u s).1 = .error e)

/-- A homepage whose first matching anchor has an empty href. -/
def emptyHrefDoc : Document :=
  { anchors := [{ href := some "", text := "友链" }, { href := some "/links", text := "Links" }] }

/-- A site whose homepage is `emptyHrefDoc`. -/
def emptyHrefSite : Site where
  gets := [("https://a.example/", { StatusCode := 200, Body := ["home"] })]
  docs := [("home", emptyHrefDoc)]

/-- A web on which every page answers 404. -/
def downSite : Site := {}

/-- A homepage without friend-link anchor, with one external link. -/
def noFriendDoc : Document :=
  { anchors := [{ href := some "/about", text := "About" },
                { href := some "https://b.example/", text := "B" }] }

/-- A site whose homepage is `noFriendDoc`. -/
def noFriendSite : Site where
  gets := [("https://a.example/", { StatusCode := 200, Body := ["home"] })]
  docs := [("home", noFriendDoc)]

/-- A site whose homepage links to a friend-link page `/links` that answers 404. -/
def brokenLinksSite : Site where
  feeds := [("https://a.example/feed.xml", { Title := "A", Link := "https://a.example/", Items := [] })]
  gets := [("https://a.example/", { StatusCode := 200, Body := ["home"] })]
  docs := [("home", { anchors := [{ href := some "/links", text := "友链" },
                                  { href := some "https://b.example/", text := "B" }] })]

/-- The blog found at `b.example` on the demo site. -/
def demoBlogB : DiscoveredBlog :=
  { Name := "B Blog", Homepage := "https://b.example/", RSSFeed := "https://b.example/feed",
    IconURL := "https://www.google.com/s2/favicons?domain=b.example",
    RecentArticles := [{ Title := "Hello", Date := "2024-01-01" }] }

/-- The blog found at `c.example` on the demo site. -/
def demoBlogC : DiscoveredBlog :=
  { Name := "C Blog", Homepage := "https://c.example/", RSSFeed := "https://c.example/feed",
    IconURL := "https://www.google.com/s2/favicons?domain=c.example",
    RecentArticles := [] }

/-- The run state in which the worker started for `u` probes the candidate:
after its progress update, if there is a callback. -/
def workerRun {σ : Type} (total : Nat) (progressCb : ProgressCallback σ)
    (st : FanOut σ) (u : String) : Run σ :=
  match progressCb with
  | none => st.run
  | some _ => emit progressCb (progressCheckingFeed u (st.processed + 1) total st.foundCount) st.run

/-- The outcome of the probe (`discoverBlogRSS`) of every candidate, in the
order of the run. -/
def probeOutcomes {σ : Type} (W : World σ) (total : Nat) (progressCb : ProgressCallback σ) :
    List String → FanOut σ → List (String × Except String DiscoveredBlog)
  | [], _ => []
  | u :: us, st =>
    (u, (discoverBlogRSS W u (workerRun total progressCb st u).world).1) ::
      probeOutcomes W total progressCb us (fanOutStep W total progressCb st u)

/-- The blogs of the probes that succeeded. -/
def successes (outcomes : List (String × Except String DiscoveredBlog)) : List DiscoveredBlog :=
  outcomes.filterMap (fun o =>
    match o.2 with
    | .ok blog => some blog
    | .error _ => none)

/-- A site whose homepage has no friend-link anchor and no external anchor. -/
def loneSite : Site where
  feeds := [("https://a.example/feed.xml", { Title := "A", Link := "https://a.example/", Items := [] })]
  gets := [("https://a.example/", { StatusCode := 200, Body := ["home"] })]
  docs := [("home", { anchors := [{ href := some "/about", text := "About" },
                                  { href := some "https://a.example/archive", text := "Archive" }] })]

/-- The demo site with the feed of `c.example` removed from the feeds the
parser can read: `c.example` still answers at `/feed`, but its probe fails. -/
def brokenFeedSite : Site :=
  { demoSite with feeds := demoSite.feeds.take 2 }

/-- A web on which the feed parser reads a feed without homepage link at
`https://a.example/blog/feed.xml?x=1#top`, and nothing else. -/
def noLinkSite : Site where
  feeds := [("https://a.example/blog/feed.xml?x=1#top", { Title := "A", Link := "", Items := [] })]

/-- Four feed items: with a date, without a date, with a date, with a date. -/
def fourItems : List Item :=
  [ { Title := "one", PublishedParsed := some { Year := 2024, Month := 1, Day := 1 } },
    { Title := "two", PublishedParsed := none },
    { Title := "three", PublishedParsed := some { Year := 987, Month := 12, Day := 31 } },
    { Title := "four", PublishedParsed := some { Year := 2023, Month := 6, Day := 5 } } ]

/-- The `<link>` elements that C15 names: `rel="alternate"` together with an
RSS, Atom or XML type. -/
def claimedHeadLink (l : LinkTag) : Bool :=
  l.relAttr == some "alternate" &&
  (match l.typeAttr with
   | some t => t == "application/rss+xml" || t == "application/atom+xml" || Contains t "xml"
   | none => false)

/-- A `<link>` element can give the head-tag feed of `findRSSFeed`: the selector
selects it, it has an href attribute, and the href resolves to a non-empty URL. -/
def headLinkUsable (L : Stdlib) (blogURL : String) (l : LinkTag) : Bool :=
  feedLinkSelected l &&
  (match l.hrefAttr with
   | some href => resolveURL L blogURL href != ""
   | none => false)

/-- The head-tag feed of a page: the resolved href of the first usable
`<link>` element, empty when there is none. -/
def firstHeadFeed (L : Stdlib) (blogURL : String) (doc : Document) : String :=
  match doc.links.find? (headLinkUsable L blogURL) with
  | some l => resolveURL L blogURL (l.hrefAttr.getD "")
  | none => ""

/-- The variable `foundFeed` of `findRSSFeed` after the scan of the page (empty
when the page cannot be fetched). -/
def headFeed {σ : Type} (W : World σ) (blogURL : String) (s : σ) : String :=
  match (fetchHTML W blogURL s).1 with
  | .ok doc => (doc.links.filter feedLinkSelected).foldl (foundFeedStep W.std blogURL) ""
  | .error _ => ""

/-- The test `foundFeed != "" && s.isValidFeed(ctx, foundFeed)` of `findRSSFeed`,
with the state after it. -/
def headCheck {σ : Type} (W : World σ) (blogURL : String) (s : σ) : Bool × σ :=
  if headFeed W blogURL s ≠ "" then isValidFeed W (headFeed W blogURL s) (fetchHTML W blogURL s).2
  else (false, (fetchHTML W blogURL s).2)

/-- The validations of the catalog paths in the order of the run: every feed
URL `baseURL + path` with the answer of `isValidFeed` for it. -/
def catalogChecks {σ : Type} (W : World σ) (baseURL : String) : List String → σ → List (String × Bool)
  | [], _ => []
  | path :: rest, s =>
    (baseURL ++ path, (isValidFeed W (baseURL ++ path) s).1) ::
      catalogChecks W baseURL rest (isValidFeed W (baseURL ++ path) s).2

/-- The first bytes read from a body contain one of the four feed markers. -/
def sniffsAsFeed (content : List Nat) : Bool :=
  ContainsBytes content "<?xml" || ContainsBytes content "<rss" ||
    ContainsBytes content "<feed" || ContainsBytes content "<atom"

/-- The `HEAD` request of `isValidFeed`. -/
def headRequest (feedURL : String) : Request := { Method := "HEAD", URL := feedURL }

/-- The `GET` request of `isValidFeed`. -/
def getRequest (feedURL : String) : Request := { Method := "GET", URL := feedURL }

/-- A blog whose page announces two feeds: first `/comments/feed` in a `<link>`
with `rel="feed"`, which answers 404, then `/main.rss` in a `<link>` with
`rel="alternate"`, which is a valid feed; no catalog path answers. -/
def relFeedSite : Site where
  gets := [("https://d.example/", { StatusCode := 200, Body := ["d"] })]
  heads := [("https://d.example/main.rss", { StatusCode := 200, ContentType := "application/rss+xml" })]
  docs :=
    [ ("d", { links := [{ relAttr := some "feed", typeAttr := some "application/rss+xml",
                          hrefAttr := some "/comments/feed" },
                        { relAttr := some "alternate", typeAttr := some "application/rss+xml",
                          hrefAttr := some "/main.rss" }] }) ]

/-- A feed whose `HEAD` answers 200 with the content type written in capitals. -/
def upperCaseSite : Site where
  heads := [("https://b.example/feed", { StatusCode := 200, ContentType := "Application/RSS+XML" })]

/-- A feed whose `HEAD` answers 405 and whose `GET` delivers an RSS document. -/
def getOnlySite : Site where
  heads := [("https://b.example/feed", { StatusCode := 405 })]
  gets := [("https://b.example/feed",
            { StatusCode := 200, ContentType := "text/plain", Body := ["", "<rss version=2>", "<channel>"] })]

/-- A body of 175 characters in one chunk: 170 times the three-byte character
`友`, then `<rss>`. The marker starts at byte 510 and ends after byte 512. -/
def wideBody : String := ⟨List.replicate 170 '友' ++ "<rss>".data⟩

/-- A feed whose `HEAD` answers 405 and whose `GET` delivers `wideBody`. -/
def wideSite : Site where
  heads := [("https://b.example/feed", { StatusCode := 405 })]
  gets := [("https://b.example/feed", { StatusCode := 200, Body := [wideBody] })]

/-- A web whose servers drop every `HEAD` request (a transport error) and
answer every `GET` with an RSS document. -/
def headlessWorld : World Nat where
  std := goStd
  ctxDone := fun _ => false
  clientDo := fun req s =>
    if req.Method = "HEAD" then (.error "EOF", s + 1)
    else (.ok { StatusCode := 200, ContentType := "application/rss+xml", Body := ["<rss version=2>"] }, s + 1)
  parseURLWithContext := fun _ s => (.error "failed to parse feed", s + 1)
  newDocumentFromReader := fun _ => .ok {}

/-- The stages of a discovery in their order, up to the fan-out; the stage
`checking_rss` follows them and is repeated. -/
def stageOrder : List String :=
  ["fetching_homepage", "finding_friend_links", "fetching_friend_page", "found_links"]

/-! ## The worker pools as transition systems

`discoverRSSFeedsWithProgress` and the common-path checks of `findRSSFeed` run
their workers concurrently. The two pools are modelled here step by step: a
state records where every worker stands, an action is one atomic step of the
main loop or of a worker, and the outcome of a probe or of a validation is
part of the action, so that every behaviour of the network is covered. -/

/-- The state of the pool of `discoverRSSFeedsWithProgress`. The workers are
kept by the statement they have reached: before the progress report
(`reporting`), inside `discoverBlogRSS` (`probing`), before `foundCount++`
(`counting`), before `results <- blog` (`sending`), before the deferred
`<-sem` and `wg.Done()` (`releasing`). `succeeded` counts the probes that have
returned without error, and `reads` holds the progress updates in the order in
which the counters were read, each with the value of `succeeded` at that time. -/
structure Pool where
  todo : List String := []
  reporting : List String := []
  probing : List String := []
  counting : List DiscoveredBlog := []
  sending : List DiscoveredBlog := []
  releasing : Nat := 0
  processed : Nat := 0
  foundCount : Nat := 0
  succeeded : Nat := 0
  reads : List (Progress × Nat) := []
  results : List DiscoveredBlog := []
deriving DecidableEq, Repr

/-- One atomic step of the pool: an iteration of the loop (`dispatch`) or the
next statement of the worker at the given position of its list. -/
inductive PoolAction where
  | dispatch
  | report (i : Nat)
  | probeOk (i : Nat) (blog : DiscoveredBlog)
  | probeFail (i : Nat)
  | count (i : Nat)
  | send (i : Nat)
  | release
deriving DecidableEq, Repr

/-- The workers that hold a slot of `sem`: those started and not yet finished. -/
def Pool.inFlight (s : Pool) : Nat :=
  s.reporting.length + s.probing.length + s.counting.length + s.sending.length + s.releasing

/-- The workers that may still send a blog to `results`. -/
def Pool.unsent (s : Pool) : Nat :=
  s.reporting.length + s.probing.length + s.counting.length + s.sending.length

/-- The pool before the loop: every URL waits to be dispatched. -/
def poolInit (blogURLs : List String) : Pool := { todo := blogURLs }

/-- The loop has ended and every worker has finished: `wg.Wait()` returns, the
channel is closed and the blogs in `results` are returned. -/
def Pool.final (s : Pool) : Bool :=
  s.todo.isEmpty && s.inFlight == 0

/-- One step of the pool of `discoverRSSFeedsWithProgress`, `none` when the
action cannot be taken in the state: `cap` is the capacity of `sem` (15 in the
source), `total` the length of `blogURLs`, which is also the capacity of
`results`, and `cb` tells whether the callback is non-nil. -/
def poolStep (cap total : Nat) (cb : Bool) (s : Pool) : PoolAction → Option Pool
  | .dispatch =>
    match s.todo with
    | u :: rest =>
      if s.inFlight < cap then some { s with todo := rest, reporting := s.reporting ++ [u] }
      else none
    | [] => none
  | .report i =>
    match s.reporting[i]? with
    | some u =>
      if cb then
        some { s with
          reporting := s.reporting.eraseIdx i, probing := s.probing ++ [u],
          processed := s.processed + 1,
          reads := s.reads ++
            [(progressCheckingFeed u (s.processed + 1) total s.foundCount, s.succeeded)] }
      else some { s with reporting := s.reporting.eraseIdx i, probing := s.probing ++ [u] }
    | none => none
  | .probeOk i blog =>
    match s.probing[i]? with
    | some _ =>
      some { s with probing := s.probing.eraseIdx i, counting := s.counting ++ [blog],
                    succeeded := s.succeeded + 1 }
    | none => none
  | .probeFail i =>
    match s.probing[i]? with
    | some _ => some { s with probing := s.probing.eraseIdx i, releasing := s.releasing + 1 }
    | none => none
  | .count i =>
    match s.counting[i]? with
    | some blog =>
      some { s with counting := s.counting.eraseIdx i, sending := s.sending ++ [blog],
                    foundCount := s.foundCount + 1 }
    | none => none
  | .send i =>
    match s.sending[i]? with
    | some blog =>
      if s.results.length < total then
        some { s with sending := s.sending.eraseIdx i, results := s.results ++ [blog],
                      releasing := s.releasing + 1 }
      else none
    | none => none
  | .release => if 0 < s.releasing then some { s with releasing := s.releasing - 1 } else none

/-- A run of the pool: the actions taken one after the other. -/
def runPool (cap total : Nat) (cb : Bool) : List PoolAction → Pool → Option Pool
  | [], s => some s
  | a :: rest, s =>
    match poolStep cap total cb s a with
    | some s1 => runPool cap total cb rest s1
    | none => none

/-- A bound on the number of steps that the pool can still take. -/
def Pool.measure (s : Pool) : Nat :=
  6 * s.todo.length + 5 * s.reporting.length + 4 * s.probing.length +
    3 * s.counting.length + 2 * s.sending.length + s.releasing

/-- The state of the pool of common-path checks of one `findRSSFeed`: the
goroutines that have not yet passed `semaphore <- struct{}{}` (`waiting`), those
that hold a slot and run `isValidFeed` (`checking`), and the feed URLs sent to
`resultCh` (`sent`). -/
structure InnerPool where
  waiting : List String := []
  checking : List String := []
  sent : List String := []
deriving DecidableEq, Repr

/-- One atomic step of the inner pool: a goroutine takes a slot, or the
validation of a goroutine returns and the goroutine finishes. -/
inductive InnerAction where
  | acquire (i : Nat)
  | finish (i : Nat) (valid : Bool)
deriving DecidableEq, Repr

/-- The inner pool when the goroutines have been started, one per path. -/
def innerInit (baseURL : String) (paths : List String) : InnerPool :=
  { waiting := paths.map (fun path => baseURL ++ path) }

/-- Every goroutine of the inner pool has finished. -/
def InnerPool.final (s : InnerPool) : Bool := s.waiting.isEmpty && s.checking.isEmpty

/-- One step of the inner pool, `none` when the action cannot be taken: `cap` is
the capacity of `semaphore` (5 in the source) and `buffer` the capacity of
`resultCh` (the number of paths). -/
def innerStep (cap buffer : Nat) (s : InnerPool) : InnerAction → Option InnerPool
  | .acquire i =>
    match s.waiting[i]? with
    | some fURL =>
      if s.checking.length < cap then
        some { s with waiting := s.waiting.eraseIdx i, checking := s.checking ++ [fURL] }
      else none
    | none => none
  | .finish i valid =>
    match s.checking[i]? with
    | some fURL =>
      if valid then
        if s.sent.length < buffer then
          some { s with checking := s.checking.eraseIdx i, sent := s.sent ++ [fURL] }
        else none
      else some { s with checking := s.checking.eraseIdx i }
    | none => none

/-- A run of the inner pool. -/
def runInner (cap buffer : Nat) : List InnerAction → InnerPool → Option InnerPool
  | [], s => some s
  | a :: rest, s =>
    match innerStep cap buffer s a with
    | some s1 => runInner cap buffer rest s1
    | none => none

/-- The action is not the successful return of a probe. -/
def PoolAction.noSuccess : PoolAction → Bool
  | .probeOk _ _ => false
  | _ => true

/-- The numbers of the pool that every step keeps: at most `cap` workers hold a
slot, `results` has room for every blog that may still be sent, and
`foundCount` lags behind `succeeded` by the workers that are about to count. -/
def PoolInv (cap total : Nat) (s : Pool) : Prop :=
  s.inFlight ≤ cap ∧ s.results.length + s.unsent + s.todo.length ≤ total ∧
  s.foundCount + s.counting.length = s.succeeded

/-- The progress updates read so far, with a non-nil callback: `Current` counts
1, 2, 3, and so on up to `processed`, `Total` is the number of candidates,
`FoundCount` never decreases and never exceeds the number of probes that had
succeeded when it was read. -/
def ReadsInv (total : Nat) (s : Pool) : Prop :=
  s.reads.map (fun x => x.1.Current) = List.range' 1 s.processed ∧
  (∀ x ∈ s.reads, x.1.Total = total ∧ x.1.Stage = "checking_rss") ∧
  (s.reads.map (fun x => x.1.FoundCount)).Pairwise (fun a b => a ≤ b) ∧
  (∀ x ∈ s.reads, x.1.FoundCount ≤ x.2 ∧ x.2 ≤ s.succeeded ∧ x.1.FoundCount ≤ s.foundCount) ∧
  s.processed + s.todo.length + s.reporting.length = total

/-- A run over the two candidates of the demo site in which the probe of
`b.example` succeeds before the worker of `c.example` reports, and the probe
of `c.example` fails. -/
def demoPoolRun : List PoolAction :=
  [ .dispatch, .dispatch, .report 0, .probeOk 0 demoBlogB, .count 0, .report 0,
    .send 0, .probeFail 0, .release, .release ]

/-- A run of the inner pool over three paths with two slots: the third
goroutine has to wait until a slot is free. -/
def demoInnerRun : List InnerAction :=
  [ .acquire 0, .acquire 0, .finish 0 false, .acquire 0, .finish 0 true, .finish 0 false ]

end Discovery

namespace Cache

/-! # `internal/cache/content_cache.go`

Instants (`time.Time`) and durations are integers, `Before` and `After` are
the strict orders on them. The map of the cache is a list of entries; the
order of the list stands for the order in which a `range` statement visits
the entries, which Go leaves unspecified. -/

/-- Source `ContentCacheItem`: a cached content item with expiration. -/
structure ContentCacheItem where
  Content : String
  ExpiresAt : Int
  SetAt : Int
deriving DecidableEq, Repr

/-- Source `ContentCache`: the map `cache`, `maxSize` and `ttl` (the mutex is
not modelled: every method runs under it from start to end). -/
structure ContentCache where
  cache : List (Int × ContentCacheItem) := []
  maxSize : Int
  ttl : Int
deriving DecidableEq, Repr

/-- Go `m[key]` with the comma-ok form: the item stored under the key, if any. -/
def mapLookup (m : List (Int × ContentCacheItem)) (key : Int) : Option ContentCacheItem :=
  match m.find? (fun e => e.1 == key) with
  | some e => some e.2
  | none => none

/-- Go `delete(m, key)`. -/
def mapDelete (m : List (Int × ContentCacheItem)) (key : Int) : List (Int × ContentCacheItem) :=
  m.filter (fun e => e.1 != key)

/-- Go `m[key] = item`. -/
def mapAssign (m : List (Int × ContentCacheItem)) (key : Int) (item : ContentCacheItem) :
    List (Int × ContentCacheItem) :=
  mapDelete m key ++ [(key, item)]

/-- Source `NewContentCache`: creates a new content cache. -/
def NewContentCache (maxSize ttl : Int) : ContentCache :=
  { cache := [], maxSize := maxSize, ttl := ttl }

/-- Source `Get`: retrieves content from cache if it exists and has not
expired; `now` is the reading of `time.Now()`. The removal of an expired item
is left to a goroutine, see `expiredRemoval`. -/
def Get (cc : ContentCache) (articleID : Int) (now : Int) : String × Bool :=
  match mapLookup cc.cache articleID with
  | none => ("", false)
  | some item => if now > item.ExpiresAt then ("", false) else (item.Content, true)

/-- The call `Get(articleID)` at the time `now` finds an expired item and starts
the goroutine that removes the entry of the article ID (`expiredRemoval`). -/
def startsRemoval (cc : ContentCache) (articleID : Int) (now : Int) : Bool :=
  match mapLookup cc.cache articleID with
  | none => false
  | some item => decide (now > item.ExpiresAt)

/-- The goroutine that `Get` starts when it finds an expired item: it deletes
whatever is stored under the article ID at the time it runs, which is any
time after the `Get` has returned. -/
def expiredRemoval (cc : ContentCache) (articleID : Int) : ContentCache :=
  { cc with cache := mapDelete cc.cache articleID }

/-- The body of the loop of `Set` that looks for the oldest item, on the pair
of `oldestID` and `oldestTime`. -/
def oldestStep (acc : Int × Int) (e : Int × ContentCacheItem) : Int × Int :=
  if e.2.SetAt < acc.2 then (e.1, e.2.SetAt) else acc

/-- Source `Set`: stores content in cache; `now` is the first reading of
`time.Now()` and `now2` the one that initialises `oldestTime`. -/
def Set (cc : ContentCache) (articleID : Int) (content : String) (now now2 : Int) : ContentCache :=
  let kept :=
    if (cc.cache.length : Int) ≥ cc.maxSize then
      let oldestID := (cc.cache.foldl oldestStep (0, now2)).1
      if oldestID ≠ 0 then mapDelete cc.cache oldestID else cc.cache
    else cc.cache
  { cc with
    cache := mapAssign kept articleID { Content := content, ExpiresAt := now + cc.ttl, SetAt := now } }

/-- Source `Clear`: removes all cached content. -/
def Clear (cc : ContentCache) : ContentCache :=
  { cc with cache := [] }

/-- Source `Size`: the current number of cached items. -/
def Size (cc : ContentCache) : Int := cc.cache.length

end Cache

namespace FreshRSS

/-! # `internal/freshrss/client.go`: `GetToken` and `MarkAsRead` -/

/-- Go `url.Values`: the values of a form, key by key. -/
abbrev Values := List (String × List String)

/-- Go `Values.Set`: sets the key to the single value, replacing any existing values. -/
def valuesSet (v : Values) (key value : String) : Values :=
  if v.any (fun e => e.1 == key) then v.map (fun e => if e.1 == key then (e.1, [value]) else e)
  else v ++ [(key, [value])]

/-- Go `v[key]`: all the values of the key. -/
def valuesOf (v : Values) (key : String) : List String :=
  match v.find? (fun e => e.1 == key) with
  | some e => e.2
  | none => []

/-- Source `Client`, without the HTTP client. -/
structure Client where
  baseURL : String
  username : String := ""
  password : String := ""
  authToken : String := ""
deriving DecidableEq, Repr

/-- A hexadecimal digit in upper case, as `url.QueryEscape` writes it. -/
def hexDigit (n : Nat) : Char := "0123456789ABCDEF".data.getD n '0'

/-- Go `url.QueryEscape` on one byte: letters, digits, `-`, `_`, `.` and `~` are
kept, the space becomes `+`, every other byte is written as `%XX`. -/
def escapeByte (b : Nat) : List Char :=
  if (0x30 ≤ b ∧ b ≤ 0x39) ∨ (0x41 ≤ b ∧ b ≤ 0x5A) ∨ (0x61 ≤ b ∧ b ≤ 0x7A) ∨
      b = 0x2D ∨ b = 0x5F ∨ b = 0x2E ∨ b = 0x7E then [Char.ofNat b]
  else if b = 0x20 then ['+']
  else ['%', hexDigit (b / 16), hexDigit (b % 16)]

/-- Go `url.QueryEscape` on a byte sequence. -/
def escapeBytes : List Nat → List Char
  | [] => []
  | b :: bs => escapeByte b ++ escapeBytes bs

/-- Go `url.QueryEscape`. -/
def QueryEscape (s : String) : String := ⟨escapeBytes (Discovery.utf8Encode s.data)⟩

/-- The order of Go strings: byte sequences compared from the left. -/
def bytesLt : List Nat → List Nat → Bool
  | _, [] => false
  | [], _ :: _ => true
  | a :: as, b :: bs => a < b || (a == b && bytesLt as bs)

/-- One step of the sort of the keys in `Values.Encode`: the entry is put
before the first entry with a greater key. -/
def insertByKey (e : String × List String) : Values → Values
  | [] => [e]
  | x :: xs =>
    if bytesLt (Discovery.utf8Encode e.1.data) (Discovery.utf8Encode x.1.data) then e :: x :: xs
    else x :: insertByKey e xs

/-- The entries of a form in the order of their keys. -/
def sortByKey : Values → Values
  | [] => []
  | e :: es => insertByKey e (sortByKey es)

/-- Go `Values.Encode`: `key=value` for every value of every key, the keys in
sorted order, keys and values escaped, joined by `&`. -/
def Encode (v : Values) : String :=
  "&".intercalate
    ((sortByKey v).foldr
      (fun e acc => e.2.map (fun value => QueryEscape e.1 ++ "=" ++ QueryEscape value) ++ acc) [])

/-- Go `http.Request`, the fields that `client.go` sets or that
`http.NewRequestWithContext` derives from the body it is given: the method, the
URL, the two headers, `ContentLength` and `GetBody` (both fixed when the request
is created), and the content of `Body`. -/
structure Request where
  Method : String
  URL : String
  Authorization : String := ""
  ContentType : String := ""
  ContentLength : Nat := 0
  GetBody : String := ""
  Body : String := ""
deriving DecidableEq, Repr

/-- Go `http.NewRequestWithContext` with a `strings.Reader` as body: the length
of the body in bytes becomes `ContentLength`, and `GetBody` returns a copy of
the body as it is at this moment. -/
def newRequest (method url body : String) : Request :=
  { Method := method, URL := url, ContentLength := body.utf8ByteSize, GetBody := body,
    Body := body }

/-- An HTTP response: status code and body. -/
structure Response where
  StatusCode : Nat
  Body : String := ""
deriving DecidableEq, Repr

/-- The HTTP client `c.httpClient.Do`, over a state of the outside world. -/
structure Server (σ : Type) where
  httpDo : Request → σ → Except String Response × σ

/-- Source `GetToken`: retrieves a write token for modifying operations. -/
def GetToken {σ : Type} (S : Server σ) (c : Client) (s : σ) : Except String String × σ :=
  if c.authToken = "" then (.error "not authenticated", s)
  else
    match S.httpDo { Method := "GET", URL := c.baseURL ++ "/reader/api/0/token",
                     Authorization := "GoogleLogin auth=" ++ c.authToken } s with
    | (.error err, s1) => (.error ("token request: " ++ err), s1)
    | (.ok resp, s1) =>
      if resp.StatusCode ≠ 200 then
        (.error ("token request failed with status " ++ toString resp.StatusCode), s1)
      else (.ok resp.Body, s1)

/-- The form `data` of `MarkAsRead` when the request is created: the token
under `T`, then `data.Set("i", id)` for every article ID in turn. -/
def markAsReadForm (token : String) (articleIDs : List String) : Values :=
  articleIDs.foldl (fun data id => valuesSet data "i" id) (valuesSet [] "T" token)

/-- The request of `MarkAsRead` at the call of `Do`: created with the encoding
of `data`, then given the two headers; then the read tag is set in `data` and
`req.Body` alone is replaced by the new encoding. -/
def markAsReadRequest (c : Client) (token : String) (articleIDs : List String) : Request :=
  let data := markAsReadForm token articleIDs
  let req := newRequest "POST" (c.baseURL ++ "/reader/api/0/edit-tag") (Encode data)
  let req := { req with Authorization := "GoogleLogin auth=" ++ c.authToken,
                        ContentType := "application/x-www-form-urlencoded" }
  let data := valuesSet data "a" "user/-/state/com.google/read"
  { req with Body := Encode data }

/-- Source `MarkAsRead`: marks articles as read. -/
def MarkAsRead {σ : Type} (S : Server σ) (c : Client) (articleIDs : List String) (s : σ) :
    Except String Unit × σ :=
  if c.authToken = "" then (.error "not authenticated", s)
  else
    match GetToken S c s with
    | (.error err, s1) => (.error ("get token: " ++ err), s1)
    | (.ok token, s1) =>
      match S.httpDo (markAsReadRequest c token articleIDs) s1 with
      | (.error err, s2) => (.error ("mark read request: " ++ err), s2)
      | (.ok resp, s2) =>
        if resp.StatusCode ≠ 200 then
          (.error ("mark read failed with status " ++ toString resp.StatusCode ++ ": " ++ resp.Body), s2)
        else (.ok (), s2)

/-- The body that the HTTP/1 transport of Go `net/http` puts on the wire for a
request that fits its write buffer. The transport announces `ContentLength`
and copies `Body`; when `Body` has another length it gives up before anything
is sent, with the error below. On a connection that has served a request
before, it then sends the request once more on a new connection, with the body
that `GetBody` returns. -/
def wireBody (reused : Bool) (req : Request) : Except String String :=
  if req.Body.utf8ByteSize = req.ContentLength then .ok req.Body
  else if reused then .ok req.GetBody
  else .error ("http: ContentLength=" ++ toString req.ContentLength ++ " with Body length " ++
    toString req.Body.utf8ByteSize)

/-- A server that answers every request with status 200 and the body `tok`;
the state is the list of the requests received so far, each with the body that
arrived on the wire. A request that the transport gives up is not received. -/
def recordingServer : Server (List (String × String × String)) where
  httpDo := fun req s =>
    match wireBody (!s.isEmpty) req with
    | .ok body => (.ok { StatusCode := 200, Body := "tok" }, s ++ [(req.Method, req.URL, body)])
    | .error err => (.error err, s)

end FreshRSS

namespace Summary

/-! # `internal/summary/summarizer.go`: `cleanText`, `splitSentences` and `Summarize` -/

/-- Go `ReplaceAllString` for the pattern `<[^>]*>` and the replacement `" "`:
a match starts at the first `<` that has a `>` somewhere after it and ends at
the first `>` after that `<`; the search goes on behind the match. The flag
tells whether the text read so far ends inside a match. -/
def removeTagsAux : Bool → List Char → List Char
  | _, [] => []
  | true, c :: cs => if c = '>' then removeTagsAux false cs else removeTagsAux true cs
  | false, c :: cs =>
    if c = '<' ∧ '>' ∈ cs then ' ' :: removeTagsAux true cs else c :: removeTagsAux false cs

/-- The first statement of `cleanText`: every match of `<[^>]*>` becomes a space. -/
def removeTags (text : List Char) : List Char := removeTagsAux false text

/-- Go `strings.ReplaceAll` for a non-empty `old`: the non-overlapping
occurrences of `old`, from the left, are replaced by `new`. The counter is the
number of characters of the current occurrence still to be dropped. -/
def replaceAllL (old new : List Char) : Nat → List Char → List Char
  | _, [] => []
  | skip + 1, _ :: cs => replaceAllL old new skip cs
  | 0, c :: cs =>
    if Discovery.hasPrefixL (c :: cs) old then new ++ replaceAllL old new (old.length - 1) cs
    else c :: replaceAllL old new 0 cs

/-- Go `strings.ReplaceAll` (for a non-empty `old`). -/
def ReplaceAll (s old new : String) : String := ⟨replaceAllL old.data new.data 0 s.data⟩

/-- The class `\s` of Go regular expressions: tab, line feed, form feed,
carriage return and space. -/
def isReSpace (c : Char) : Bool :=
  let n := c.toNat
  n == 0x09 || n == 0x0A || n == 0x0C || n == 0x0D || n == 0x20

/-- Go `ReplaceAllString` for the pattern `\s+` and the replacement `" "`: every
maximal run of white space becomes one space. The flag tells whether the
previous character was white space. -/
def collapseSpaces : Bool → List Char → List Char
  | _, [] => []
  | prev, c :: cs =>
    if isReSpace c then
      if prev then collapseSpaces true cs else ' ' :: collapseSpaces true cs
    else c :: collapseSpaces false cs

/-- Source `cleanText`: removes HTML tags, decodes six entities, normalizes
white space and trims. -/
def cleanText (text : String) : String :=
  let text : String := ⟨removeTags text.data⟩
  let text := ReplaceAll text "&nbsp;" " "
  let text := ReplaceAll text "&amp;" "&"
  let text := ReplaceAll text "&lt;" "<"
  let text := ReplaceAll text "&gt;" ">"
  let text := ReplaceAll text "&quot;" "\""
  let text := ReplaceAll text "&#39;" "'"
  let text : String := ⟨collapseSpaces false text.data⟩
  Discovery.TrimSpace text

/-- The class `[.!?。！？]` of the pattern of `splitSentences`. -/
def isSentenceEnd (c : Char) : Bool :=
  c = '.' || c = '!' || c = '?' || c = '。' || c = '！' || c = '？'

/-- The matches of the pattern `([.!?。！？]+)(\s+|$)` in a text, read from the
left: the result lists every part that `Split` returns together with the
first group of the match that follows it (empty for the last part, which no
match follows). A match is a maximal run of sentence-end characters that is
followed by white space or by the end of the text, together with that white
space. The arguments hold, in reverse, the part read so far and the run of
sentence-end characters that may still become a match; the flag tells whether
the text read so far ends inside the white space of a match. -/
def scanSentences (part punct : List Char) (inSep : Bool) :
    List Char → List (List Char × List Char)
  | [] =>
    if punct.isEmpty then [(part.reverse, [])]
    else [(part.reverse, punct.reverse), ([], [])]
  | c :: cs =>
    if isReSpace c then
      if inSep then scanSentences [] [] true cs
      else if punct.isEmpty then scanSentences (c :: part) [] false cs
      else (part.reverse, punct.reverse) :: scanSentences [] [] true cs
    else if isSentenceEnd c then scanSentences part (c :: punct) false cs
    else scanSentences (c :: (punct ++ part)) [] false cs

/-- The body of the loop of `splitSentences` for one part: the part is trimmed,
an empty part is skipped, the punctuation of the match is added back, and a
sentence of at most 10 bytes is dropped. -/
def sentenceOf (piece : List Char × List Char) : Option String :=
  let part := Discovery.TrimSpace ⟨piece.1⟩
  if part = "" then none
  else
    let part : String := ⟨part.data ++ piece.2⟩
    if part.utf8ByteSize > 10 then some part else none

/-- Source `splitSentences`: splits text into sentences. -/
def splitSentences (text : String) : List String :=
  (scanSentences [] [] false text.data).filterMap sentenceOf

/-- Go `strings.Join`. -/
def joinL (sep : List Char) : List String → List Char
  | [] => []
  | [s] => s.data
  | s :: t :: rest => s.data ++ sep ++ joinL sep (t :: rest)

/-- Source `SummaryLength`. -/
abbrev SummaryLength := String

/-- Source `MinContentLength`. -/
def MinContentLength : Nat := 200

/-- Source `MinSentenceCount`. -/
def MinSentenceCount : Nat := 3

/-- Source `SummaryResult`. -/
structure SummaryResult where
  Summary : String
  KeyPoints : List String := []
  SentenceCount : Nat := 0
  IsTooShort : Bool := false
deriving DecidableEq, Repr

/-- The parts of `Summarize` that are computed with floating point numbers, as
arguments: `calculateNumSentences`, and the order in which `scoreSentences`
followed by the sort by score leaves the sentences, given by their positions
(the scores come from the `gse` segmenter and from floating point arithmetic,
and `sort.Slice` is not stable). -/
structure Scoring where
  calculateNumSentences : Nat → SummaryLength → Nat
  rankedPositions : List String → List Nat

/-- Source `Summarizer.Summarize`; `len(cleanedText)` is the length in bytes.
The top sentences are the first `numSentences` of the ranking, sorted by
position. -/
def Summarize (S : Scoring) (text : String) (length : SummaryLength) : SummaryResult :=
  let cleanedText := cleanText text
  if cleanedText.utf8ByteSize < MinContentLength then
    { Summary := cleanedText, KeyPoints := [], IsTooShort := true }
  else
    let sentences := splitSentences cleanedText
    if sentences.length < MinSentenceCount then
      { Summary := cleanedText, KeyPoints := sentences, SentenceCount := sentences.length,
        IsTooShort := true }
    else
      let numSentences := S.calculateNumSentences sentences.length length
      let scoredSentences := S.rankedPositions sentences
      let topSentences := (scoredSentences.take numSentences).insertionSort (fun a b => a ≤ b)
      let keyPoints := topSentences.map (fun position => sentences.getD position "")
      { Summary := ⟨joinL [' '] keyPoints⟩, KeyPoints := keyPoints,
        SentenceCount := numSentences, IsTooShort := false }

/-- An HTML tag in the sense of the specification: `<`, then characters other
than `>`, then `>`. -/
def IsTag (t : List Char) : Prop :=
  ∃ mid : List Char, t = '<' :: mid ++ ['>'] ∧ '>' ∉ mid

/-- The text contains an HTML tag in the sense of the specification. -/
def ContainsTag (text : List Char) : Prop :=
  ∃ before t after : List Char, text = before ++ t ++ after ∧ IsTag t

/-- Some `<` of the text is followed, anywhere later, by a `>`. -/
def hasTag : List Char → Bool
  | [] => false
  | c :: cs => (c == '<' && cs.contains '>') || hasTag cs

/-- The ranking in which the sentences keep the order of the text, and half of
them (rounded up) are extracted. -/
def positionScoring : Scoring where
  calculateNumSentences := fun n _ => (n + 1) / 2
  rankedPositions := fun sentences => List.range sentences.length

/-- An article of three sentences with markup, longer than 200 bytes. -/
def demoArticle : String :=
  "<p>The <b>first</b> sentence of the article says what the article is about.</p> " ++
  "<p>The second sentence of the article gives a number of details, one after another!</p> " ++
  "<p>The third sentence of the article closes it; is 1 > 0 still true?</p>"

end Summary

namespace Discovery

/-! ## Paths and their segments -/

theorem renderSegments_append (a b : List (List Char)) :
    renderSegments (a ++ b) = renderSegments a ++ renderSegments b := by
  induction a with
  | nil => rfl
  | cons s rest ih => simp [renderSegments, ih]

theorem renderSegments_head (segs : List (List Char)) :
    renderSegments segs = [] ∨ ∃ r, renderSegments segs = '/' :: r := by
  cases segs with
  | nil => exact Or.inl rfl
  | cons s rest => exact Or.inr ⟨_, rfl⟩

theorem splitL_ne_nil (sep : Char) (l : List Char) : splitL sep l ≠ [] := by
  cases l with
  | nil => simp [splitL]
  | cons c cs =>
    unfold splitL
    split
    · simp
    · split <;> simp

theorem splitL_slashfree (l : List Char) : ∀ s ∈ splitL '/' l, '/' ∉ s := by
  induction l with
  | nil => simp [splitL]
  | cons c cs ih =>
    unfold splitL
    split
    · intro s hs
      rcases List.mem_cons.mp hs with h | h
      · subst h; simp
      · exact ih s h
    · rename_i hc
      split
      · rename_i hnil
        exact absurd hnil (splitL_ne_nil _ _)
      · rename_i seg rest hsp
        intro s hs
        rcases List.mem_cons.mp hs with h | h
        · subst h
          have hseg : '/' ∉ seg := ih seg (by rw [hsp]; exact List.mem_cons_self _ _)
          intro hmem
          rcases List.mem_cons.mp hmem with h1 | h1
          · exact hc h1.symm
          · exact hseg h1
        · exact ih s (by rw [hsp]; exact List.mem_cons_of_mem _ h)

theorem renderSegments_splitL (l : List Char) : renderSegments (splitL '/' l) = '/' :: l := by
  induction l with
  | nil => rfl
  | cons c cs ih =>
    unfold splitL
    split
    · rename_i hc
      subst hc
      simp [renderSegments, ih]
    · split
      · rename_i hnil
        exact absurd hnil (splitL_ne_nil _ _)
      · rename_i seg rest hsp
        rw [hsp] at ih
        have h2 : seg ++ renderSegments rest = cs := (List.cons.inj ih).2
        simp only [renderSegments, List.cons_append, h2]

theorem takeWhile_slashfree (s r : List Char) (hs : '/' ∉ s)
    (hr : r = [] ∨ ∃ r1, r = '/' :: r1) :
    (s ++ r).takeWhile (fun c => c != '/') = s ∧ (s ++ r).dropWhile (fun c => c != '/') = r := by
  induction s with
  | nil =>
    rcases hr with h | ⟨r1, h⟩ <;> subst h <;> simp
  | cons c cs ih =>
    have hc : c ≠ '/' := fun e => hs (e ▸ List.mem_cons_self _ _)
    have hcs : '/' ∉ cs := fun e => hs (List.mem_cons_of_mem _ e)
    obtain ⟨h1, h2⟩ := ih hcs
    simp [hc, h1, h2]

theorem rfcRemoveLastSegment_append (out s : List Char) (hs : '/' ∉ s) :
    rfcRemoveLastSegment (out ++ '/' :: s) = out := by
  unfold rfcRemoveLastSegment
  have h1 : (out ++ '/' :: s).reverse = s.reverse ++ '/' :: out.reverse := by simp
  rw [h1]
  have hs2 : '/' ∉ s.reverse := fun e => hs (List.mem_reverse.mp e)
  have h2 := (takeWhile_slashfree s.reverse ('/' :: out.reverse) hs2 (Or.inr ⟨_, rfl⟩)).2
  rw [h2]
  simp

theorem rfcRemoveLastSegment_render (stack : List (List Char))
    (hfree : ∀ s ∈ stack, '/' ∉ s) :
    rfcRemoveLastSegment (renderSegments stack) = renderSegments stack.dropLast := by
  rcases List.eq_nil_or_concat stack with h | ⟨init, last, h⟩
  · subst h
    rfl
  · subst h
    rw [List.concat_eq_append] at hfree ⊢
    rw [List.dropLast_concat, renderSegments_append]
    simp only [renderSegments, List.append_nil]
    exact rfcRemoveLastSegment_append _ _ (hfree last (by simp))

/-- One pass of the loop of `remove_dot_segments` on a path given by its segments. -/
theorem rfcRemoveDotStep_segments (s : List Char) (rest : List (List Char)) (out : List Char)
    (hs : '/' ∉ s) :
    rfcRemoveDotStep (renderSegments (s :: rest)) out =
      if s = ['.'] then (if rest = [] then (['/'], out) else (renderSegments rest, out))
      else if s = ['.', '.'] then
        (if rest = [] then (['/'], rfcRemoveLastSegment out)
         else (renderSegments rest, rfcRemoveLastSegment out))
      else (renderSegments rest, out ++ '/' :: s) := by
  have hr := renderSegments_head rest
  have htd := takeWhile_slashfree s (renderSegments rest) hs hr
  by_cases h1 : s = ['.']
  · subst h1
    cases rest with
    | nil => simp [rfcRemoveDotStep, renderSegments, hasPrefixL]
    | cons t more => simp [rfcRemoveDotStep, renderSegments, hasPrefixL]
  · by_cases h2 : s = ['.', '.']
    · subst h2
      cases rest with
      | nil => simp [rfcRemoveDotStep, renderSegments, hasPrefixL]
      | cons t more => simp [rfcRemoveDotStep, renderSegments, hasPrefixL]
    · simp only [h1, h2, if_false]
      have hE : ∀ input, input = '/' :: (s ++ renderSegments rest) →
          (match input with
            | '/' :: rest1 =>
              (rest1.dropWhile (fun c => c != '/'), out ++ '/' :: rest1.takeWhile (fun c => c != '/'))
            | _ => (input.dropWhile (fun c => c != '/'), out ++ input.takeWhile (fun c => c != '/'))) =
          (renderSegments rest, out ++ '/' :: s) := by
        intro input hi
        subst hi
        simp only [htd.1, htd.2]
      unfold rfcRemoveDotStep
      simp only [renderSegments, List.cons_append]
      have hp1 : hasPrefixL ('/' :: (s ++ renderSegments rest)) ['.', '.', '/'] = false := by
        simp [hasPrefixL]
      have hp2 : hasPrefixL ('/' :: (s ++ renderSegments rest)) ['.', '/'] = false := by
        simp [hasPrefixL]
      have hp3 : hasPrefixL ('/' :: (s ++ renderSegments rest)) ['/', '.', '/'] = false := by
        cases s with
        | nil => rcases hr with h | ⟨r1, h⟩ <;> simp [hasPrefixL, h]
        | cons c t =>
          cases t with
          | nil =>
            have : c ≠ '.' := fun e => h1 (by rw [e])
            simp [hasPrefixL, this]
          | cons d t2 =>
            have hd : d ≠ '/' := fun e => hs (by rw [← e]; simp)
            simp [hasPrefixL, hd]
      have hp4 : ('/' :: (s ++ renderSegments rest)) ≠ ['/', '.'] := by
        intro e
        simp only [List.cons.injEq, true_and] at e
        cases s with
        | nil => rcases hr with h | ⟨r1, h⟩ <;> simp [h] at e
        | cons c t =>
          simp only [List.cons_append, List.cons.injEq] at e
          obtain ⟨e1, e2⟩ := e
          have : t = [] := (List.append_eq_nil.mp e2).1
          exact h1 (by rw [e1, this])
      have hp5 : hasPrefixL ('/' :: (s ++ renderSegments rest)) ['/', '.', '.', '/'] = false := by
        cases s with
        | nil => rcases hr with h | ⟨r1, h⟩ <;> simp [hasPrefixL, h]
        | cons c t =>
          cases t with
          | nil =>
            rcases hr with h | ⟨r1, h⟩ <;> simp [hasPrefixL, h]
          | cons d t2 =>
            cases t2 with
            | nil =>
              have : ¬ (c = '.' ∧ d = '.') := fun e => h2 (by rw [e.1, e.2])
              by_cases hc : c = '.'
              · have hd : d ≠ '.' := fun e => this ⟨hc, e⟩
                simp [hasPrefixL, hd]
              · simp [hasPrefixL, hc]
            | cons e t3 =>
              have he : e ≠ '/' := fun h => hs (by rw [← h]; simp)
              simp [hasPrefixL, he]
      have hp6 : ('/' :: (s ++ renderSegments rest)) ≠ ['/', '.', '.'] := by
        intro e
        simp only [List.cons.injEq, true_and] at e
        cases s with
        | nil => rcases hr with h | ⟨r1, h⟩ <;> simp [h] at e
        | cons c t =>
          cases t with
          | nil =>
            rcases hr with h | ⟨r1, h⟩ <;> simp [h] at e
          | cons d t2 =>
            simp only [List.cons_append, List.cons.injEq] at e
            obtain ⟨e1, e2, e3⟩ := e
            have : t2 = [] := (List.append_eq_nil.mp e3).1
            exact h2 (by rw [e1, e2, this])
      have hp7 : ¬ (('/' :: (s ++ renderSegments rest)) = ['.'] ∨
          ('/' :: (s ++ renderSegments rest)) = ['.', '.']) := by
        intro h
        rcases h with h | h <;> exact absurd (List.cons.inj h).1 (by decide)
      simp only [hp1, hp2, hp3, hp4, hp5, hp6, hp7, Bool.false_eq_true, if_false]
      exact hE _ rfl

theorem renderSegments_length_pos (s : List Char) (rest : List (List Char)) :
    (renderSegments rest).length < (renderSegments (s :: rest)).length := by
  simp [renderSegments]
  omega

/-- RFC 3986, 5.2.4, on a path given by its segments. -/
theorem rfcRemoveDotLoop_segments (fuel : Nat) :
    ∀ (segs stack : List (List Char)), (∀ s ∈ segs, '/' ∉ s) → (∀ s ∈ stack, '/' ∉ s) →
      (renderSegments segs).length ≤ fuel →
      rfcRemoveDotLoop fuel (renderSegments segs) (renderSegments stack) =
        renderSegments (normalizeSegments stack segs) := by
  induction fuel with
  | zero =>
    intro segs stack _ _ hlen
    cases segs with
    | nil => rfl
    | cons s rest => simp [renderSegments] at hlen
  | succ fuel ih =>
    intro segs stack hsegs hstack hlen
    cases segs with
    | nil => rfl
    | cons s rest =>
      have hs : '/' ∉ s := hsegs s (List.mem_cons_self _ _)
      have hrest : ∀ t ∈ rest, '/' ∉ t := fun t ht => hsegs t (List.mem_cons_of_mem _ ht)
      have hdrop : ∀ t ∈ stack.dropLast, '/' ∉ t :=
        fun t ht => hstack t (List.mem_of_mem_dropLast ht)
      have hlen2 : (renderSegments rest).length ≤ fuel := by
        have := renderSegments_length_pos s rest
        omega
      have hne : (renderSegments (s :: rest)).isEmpty = false := by simp [renderSegments]
      rw [rfcRemoveDotLoop, hne]
      simp only [Bool.false_eq_true, if_false]
      rw [rfcRemoveDotStep_segments s rest _ hs]
      have hout : ∀ t : List Char, renderSegments stack ++ '/' :: t = renderSegments (stack ++ [t]) := by
        intro t
        simp [renderSegments_append, renderSegments]
      by_cases h1 : s = ['.']
      · subst h1
        cases rest with
        | nil =>
          have h := ih [[]] stack (by simp) hstack
            (by simp only [renderSegments, List.append_nil, List.length_cons, List.length_nil] at hlen ⊢; omega)
          simpa [renderSegments, normalizeSegments] using h
        | cons t more =>
          have h := ih (t :: more) stack hrest hstack hlen2
          simpa [normalizeSegments] using h
      · by_cases h2 : s = ['.', '.']
        · subst h2
          rw [rfcRemoveLastSegment_render stack hstack]
          cases rest with
          | nil =>
            have h := ih [[]] stack.dropLast (by simp) hdrop
              (by simp only [renderSegments, List.append_nil, List.length_cons, List.length_nil] at hlen ⊢; omega)
            simpa [renderSegments, normalizeSegments] using h
          | cons t more =>
            have h := ih (t :: more) stack.dropLast hrest hdrop hlen2
            simpa [normalizeSegments] using h
        · simp only [h1, h2, if_false]
          rw [hout]
          have hstack2 : ∀ t ∈ stack ++ [s], '/' ∉ t := by
            intro t ht
            rcases List.mem_append.mp ht with h | h
            · exact hstack t h
            · rw [List.mem_singleton.mp h]
              exact hs
          cases rest with
          | nil =>
            have h := ih [] (stack ++ [s]) (by simp) hstack2 (by simp [renderSegments])
            simpa [normalizeSegments, h1, h2] using h
          | cons t more =>
            have h := ih (t :: more) (stack ++ [s]) hrest hstack2 hlen2
            simpa [normalizeSegments, h1, h2] using h

/-- RFC 3986, 5.2.4, on a rooted path: the segments after the first slash are
normalized. -/
theorem rfcRemoveDotSegments_rooted (q : List Char) :
    rfcRemoveDotSegments ('/' :: q) = renderSegments (normalizeSegments [] (splitL '/' q)) := by
  unfold rfcRemoveDotSegments
  have h := rfcRemoveDotLoop_segments ('/' :: q).length (splitL '/' q) []
    (splitL_slashfree q) (by simp) (by rw [renderSegments_splitL])
  rw [renderSegments_splitL] at h
  exact h

/-! ## The loop of `resolvePath` on the segments of a path -/

theorem resolvePath_eq_finish (p : List Char) (hp : p ≠ []) :
    resolvePath p [] = resolveFinish ((splitL '/' p).foldl resolveStep {}) := by
  unfold resolvePath resolveFinish
  have : p.isEmpty = false := by
    cases p with
    | nil => exact absurd rfl hp
    | cons c cs => rfl
  simp only [this, Bool.false_eq_true, if_false]

theorem beforeLastL_none (s : List Char) (hs : '/' ∉ s) : beforeLastL '/' s = none := by
  unfold beforeLastL
  have h : s.reverse.dropWhile (fun c => c != '/') = [] := by
    rw [List.dropWhile_eq_nil_iff]
    intro c hc
    have : c ≠ '/' := fun e => hs (e ▸ List.mem_reverse.mp hc)
    simpa using this
  rw [h]

theorem beforeLastL_append (a s : List Char) (hs : '/' ∉ s) :
    beforeLastL '/' (a ++ '/' :: s) = some a := by
  unfold beforeLastL
  have h1 : (a ++ '/' :: s).reverse = s.reverse ++ '/' :: a.reverse := by simp
  rw [h1]
  have hs2 : '/' ∉ s.reverse := fun e => hs (List.mem_reverse.mp e)
  have h2 := (takeWhile_slashfree s.reverse ('/' :: a.reverse) hs2 (Or.inr ⟨_, rfl⟩)).2
  rw [h2]
  simp

theorem renderSegments_concat (init : List (List Char)) (l : List Char) :
    renderSegments (init ++ [l]) = renderSegments init ++ '/' :: l := by
  simp [renderSegments_append, renderSegments]

theorem renderSegments_drop_concat (init : List (List Char)) (l : List Char) (hne : init ≠ []) :
    (renderSegments (init ++ [l])).drop 1 = (renderSegments init).drop 1 ++ '/' :: l := by
  cases init with
  | nil => exact absurd rfl hne
  | cons s rest =>
    simp [renderSegments, renderSegments_append]

/-- A segment `..` in the loop of `resolvePath` removes the last segment held. -/
theorem resolveStep_dotdot (st : ResolveState) (stack : List (List Char))
    (hrep : Represents st stack) (hfree : ∀ s ∈ stack, '/' ∉ s) :
    Represents (resolveStep st ['.', '.']) stack.dropLast ∧
      (resolveStep st ['.', '.']).elem = ['.', '.'] := by
  have hstep : resolveStep st ['.', '.'] =
      match beforeLastL '/' st.dst with
      | none => { dst := [], first := true, elem := ['.', '.'] }
      | some kept => { dst := kept, first := st.first, elem := ['.', '.'] } := by
    unfold resolveStep
    simp
  rw [hstep]
  rcases hrep with ⟨hf, hd⟩ | ⟨hf, hne, hd⟩ | ⟨hf, hnil, hd⟩
  · rcases List.eq_nil_or_concat stack with h | ⟨init, last, h⟩
    · subst h
      rw [hd]
      exact ⟨Or.inr (Or.inr ⟨rfl, rfl, rfl⟩), rfl⟩
    · rw [List.concat_eq_append] at h
      subst h
      rw [hd, renderSegments_concat, beforeLastL_append _ _ (hfree last (by simp)),
        List.dropLast_concat]
      exact ⟨Or.inl ⟨hf, rfl⟩, rfl⟩
  · rcases List.eq_nil_or_concat stack with h | ⟨init, last, h⟩
    · exact absurd h hne
    · rw [List.concat_eq_append] at h
      subst h
      rw [List.dropLast_concat]
      by_cases hi : init = []
      · subst hi
        have hd2 : st.dst = last := by
          rw [hd]
          simp [renderSegments]
        rw [hd2, beforeLastL_none _ (hfree last (by simp))]
        exact ⟨Or.inr (Or.inr ⟨rfl, rfl, rfl⟩), rfl⟩
      · rw [hd, renderSegments_drop_concat _ _ hi, beforeLastL_append _ _ (hfree last (by simp))]
        exact ⟨Or.inr (Or.inl ⟨hf, hi, rfl⟩), rfl⟩
  · subst hnil
    rw [hd]
    exact ⟨Or.inr (Or.inr ⟨rfl, rfl, rfl⟩), rfl⟩

/-- A segment `.` in the loop of `resolvePath` keeps the segments held. -/
theorem resolveStep_dot (st : ResolveState) (stack : List (List Char))
    (hrep : Represents st stack) :
    Represents (resolveStep st ['.']) stack ∧ (resolveStep st ['.']).elem = ['.'] := by
  have hstep : resolveStep st ['.'] = { st with first := false, elem := ['.'] } := by
    unfold resolveStep
    simp
  rw [hstep]
  rcases hrep with ⟨hf, hd⟩ | ⟨hf, hne, hd⟩ | ⟨hf, hnil, hd⟩
  · exact ⟨Or.inl ⟨rfl, hd⟩, rfl⟩
  · exact ⟨Or.inr (Or.inl ⟨rfl, hne, hd⟩), rfl⟩
  · subst hnil
    exact ⟨Or.inl ⟨rfl, hd⟩, rfl⟩

/-- Any other segment is added to the segments held. -/
theorem resolveStep_push (st : ResolveState) (stack : List (List Char)) (s : List Char)
    (h1 : s ≠ ['.']) (h2 : s ≠ ['.', '.']) (hrep : Represents st stack) :
    Represents (resolveStep st s) (stack ++ [s]) ∧ (resolveStep st s).elem = s := by
  have hstep : resolveStep st s =
      { dst := (if st.first then st.dst else st.dst ++ ['/']) ++ s, first := false, elem := s } := by
    unfold resolveStep
    simp [h1, h2]
  rw [hstep]
  refine ⟨?_, rfl⟩
  rcases hrep with ⟨hf, hd⟩ | ⟨hf, hne, hd⟩ | ⟨hf, hnil, hd⟩
  · left
    refine ⟨rfl, ?_⟩
    simp [hf, hd, renderSegments_concat]
  · right
    left
    refine ⟨rfl, by simp, ?_⟩
    simp [hf, hd, renderSegments_drop_concat _ _ hne]
  · subst hnil
    right
    left
    refine ⟨rfl, by simp, ?_⟩
    simp [hf, hd, renderSegments]

theorem resolveFinish_plain (st : ResolveState) (stack : List (List Char))
    (h1 : st.elem ≠ ['.']) (h2 : st.elem ≠ ['.', '.']) (hrep : Represents st stack)
    (hne : stack ≠ []) (hfree : ∀ s ∈ stack, '/' ∉ s) (hinit : ∀ s ∈ stack.dropLast, s ≠ []) :
    resolveFinish st = renderSegments stack := by
  unfold resolveFinish
  simp only [h1, h2, decide_False, Bool.or_self, Bool.false_eq_true, if_false]
  cases stack with
  | nil => exact absurd rfl hne
  | cons s1 rest =>
    rcases hrep with ⟨_, hd⟩ | ⟨_, _, hd⟩ | ⟨_, hnil, _⟩
    · rw [hd]
      simp [renderSegments]
    · rw [hd]
      simp only [renderSegments, List.cons_append, List.drop_one, List.tail_cons]
      cases s1 with
      | nil =>
        cases rest with
        | nil => rfl
        | cons t more =>
          exact absurd rfl (hinit [] (by simp [List.dropLast]))
      | cons c t =>
        have hc : c ≠ '/' := fun e => hfree (c :: t) (List.mem_cons_self _ _) (by rw [e]; simp)
        simp only [List.cons_append]
        split
        · rename_i heq
          simp only [List.cons.injEq] at heq
          exact absurd heq.2.1 hc
        · rfl
    · cases hnil

theorem resolveFinish_dot (st : ResolveState) (stack : List (List Char))
    (h : st.elem = ['.'] ∨ st.elem = ['.', '.']) (hrep : Represents st stack)
    (hgood : ∀ s ∈ stack, s ≠ [] ∧ '/' ∉ s) :
    resolveFinish st = renderSegments (stack ++ [[]]) := by
  unfold resolveFinish
  have hcond : (decide (st.elem = ['.']) || decide (st.elem = ['.', '.'])) = true := by
    rcases h with h | h <;> simp [h]
  simp only [hcond, if_true]
  rw [renderSegments_concat]
  rcases hrep with ⟨_, hd⟩ | ⟨_, hne, hd⟩ | ⟨_, hnil, hd⟩
  · rw [hd]
    cases stack with
    | nil => rfl
    | cons s1 rest => simp [renderSegments]
  · rw [hd]
    cases stack with
    | nil => exact absurd rfl hne
    | cons s1 rest =>
      simp only [renderSegments, List.cons_append, List.drop_one, List.tail_cons]
      cases s1 with
      | nil => exact absurd rfl (hgood [] (List.mem_cons_self _ _)).1
      | cons c t =>
        have hc : c ≠ '/' :=
          fun e => (hgood (c :: t) (List.mem_cons_self _ _)).2 (by rw [e]; simp)
        simp only [List.cons_append]
        split
        · rename_i heq
          simp only [List.cons.injEq] at heq
          exact absurd heq.2.1 hc
        · rfl
  · subst hnil
    rw [hd]
    rfl

/-- The loop of `resolvePath` and the statements after it, on a path whose
segments, except the last one, are not empty. -/
theorem resolveFinish_foldl (segs : List (List Char)) :
    ∀ (st : ResolveState) (stack : List (List Char)), segs ≠ [] →
      (∀ s ∈ segs, '/' ∉ s) → (∀ s ∈ segs.dropLast, s ≠ []) →
      Represents st stack → (∀ s ∈ stack, s ≠ [] ∧ '/' ∉ s) →
      resolveFinish (segs.foldl resolveStep st) =
        renderSegments (normalizeSegments stack segs) := by
  induction segs with
  | nil => intro st stack h; exact absurd rfl h
  | cons s rest ih =>
    intro st stack _ hfree hinit hrep hgood
    have hs : '/' ∉ s := hfree s (List.mem_cons_self _ _)
    have hdrop : ∀ t ∈ stack.dropLast, t ≠ [] ∧ '/' ∉ t :=
      fun t ht => hgood t (List.mem_of_mem_dropLast ht)
    cases rest with
    | nil =>
      rw [List.foldl_cons, List.foldl_nil]
      by_cases h1 : s = ['.']
      · subst h1
        obtain ⟨hr, he⟩ := resolveStep_dot st stack hrep
        rw [resolveFinish_dot _ stack (Or.inl he) hr hgood]
        simp [normalizeSegments]
      · by_cases h2 : s = ['.', '.']
        · subst h2
          obtain ⟨hr, he⟩ := resolveStep_dotdot st stack hrep (fun t ht => (hgood t ht).2)
          rw [resolveFinish_dot _ stack.dropLast (Or.inr he) hr hdrop]
          simp [normalizeSegments]
        · obtain ⟨hr, he⟩ := resolveStep_push st stack s h1 h2 hrep
          rw [resolveFinish_plain _ (stack ++ [s]) (by rw [he]; exact h1) (by rw [he]; exact h2)
            hr (by simp) ?_ ?_]
          · simp [normalizeSegments, h1, h2]
          · intro t ht
            rcases List.mem_append.mp ht with h | h
            · exact (hgood t h).2
            · rw [List.mem_singleton.mp h]
              exact hs
          · intro t ht
            rw [List.dropLast_concat] at ht
            exact (hgood t ht).1
    | cons t more =>
      have hsne : s ≠ [] := hinit s (by simp [List.dropLast])
      have hfree2 : ∀ u ∈ t :: more, '/' ∉ u := fun u hu => hfree u (List.mem_cons_of_mem _ hu)
      have hinit2 : ∀ u ∈ (t :: more).dropLast, u ≠ [] := by
        intro u hu
        apply hinit u
        rw [List.dropLast_cons_of_ne_nil (by simp)]
        exact List.mem_cons_of_mem _ hu
      rw [List.foldl_cons]
      by_cases h1 : s = ['.']
      · subst h1
        obtain ⟨hr, _⟩ := resolveStep_dot st stack hrep
        rw [ih _ stack (by simp) hfree2 hinit2 hr hgood]
        simp [normalizeSegments]
      · by_cases h2 : s = ['.', '.']
        · subst h2
          obtain ⟨hr, _⟩ := resolveStep_dotdot st stack hrep (fun t ht => (hgood t ht).2)
          rw [ih _ stack.dropLast (by simp) hfree2 hinit2 hr hdrop]
          simp [normalizeSegments]
        · obtain ⟨hr, _⟩ := resolveStep_push st stack s h1 h2 hrep
          rw [ih _ (stack ++ [s]) (by simp) hfree2 hinit2 hr ?_]
          · simp [normalizeSegments, h1, h2]
          · intro u hu
            rcases List.mem_append.mp hu with h | h
            · exact hgood u h
            · rw [List.mem_singleton.mp h]
              exact ⟨hsne, hs⟩

/-- Go `resolvePath` on a rooted path whose segments, except the last one, are
not empty: the segments after the first slash are normalized. -/
theorem resolvePath_rooted (q : List Char) (hinit : ∀ s ∈ (splitL '/' q).dropLast, s ≠ []) :
    resolvePath ('/' :: q) [] = renderSegments (normalizeSegments [] (splitL '/' q)) := by
  rw [resolvePath_eq_finish _ (by simp)]
  have hsplit : splitL '/' ('/' :: q) = [] :: splitL '/' q := by
    simp [splitL]
  rw [hsplit, List.foldl_cons]
  have hstep : resolveStep {} [] = { dst := [], first := false, elem := [] } := by
    unfold resolveStep
    simp
  rw [hstep]
  exact resolveFinish_foldl _ _ [] (splitL_ne_nil _ _) (splitL_slashfree q) hinit
    (Or.inl ⟨rfl, rfl⟩) (by simp)

/-- Go `resolvePath` on a path without leading slash: the result is the same as
for the path with a slash before it. -/
theorem resolvePath_rootless (q : List Char) (hq : q ≠ [])
    (hinit : ∀ s ∈ (splitL '/' q).dropLast, s ≠ []) :
    resolvePath q [] = renderSegments (normalizeSegments [] (splitL '/' q)) := by
  rw [resolvePath_eq_finish _ hq]
  exact resolveFinish_foldl _ _ [] (splitL_ne_nil _ _) (splitL_slashfree q) hinit
    (Or.inr (Or.inr ⟨rfl, rfl, rfl⟩)) (by simp)

/-! ## `ResolveReference` and `String` against RFC 3986, 5.2.2 and 5.3 -/

theorem string_eq_empty_iff (s : String) : s = "" ↔ s.data = [] := by
  constructor
  · intro h
    rw [h]
  · intro h
    exact String.ext h

theorem middle_segments_nonempty (q : List Char) (h : containsL q ['/', '/'] = false) :
    ∀ s ∈ ((splitL '/' q).drop 1).dropLast, s ≠ [] := by
  induction q with
  | nil => simp [splitL]
  | cons c cs ih =>
    have hpre : hasPrefixL (c :: cs) ['/', '/'] = false := by
      simp only [containsL, Bool.or_eq_false_iff] at h
      exact h.1
    have hcs : containsL cs ['/', '/'] = false := by
      simp only [containsL, Bool.or_eq_false_iff] at h
      exact h.2
    by_cases hc : c = '/'
    · subst hc
      have hsplit : splitL '/' ('/' :: cs) = [] :: splitL '/' cs := by simp [splitL]
      rw [hsplit, List.drop_one, List.tail_cons]
      cases cs with
      | nil => simp [splitL]
      | cons d ds =>
        have hd : d ≠ '/' := by
          intro e
          subst e
          simp [hasPrefixL] at hpre
        have ih2 := ih hcs
        have hsp : splitL '/' (d :: ds) =
            (match splitL '/' ds with
              | [] => [[d]]
              | seg :: rest => (d :: seg) :: rest) := by
          simp [splitL, hd]
        cases hds : splitL '/' ds with
        | nil => exact absurd hds (splitL_ne_nil _ _)
        | cons seg rest =>
          rw [hsp, hds] at ih2 ⊢
          simp only [List.drop_one, List.tail_cons] at ih2
          intro s hs
          cases rest with
          | nil => simp [List.dropLast] at hs
          | cons r1 rs =>
            rw [List.dropLast_cons_of_ne_nil (by simp)] at hs
            rcases List.mem_cons.mp hs with h1 | h1
            · rw [h1]
              simp
            · exact ih2 s h1
    · have ih2 := ih hcs
      cases hds : splitL '/' cs with
      | nil => exact absurd hds (splitL_ne_nil _ _)
      | cons seg rest =>
        have hsp : splitL '/' (c :: cs) = (c :: seg) :: rest := by
          simp [splitL, hc, hds]
        rw [hsp]
        rw [hds] at ih2
        simpa using ih2

theorem rooted_segments_nonempty (q : List Char) (h : containsL ('/' :: q) ['/', '/'] = false) :
    ∀ s ∈ (splitL '/' q).dropLast, s ≠ [] := by
  have h2 := middle_segments_nonempty ('/' :: q) h
  have hsplit : splitL '/' ('/' :: q) = [] :: splitL '/' q := by simp [splitL]
  rw [hsplit] at h2
  simpa using h2

theorem normalizeSegments_plain (segs : List (List Char)) :
    ∀ stack, (∀ s ∈ segs, s ≠ ['.'] ∧ s ≠ ['.', '.']) →
      normalizeSegments stack segs = stack ++ segs := by
  induction segs with
  | nil => intro stack _; simp [normalizeSegments]
  | cons s rest ih =>
    intro stack h
    have hs := h s (List.mem_cons_self _ _)
    have hrest : ∀ t ∈ rest, t ≠ ['.'] ∧ t ≠ ['.', '.'] :=
      fun t ht => h t (List.mem_cons_of_mem _ ht)
    cases rest with
    | nil => simp [normalizeSegments, hs.1, hs.2]
    | cons t more =>
      simp only [normalizeSegments, hs.1, hs.2, if_false]
      rw [ih _ hrest]
      simp

theorem dropWhile_concat_stop (p : Char → Bool) (l : List Char) (x : Char) (hx : p x = false) :
    (l ++ [x]).dropWhile p = l.dropWhile p ++ [x] := by
  induction l with
  | nil => simp [List.dropWhile, hx]
  | cons c cs ih =>
    by_cases hc : p c = true
    · simp [List.dropWhile, hc, ih]
    · have hc2 : p c = false := by simpa using hc
      simp [List.dropWhile, hc2]

theorem uptoLastL_rooted (q : List Char) : ∃ r, uptoLastL '/' ('/' :: q) = '/' :: r := by
  unfold uptoLastL
  have h1 : ('/' :: q).reverse = q.reverse ++ ['/'] := by simp
  rw [h1, dropWhile_concat_stop _ _ _ (by decide)]
  exact ⟨(q.reverse.dropWhile (fun c => c != '/')).reverse, by simp⟩

theorem resolvePath_nil : resolvePath [] [] = [] := by
  simp [resolvePath]

theorem rfcRemoveDotSegments_nil : rfcRemoveDotSegments [] = [] := rfl

theorem resolvePath_of_rooted_ref (base q : List Char) :
    resolvePath base ('/' :: q) = resolvePath ('/' :: q) [] := by
  unfold resolvePath
  simp

theorem resolvePath_of_rootless_ref (base : List Char) (c : Char) (cs : List Char)
    (hc : c ≠ '/') :
    resolvePath base (c :: cs) = resolvePath (uptoLastL '/' base ++ c :: cs) [] := by
  unfold resolvePath
  simp [hc]

/-- Go `resolvePath` agrees with `remove_dot_segments` on a rooted path without
empty segment, whether or not the path is written with its first slash. -/
theorem resolvePath_eq_rfc (q : List Char) (h : containsL ('/' :: q) ['/', '/'] = false) :
    resolvePath ('/' :: q) [] = rfcRemoveDotSegments ('/' :: q) ∧
    (q ≠ [] → resolvePath q [] = rfcRemoveDotSegments ('/' :: q)) := by
  have hinit := rooted_segments_nonempty q h
  rw [rfcRemoveDotSegments_rooted]
  exact ⟨resolvePath_rooted q hinit, fun hq => resolvePath_rootless q hq hinit⟩

theorem resolvePath_plain (q : List Char) (h : containsL ('/' :: q) ['/', '/'] = false)
    (hdots : ∀ s ∈ splitL '/' ('/' :: q), s ≠ ['.'] ∧ s ≠ ['.', '.']) :
    resolvePath ('/' :: q) [] = '/' :: q := by
  rw [resolvePath_rooted q (rooted_segments_nonempty q h)]
  have hsplit : splitL '/' ('/' :: q) = [] :: splitL '/' q := by simp [splitL]
  rw [hsplit] at hdots
  rw [normalizeSegments_plain _ [] (fun s hs => hdots s (List.mem_cons_of_mem _ hs))]
  simp [renderSegments_splitL]

theorem rfcRemoveDotSegments_rooted_head (q : List Char) :
    ∃ r, rfcRemoveDotSegments ('/' :: q) = '/' :: r := by
  rw [rfcRemoveDotSegments_rooted]
  cases hseg : splitL '/' q with
  | nil => exact absurd hseg (splitL_ne_nil _ _)
  | cons s rest =>
    have hne : ∀ (segs stack : List (List Char)), segs ≠ [] → normalizeSegments stack segs ≠ [] := by
      intro segs
      induction segs with
      | nil => intro stack h; exact absurd rfl h
      | cons s rest ih =>
        intro stack _
        cases rest with
        | nil =>
          simp only [normalizeSegments]
          split
          · simp
          · split <;> simp
        | cons t more =>
          simp only [normalizeSegments]
          split
          · exact ih _ (by simp)
          · split <;> exact ih _ (by simp)
    have h2 := hne (s :: rest) [] (by simp)
    cases hn : normalizeSegments [] (s :: rest) with
    | nil => exact absurd hn h2
    | cons a more => exact ⟨_, rfl⟩

theorem goString_hier (u : URL) (hO : u.Opaque = "") (hU : u.User = none)
    (hS : u.Scheme ≠ "") (hH : u.Host ≠ "")
    (hP : u.Path.data = [] ∨ ∃ q, u.Path.data = '/' :: q) :
    (goString u).data =
      u.Scheme.data ++ [':'] ++ ('/' :: '/' :: u.Host.data) ++ u.Path.data ++
        (if u.ForceQuery = true ∨ u.RawQuery ≠ "" then '?' :: u.RawQuery.data else []) ++
        (if u.Fragment ≠ "" then '#' :: u.Fragment.data else []) := by
  have hslash : (decide (u.Path ≠ "") && !hasPrefixL u.Path.data ['/'] && decide (u.Host ≠ "")) = false := by
    rcases hP with h | ⟨q, h⟩
    · have : u.Path = "" := (string_eq_empty_iff _).mpr h
      simp [this]
    · simp [h, hasPrefixL]
  unfold goString
  simp only [hO, hU, hS, hH, hslash]
  simp [hS, hH]

theorem rfcRecompose_hier (scheme authority path : List Char) (query fragment : Option (List Char)) :
    rfcRecompose { scheme := some scheme, authority := some authority, path := path,
                   query := query, fragment := fragment } =
      scheme ++ [':'] ++ ('/' :: '/' :: authority) ++ path ++
        (match query with
         | some q => '?' :: q
         | none => []) ++
        (match fragment with
         | some f => '#' :: f
         | none => []) := by
  simp [rfcRecompose]

theorem query_fragment_eq (fq : Bool) (rq frag : String) :
    ((if fq = true ∨ ¬ rq = "" then '?' :: rq.data else []) ++
      if frag = "" then [] else '#' :: frag.data) =
    (match (if rq = "" ∧ fq = false then none else some rq.data : Option (List Char)) with
      | some query => '?' :: query
      | none => []) ++
      match (if frag = "" then none else some frag.data : Option (List Char)) with
      | some fragment => '#' :: fragment
      | none => [] := by
  by_cases h1 : rq = "" <;> by_cases h2 : frag = "" <;> cases fq <;> simp [h1, h2]

theorem query_fragment_eq2 (fq : Bool) (rq frag : String) :
    ((if fq = true ∨ rq ≠ "" then '?' :: rq.data else []) ++
      if frag ≠ "" then '#' :: frag.data else []) =
    (match (if rq = "" ∧ fq = false then none else some rq.data : Option (List Char)) with
      | some q => '?' :: q
      | none => []) ++
      match (if frag = "" then none else some frag.data : Option (List Char)) with
      | some f => '#' :: f
      | none => [] := by
  by_cases h1 : rq = "" <;> by_cases h2 : frag = "" <;> cases fq <;> simp [h1, h2]

theorem goResolve_with_host (b h : URL) (hH : h.Host ≠ "") :
    goResolveReference b h =
      { h with Scheme := if h.Scheme = "" then b.Scheme else h.Scheme,
               Path := ⟨resolvePath h.Path.data []⟩ } := by
  unfold goResolveReference
  by_cases hs : h.Scheme = ""
  · simp [hs, hH]
  · simp [hs, hH]

theorem goResolve_relative (b h : URL) (hS : h.Scheme = "") (hH : h.Host = "")
    (hU : h.User = none) (hO : h.Opaque = "") (hbO : b.Opaque = "") :
    goResolveReference b h =
      { h with Scheme := b.Scheme, Host := b.Host, User := b.User,
               Path := ⟨resolvePath b.Path.data h.Path.data⟩,
               RawQuery := if h.Path = "" ∧ h.ForceQuery = false ∧ h.RawQuery = "" then b.RawQuery
                           else h.RawQuery,
               Fragment := if (h.Path = "" ∧ h.ForceQuery = false ∧ h.RawQuery = "") ∧
                              h.Fragment = "" then b.Fragment else h.Fragment } := by
  unfold goResolveReference
  by_cases hi : h.Path = "" ∧ h.ForceQuery = false ∧ h.RawQuery = ""
  · by_cases hf : h.Fragment = ""
    · simp [hS, hH, hU, hO, hbO, hi, hf]
    · simp [hS, hH, hU, hO, hbO, hi, hf]
  · have hi2 : (decide (h.Path = "") && !h.ForceQuery && decide (h.RawQuery = "")) = false := by
      by_contra hc
      apply hi
      simp only [Bool.not_eq_false, Bool.and_eq_true, decide_eq_true_eq,
        Bool.not_eq_true'] at hc
      exact ⟨hc.1.1, hc.1.2, hc.2⟩
    simp [hS, hH, hU, hO, hbO, hi, hi2]

/-- Go `ResolveReference` followed by `String` gives the target of RFC 3986,
5.2.2, recomposed as in 5.3, on a base with scheme and host. -/
theorem goResolve_eq_rfc (b h : URL)
    (hbU : b.User = none) (hbO : b.Opaque = "") (hhU : h.User = none) (hhO : h.Opaque = "")
    (hbs : b.Scheme ≠ "") (hbh : b.Host ≠ "")
    (hhier : h.Scheme ≠ "" → h.Host ≠ "")
    (hbp : b.Path.data = [] ∨ ∃ q, b.Path.data = '/' :: q)
    (hhp : h.Host ≠ "" → h.Path.data = [] ∨ ∃ q, h.Path.data = '/' :: q)
    (hseg : containsL (rfcTargetPath (components b) (components h)) ['/', '/'] = false)
    (hdots : h.Host = "" → h.Path = "" →
      ∀ s ∈ splitL '/' b.Path.data, s ≠ ['.'] ∧ s ≠ ['.', '.'])
    (hfrag : h.Host = "" → h.Path = "" → h.RawQuery = "" → h.ForceQuery = false →
      h.Fragment ≠ "" ∧ ¬ (b.RawQuery = "" ∧ b.ForceQuery = true)) :
    (goString (goResolveReference b h)).data =
      rfcRecompose (rfcTransform (components b) (components h)) := by
  by_cases hH : h.Host = ""
  · -- the reference has neither scheme nor authority
    have hS : h.Scheme = "" := by
      by_contra hs
      exact hhier hs hH
    rw [goResolve_relative b h hS hH hhU hhO hbO]
    have hauth : (components b).authority.isSome = true := by simp [components, hbh]
    cases hp : h.Path.data with
    | nil =>
      have hp2 : h.Path = "" := (string_eq_empty_iff _).mpr hp
      have htarget : rfcTargetPath (components b) (components h) = b.Path.data := by
        simp [rfcTargetPath, components, hS, hH, hp]
      rw [htarget] at hseg
      have hres : resolvePath b.Path.data [] = b.Path.data := by
        rcases hbp with hb0 | ⟨q, hb0⟩
        · rw [hb0]
          exact resolvePath_nil
        · have hd := hdots hH hp2
          rw [hb0] at hseg hd ⊢
          exact resolvePath_plain q hseg hd
      refine (goString_hier _ ?_ ?_ ?_ ?_ ?_).trans ?_
      · exact hhO
      · exact hbU
      · exact hbs
      · exact hbh
      · simp only [hres]
        exact hbp
      · simp only [hres]
        by_cases hi : h.ForceQuery = false ∧ h.RawQuery = ""
        · obtain ⟨hf1, hf2⟩ := hfrag hH hp2 hi.2 hi.1
          simp [rfcTransform, components, hS, hH, hbs, hbh, hp, hp2, hi.1, hi.2, hf1,
            rfcRecompose]
          by_cases hq : b.RawQuery = ""
          · have hq2 : b.ForceQuery = false := by
              cases hfq : b.ForceQuery with
              | false => rfl
              | true => exact absurd ⟨hq, hfq⟩ hf2
            simp [hq, hq2]
          · simp [hq]
        · have hi3 : ¬ (h.RawQuery = "" ∧ h.ForceQuery = false) := fun e => hi ⟨e.2, e.1⟩
          have hi4 : ¬ (h.Path = "" ∧ h.ForceQuery = false ∧ h.RawQuery = "") :=
            fun e => hi e.2
          simp [rfcTransform, components, hS, hH, hbs, hbh, hp, hp2, hi, hi3, hi4, rfcRecompose]
          have := query_fragment_eq h.ForceQuery h.RawQuery h.Fragment
          simp only [hi3, if_false] at this
          simpa using this
    | cons c cs =>
      have hp2 : h.Path ≠ "" := by
        intro e
        rw [(string_eq_empty_iff _).mp e] at hp
        cases hp
      have hni : ¬ (h.Path = "" ∧ h.ForceQuery = false ∧ h.RawQuery = "") := fun e => hp2 e.1
      have hni2 : ¬ ((h.Path = "" ∧ h.ForceQuery = false ∧ h.RawQuery = "") ∧ h.Fragment = "") :=
        fun e => hp2 e.1.1
      have hpath : resolvePath b.Path.data (c :: cs) =
            (rfcTransform (components b) (components h)).path ∧
          ∃ q, resolvePath b.Path.data (c :: cs) = '/' :: q := by
        by_cases hc : c = '/'
        · subst hc
          have htarget : rfcTargetPath (components b) (components h) = '/' :: cs := by
            simp [rfcTargetPath, components, hS, hH, hp, hasPrefixL]
          rw [htarget] at hseg
          have h1 := (resolvePath_eq_rfc cs hseg).1
          have h2 : (rfcTransform (components b) (components h)).path =
              rfcRemoveDotSegments ('/' :: cs) := by
            simp [rfcTransform, components, hS, hH, hp, hasPrefixL]
          rw [resolvePath_of_rooted_ref, h2, h1]
          exact ⟨rfl, rfcRemoveDotSegments_rooted_head cs⟩
        · rw [resolvePath_of_rootless_ref _ c cs hc]
          rcases hbp with hb0 | ⟨q, hb0⟩
          · have htarget : rfcTargetPath (components b) (components h) = '/' :: c :: cs := by
              simp [rfcTargetPath, rfcMerge, components, hS, hH, hp, hasPrefixL, hc, hb0, hbh]
            rw [htarget] at hseg
            have h1 := (resolvePath_eq_rfc (c :: cs) hseg).2 (by simp)
            have h2 : (rfcTransform (components b) (components h)).path =
                rfcRemoveDotSegments ('/' :: c :: cs) := by
              simp [rfcTransform, rfcMerge, components, hS, hH, hp, hasPrefixL, hc, hb0, hbh]
            rw [hb0]
            have hup : uptoLastL '/' [] = [] := rfl
            rw [hup, List.nil_append, h2, h1]
            exact ⟨rfl, rfcRemoveDotSegments_rooted_head _⟩
          · obtain ⟨r0, hr0⟩ := uptoLastL_rooted q
            have htarget : rfcTargetPath (components b) (components h) =
                '/' :: (r0 ++ c :: cs) := by
              simp [rfcTargetPath, rfcMerge, components, hS, hH, hp, hasPrefixL, hc, hb0, hr0]
            rw [htarget] at hseg
            have h1 := (resolvePath_eq_rfc (r0 ++ c :: cs) hseg).1
            have h2 : (rfcTransform (components b) (components h)).path =
                rfcRemoveDotSegments ('/' :: (r0 ++ c :: cs)) := by
              simp [rfcTransform, rfcMerge, components, hS, hH, hp, hasPrefixL, hc, hb0, hr0]
            rw [hb0, hr0, List.cons_append, h2, h1]
            exact ⟨rfl, rfcRemoveDotSegments_rooted_head _⟩
      refine (goString_hier _ ?_ ?_ ?_ ?_ ?_).trans ?_
      · exact hhO
      · exact hbU
      · exact hbs
      · exact hbh
      · right
        simp only [hp]
        exact hpath.2
      · simp only [hp, hpath.1, hni, hni2, if_false]
        have hshape : rfcTransform (components b) (components h) =
            { scheme := some b.Scheme.data, authority := some b.Host.data,
              path := (rfcTransform (components b) (components h)).path,
              query := (components h).query, fragment := (components h).fragment } := by
          by_cases hc : c = '/'
          · simp [rfcTransform, components, hS, hH, hp, hasPrefixL, hc, hbs, hbh]
          · simp [rfcTransform, components, hS, hH, hp, hasPrefixL, hc, hbs, hbh]
        rw [hshape, rfcRecompose_hier]
        simp only [components, false_and, if_false, List.append_assoc]
        rw [query_fragment_eq2 h.ForceQuery h.RawQuery h.Fragment]
  · -- the reference has an authority
    have hpath : resolvePath h.Path.data [] = rfcRemoveDotSegments h.Path.data ∧
        (resolvePath h.Path.data [] = [] ∨ ∃ q, resolvePath h.Path.data [] = '/' :: q) := by
      have hseg2 : containsL h.Path.data ['/', '/'] = false := by
        have : rfcTargetPath (components b) (components h) = h.Path.data := by
          simp [rfcTargetPath, components, hH]
        rw [this] at hseg
        exact hseg
      rcases hhp hH with hp | ⟨q, hp⟩
      · rw [hp]
        exact ⟨rfl, Or.inl resolvePath_nil⟩
      · rw [hp] at hseg2 ⊢
        have := (resolvePath_eq_rfc q hseg2).1
        refine ⟨this, Or.inr ?_⟩
        rw [this]
        exact rfcRemoveDotSegments_rooted_head q
    rw [goResolve_with_host b h hH]
    refine (goString_hier _ ?_ ?_ ?_ ?_ ?_).trans ?_
    · exact hhO
    · exact hhU
    · by_cases hs : h.Scheme = ""
      · simp [hs, hbs]
      · simp [hs]
    · exact hH
    · exact hpath.2
    · simp only [hpath.1]
      by_cases hs : h.Scheme = ""
      · simp [rfcTransform, components, hs, hH, hbs, rfcRecompose]
        exact query_fragment_eq _ _ _
      · simp [rfcTransform, components, hs, hH, rfcRecompose]
        exact query_fragment_eq _ _ _

/-! ## The shape of parsed URLs -/

theorem goParseNoFragment_shape (l : List Char) (u : URL) (h : goParseNoFragment l = some u) :
    u.User = none ∧ (u.Host ≠ "" → u.Opaque = "") ∧ (u.Scheme = "" → u.Opaque = "") := by
  unfold goParseNoFragment at h
  simp only [] at h
  repeat (any_goals (split at h))
  all_goals
    cases h <;> first
    | exact ⟨rfl, fun _ => rfl, fun _ => rfl⟩
    | (refine ⟨rfl, fun hn => absurd rfl hn, fun hs => ?_⟩
       exfalso
       have hs2 := congrArg String.data hs
       simp_all)

theorem goParse_shape (s : String) (u : URL) (h : goParse s = some u) :
    u.User = none ∧ (u.Host ≠ "" → u.Opaque = "") ∧ (u.Scheme = "" → u.Opaque = "") := by
  unfold goParse at h
  split at h
  · cases h0 : goParseNoFragment (cutL '#' s.data).1 with
    | none => simp [h0] at h
    | some u0 =>
      simp only [h0, Option.some.injEq] at h
      subst h
      exact goParseNoFragment_shape _ u0 h0
  · cases h

theorem dropWhile_head (p : Char → Bool) (l : List Char) :
    l.dropWhile p = [] ∨ ∃ c r, l.dropWhile p = c :: r ∧ p c = false := by
  induction l with
  | nil => exact Or.inl rfl
  | cons c cs ih =>
    by_cases hc : p c = true
    · simpa [List.dropWhile, hc] using ih
    · have hc2 : p c = false := by simpa using hc
      exact Or.inr ⟨c, cs, by simp [List.dropWhile, hc2], hc2⟩

/-- RFC 3986, appendix B: behind an authority the path is empty or starts with
a slash. -/
theorem rfcParse_rooted (s : List Char) (h : (rfcParse s).authority.isSome = true) :
    (rfcParse s).path = [] ∨ ∃ q, (rfcParse s).path = '/' :: q := by
  unfold rfcParse at h ⊢
  simp only [] at h ⊢
  generalize (rfcScheme s).2 = s1 at h ⊢
  unfold rfcAuthority at h ⊢
  simp only [] at h ⊢
  split at h
  · rename_i hauth
    simp only [hauth, if_true]
    rcases dropWhile_head (fun c => c != '/' && c != '?' && c != '#') (s1.drop 2) with
      h0 | ⟨c, r, h0, hc⟩
    · rw [h0]
      exact Or.inl rfl
    · rw [h0]
      by_cases hs : c = '/'
      · subst hs
        right
        exact ⟨r.takeWhile (fun c => c != '?' && c != '#'), by simp [List.takeWhile]⟩
      · left
        have : (c != '?' && c != '#') = false := by
          simpa [hs] using hc
        simp [List.takeWhile, this]
  · cases h

theorem rfcScheme_none (s : List Char) (h : (rfcScheme s).1 = none) : (rfcScheme s).2 = s := by
  unfold rfcScheme at h ⊢
  simp only [] at h ⊢
  split
  · rename_i hc
    simp [hc] at h
  · rfl

theorem rfcAuthority_none (s : List Char) (h : (rfcAuthority s).1 = none) :
    (rfcAuthority s).2 = s := by
  unfold rfcAuthority at h ⊢
  simp only [] at h ⊢
  split
  · rename_i hc
    simp [hc] at h
  · rfl

/-- RFC 3986, appendix B: only the empty reference has no component at all. -/
theorem rfcParse_eq_empty (s : List Char) (h : rfcParse s = {}) : s = [] := by
  cases s with
  | nil => rfl
  | cons c cs =>
    exfalso
    have hs := congrArg Components.scheme h
    have ha := congrArg Components.authority h
    have hp := congrArg Components.path h
    have hq := congrArg Components.query h
    have hf := congrArg Components.fragment h
    unfold rfcParse at hs ha hp hq hf
    simp only [] at hs ha hp hq hf
    rw [rfcScheme_none _ hs] at ha hp hq hf
    rw [rfcAuthority_none _ ha] at hp hq hf
    by_cases hc : (c != '?' && c != '#') = true
    · simp [List.takeWhile, hc] at hp
    · have hc2 : (c != '?' && c != '#') = false := by simpa using hc
      have hd : (c :: cs).dropWhile (fun c => c != '?' && c != '#') = c :: cs := by
        simp [List.dropWhile, hc2]
      rw [hd] at hq hf
      unfold rfcQuery at hq hf
      by_cases hq1 : c = '?'
      · subst hq1
        simp at hq
      · have hh : c = '#' := by
          simp only [Bool.and_eq_false_iff, bne_eq_false_iff_eq] at hc2
          rcases hc2 with h1 | h1
          · exact absurd h1 hq1
          · exact h1
        subst hh
        simp at hf

/-! ## C1: `resolveURL` and the standard reference resolution -/

/-- The agreement of `resolveURL` with RFC 3986 on the model of `net/url`. -/
theorem resolveURL_eq_rfcResolve (base href : String) (hne : href ≠ "")
    (hb : (goStd.urlParse base).map components = some (rfcParse base.data))
    (hh : (goStd.urlParse href).map components = some (rfcParse href.data))
    (habs : (rfcParse base.data).scheme.isSome = true ∧
      (rfcParse base.data).authority.isSome = true)
    (hhier : (rfcParse href.data).scheme.isSome = true →
      (rfcParse href.data).authority.isSome = true)
    (hseg : containsL (rfcTargetPath (rfcParse base.data) (rfcParse href.data)) ['/', '/'] = false)
    (hdots : (rfcParse href.data).authority = none → (rfcParse href.data).path = [] →
      ∀ s ∈ splitL '/' (rfcParse base.data).path, s ≠ ['.'] ∧ s ≠ ['.', '.'])
    (hquery : (rfcParse href.data).authority = none → (rfcParse href.data).path = [] →
      (rfcParse href.data).query = none → (rfcParse base.data).query ≠ some []) :
    resolveURL goStd base href = rfcResolve base href := by
  cases hgb : goStd.urlParse base with
  | none => simp [hgb] at hb
  | some b =>
    cases hgh : goStd.urlParse href with
    | none => simp [hgh] at hh
    | some h =>
      have hbr : components b = rfcParse base.data := by simpa [hgb] using hb
      have hhr : components h = rfcParse href.data := by simpa [hgh] using hh
      have hbshape := goParse_shape base b hgb
      have hhshape := goParse_shape href h hgh
      rw [← hbr] at habs hseg hdots hquery
      rw [← hhr] at hhier hseg hdots hquery
      have hbs : b.Scheme ≠ "" := by
        intro e
        simp [components, e] at habs
      have hbh : b.Host ≠ "" := by
        intro e
        simp [components, e] at habs
      have hhier2 : h.Scheme ≠ "" → h.Host ≠ "" := by
        intro hs e
        have := hhier (by simp [components, hs])
        simp [components, e] at this
      have hhO : h.Opaque = "" := by
        by_cases e : h.Host = ""
        · have hs : h.Scheme = "" := by
            by_contra hs
            exact hhier2 hs e
          exact hhshape.2.2 hs
        · exact hhshape.2.1 e
      have hbp : b.Path.data = [] ∨ ∃ q, b.Path.data = '/' :: q := by
        have := rfcParse_rooted base.data (by rw [← hbr]; exact habs.2)
        rw [← hbr] at this
        exact this
      have hhp : h.Host ≠ "" → h.Path.data = [] ∨ ∃ q, h.Path.data = '/' :: q := by
        intro e
        have := rfcParse_rooted href.data (by rw [← hhr]; simp [components, e])
        rw [← hhr] at this
        exact this
      have hmain := goResolve_eq_rfc b h hbshape.1 (hbshape.2.1 hbh) hhshape.1 hhO hbs hbh hhier2
        hbp hhp hseg
        (fun e1 e2 => hdots (by simp [components, e1])
          (by simp [components, (string_eq_empty_iff _).mp e2]))
        (fun e1 e2 e3 e4 => by
          have hs : h.Scheme = "" := by
            by_contra hs
            exact hhier2 hs e1
          refine ⟨?_, ?_⟩
          · intro e5
            apply hne
            apply (string_eq_empty_iff _).mpr
            apply rfcParse_eq_empty
            rw [← hhr]
            simp [components, hs, e1, e2, e3, e4, e5]
          · intro e5
            have := hquery (by simp [components, e1])
              (by simp [components, (string_eq_empty_iff _).mp e2])
              (by simp [components, e3, e4])
            apply this
            simp [components, e5.1, e5.2])
      unfold resolveURL rfcResolve
      simp only [hne, if_false, hgb, hgh]
      apply String.ext
      rw [← hbr, ← hhr]
      exact hmain

/-! ## Substring semantics of the `strings` helpers -/

theorem hasPrefixL_iff (l p : List Char) : hasPrefixL l p = true ↔ ∃ t, l = p ++ t := by
  induction p generalizing l with
  | nil => simp [hasPrefixL]
  | cons q ps ih =>
    cases l with
    | nil => simp [hasPrefixL]
    | cons c cs =>
      simp only [hasPrefixL, Bool.and_eq_true, beq_iff_eq, ih, List.cons_append, List.cons.injEq]
      constructor
      · rintro ⟨rfl, t, rfl⟩
        exact ⟨t, rfl, rfl⟩
      · rintro ⟨t, rfl, rfl⟩
        exact ⟨rfl, t, rfl⟩

theorem containsL_iff (l sub : List Char) :
    containsL l sub = true ↔ ∃ a b, l = a ++ sub ++ b := by
  induction l with
  | nil =>
    simp only [containsL, hasPrefixL_iff]
    constructor
    · rintro ⟨t, ht⟩
      exact ⟨[], t, by simpa using ht⟩
    · rintro ⟨a, b, hab⟩
      have h1 : a = [] := by
        cases a with
        | nil => rfl
        | cons x xs => simp at hab
      subst h1
      exact ⟨b, by simpa using hab⟩
  | cons c cs ih =>
    simp only [containsL, Bool.or_eq_true, hasPrefixL_iff, ih]
    constructor
    · rintro (⟨t, ht⟩ | ⟨a, b, hab⟩)
      · exact ⟨[], t, by simpa using ht⟩
      · exact ⟨c :: a, b, by simp [hab]⟩
    · rintro ⟨a, b, hab⟩
      cases a with
      | nil => exact Or.inl ⟨b, by simpa using hab⟩
      | cons x xs =>
        simp only [List.cons_append, List.cons.injEq] at hab
        exact Or.inr ⟨xs, b, by simpa using hab.2⟩

/-- Go `strings.Contains` holds exactly when the text is some prefix, the
pattern, and some suffix. -/
theorem Contains_iff (s sub : String) :
    Contains s sub = true ↔ ∃ a b : List Char, s.data = a ++ sub.data ++ b :=
  containsL_iff s.data sub.data

theorem isValidBlogDomainLoop_false_iff (hostLower : String) (skips : List String) :
    isValidBlogDomainLoop hostLower skips = false ↔
      ∃ skip ∈ skips, Contains hostLower skip = true := by
  induction skips with
  | nil => simp [isValidBlogDomainLoop]
  | cons x xs ih =>
    unfold isValidBlogDomainLoop
    by_cases hx : Contains hostLower x = true
    · simp [hx]
    · simp [hx, ih]

/-! ## C1, C2: `resolveURL` -/

/-- C1, as stated, fails at the empty reference: the empty string is a valid
URL reference (a same-document reference, RFC 3986, 4.4) whose standard
resolution against `https://example.com/` is `https://example.com/`, and
`resolveURL` returns the empty string for it. Non-empty references deviate
too: `#` against a base with a fragment keeps the fragment of the base, an
empty fragment or an empty base query is dropped, a query-only or
fragment-only reference has the dot segments of the base removed, an empty
segment that follows the dot segments of the base is lost, the dot segments of
an href with a scheme and no authority are kept, and the scheme is printed in
lower case. -/
theorem C1_counterexample_empty_href :
    (rfcResolve "https://example.com/" "" = "https://example.com/" ∧
      resolveURL goStd "https://example.com/" "" = "") ∧
    (rfcResolve "https://example.com/page#sec" "#" = "https://example.com/page#" ∧
      resolveURL goStd "https://example.com/page#sec" "#" = "https://example.com/page#sec") ∧
    (rfcResolve "https://example.com/" "x#" = "https://example.com/x#" ∧
      resolveURL goStd "https://example.com/" "x#" = "https://example.com/x") ∧
    (rfcResolve "http://a/b?" "#s" = "http://a/b?#s" ∧
      resolveURL goStd "http://a/b?" "#s" = "http://a/b#s") ∧
    (rfcResolve "http://a/b/../c" "?y" = "http://a/b/../c?y" ∧
      resolveURL goStd "http://a/b/../c" "?y" = "http://a/c?y") ∧
    (rfcResolve "http://a/..//b" "x" = "http://a//x" ∧
      resolveURL goStd "http://a/..//b" "x" = "http://a/x") ∧
    (rfcResolve "https://example.com/" "mailto:x/../y" = "mailto:/y" ∧
      resolveURL goStd "https://example.com/" "mailto:x/../y" = "mailto:x/../y") ∧
    (rfcResolve "HTTPS://example.com/" "/about" = "HTTPS://example.com/about" ∧
      resolveURL goStd "HTTPS://example.com/" "/about" = "https://example.com/about") := by
  refine ⟨⟨?_, ?_⟩, ⟨?_, ?_⟩, ⟨?_, ?_⟩, ⟨?_, ?_⟩, ⟨?_, ?_⟩, ⟨?_, ?_⟩, ⟨?_, ?_⟩, ⟨?_, ?_⟩⟩ <;>
    decide

/-- C1 (amended): `resolveURL base href`, with `net/url` as the URL library, is
the standard reference resolution of RFC 3986 (parse of appendix B, transform
of 5.2.2 with `merge` and `remove_dot_segments`, recomposition of 5.3) of the
href against the base, for every NON-EMPTY href and every base such that:
`url.Parse` cuts the base and the href into the components of appendix B; the
base has a scheme and an authority; an href with a scheme has an authority;
the path to be normalised has no empty segment (`//`); and, for an href that
is only a query or a fragment, the base path has no dot segment and, when the
href has no query either, the base has no empty query. For the empty href
`resolveURL` returns the empty string. -/
theorem C1_resolveURL_standard_resolution (base href : String) (hne : href ≠ "")
    (hb : (goStd.urlParse base).map components = some (rfcParse base.data))
    (hh : (goStd.urlParse href).map components = some (rfcParse href.data))
    (habs : (rfcParse base.data).scheme.isSome = true ∧
      (rfcParse base.data).authority.isSome = true)
    (hhier : (rfcParse href.data).scheme.isSome = true →
      (rfcParse href.data).authority.isSome = true)
    (hseg : containsL (rfcTargetPath (rfcParse base.data) (rfcParse href.data))
      ['/', '/'] = false)
    (hdots : (rfcParse href.data).authority = none → (rfcParse href.data).path = [] →
      ∀ s ∈ splitL '/' (rfcParse base.data).path, s ≠ ['.'] ∧ s ≠ ['.', '.'])
    (hquery : (rfcParse href.data).authority = none → (rfcParse href.data).path = [] →
      (rfcParse href.data).query = none → (rfcParse base.data).query ≠ some []) :
    resolveURL goStd base href = rfcResolve base href ∧ resolveURL goStd base "" = "" :=
  ⟨resolveURL_eq_rfcResolve base href hne hb hh habs hhier hseg hdots hquery,
   by simp [resolveURL]⟩

/-- The examples of C1: a path-absolute href replaces the base path, a relative
path is resolved against the base directory, a protocol-relative href takes
the base scheme, a fully-qualified href is returned as itself, and dot
segments, query and fragment of the href are resolved as RFC 3986 prescribes. -/
theorem C1_witness_examples :
    (resolveURL goStd "https://example.com/" "/about" = "https://example.com/about" ∧
      rfcResolve "https://example.com/" "/about" = "https://example.com/about") ∧
    (resolveURL goStd "https://example.com/blog/" "post.html" =
        "https://example.com/blog/post.html" ∧
      rfcResolve "https://example.com/blog/" "post.html" =
        "https://example.com/blog/post.html") ∧
    (resolveURL goStd "https://example.com/" "//cdn.example.org/lib.js" =
        "https://cdn.example.org/lib.js" ∧
      rfcResolve "https://example.com/" "//cdn.example.org/lib.js" =
        "https://cdn.example.org/lib.js") ∧
    (resolveURL goStd "https://example.com/" "https://other.com/page" =
        "https://other.com/page" ∧
      rfcResolve "https://example.com/" "https://other.com/page" =
        "https://other.com/page") ∧
    (resolveURL goStd "https://example.com/a/b" "../c/./d?q=1#top" =
        "https://example.com/c/d?q=1#top" ∧
      rfcResolve "https://example.com/a/b" "../c/./d?q=1#top" =
        "https://example.com/c/d?q=1#top") :=
  ⟨⟨(C1_resolveURL_standard_resolution "https://example.com/" "/about"
      (by decide) (by decide) (by decide) (by decide) (by decide) (by decide)
      (by decide) (by decide)).1.trans (by decide), by decide⟩,
   ⟨(C1_resolveURL_standard_resolution "https://example.com/blog/" "post.html"
      (by decide) (by decide) (by decide) (by decide) (by decide) (by decide)
      (by decide) (by decide)).1.trans (by decide), by decide⟩,
   ⟨(C1_resolveURL_standard_resolution "https://example.com/" "//cdn.example.org/lib.js"
      (by decide) (by decide) (by decide) (by decide) (by decide) (by decide)
      (by decide) (by decide)).1.trans (by decide), by decide⟩,
   ⟨(C1_resolveURL_standard_resolution "https://example.com/" "https://other.com/page"
      (by decide) (by decide) (by decide) (by decide) (by decide) (by decide)
      (by decide) (by decide)).1.trans (by decide), by decide⟩,
   ⟨(C1_resolveURL_standard_resolution "https://example.com/a/b" "../c/./d?q=1#top"
      (by decide) (by decide) (by decide) (by decide) (by decide) (by decide)
      (by decide) (by decide)).1.trans (by decide), by decide⟩⟩

/-- C2: `resolveURL` fails closed. It is a total function into strings (it has
no error result), and it returns the empty string whenever the href is empty,
the base does not parse, or the href does not parse. -/
theorem C2_resolveURL_fails_closed (L : Stdlib) (base href : String)
    (h : href = "" ∨ L.urlParse base = none ∨ L.urlParse href = none) :
    resolveURL L base href = "" := by
  unfold resolveURL
  rcases h with h | h | h
  · simp [h]
  · simp [h]
  · split
    · rfl
    · cases L.urlParse base <;> simp [h]

/-- C2 at concrete inputs: an empty href, a base without scheme before the
colon, and an href whose first path segment contains a colon. -/
theorem C2_witness :
    resolveURL goStd "https://example.com/" "" = "" ∧
    (goStd.urlParse "://example.com/" = none ∧
      resolveURL goStd "://example.com/" "/about" = "") ∧
    (goStd.urlParse "1a:b" = none ∧
      resolveURL goStd "https://example.com/" "1a:b" = "") :=
  ⟨C2_resolveURL_fails_closed goStd "https://example.com/" "" (Or.inl rfl),
   ⟨by decide,
    C2_resolveURL_fails_closed goStd "://example.com/" "/about" (Or.inr (Or.inl (by decide)))⟩,
   ⟨by decide,
    C2_resolveURL_fails_closed goStd "https://example.com/" "1a:b" (Or.inr (Or.inr (by decide)))⟩⟩

/-! ## C3: `isValidBlogDomain` -/

/-- C3: `isValidBlogDomain host` is false exactly when the lower-cased host
contains one of the 16 deny-list entries as a substring, and true otherwise;
on the model of `strings.ToLower`, `www.twitter.com`, `GitHub.COM` and a longer
host that merely contains `github.com` are rejected, and `myblog.com`,
`example.blog`, `personal-website.net` are accepted. -/
theorem C3_isValidBlogDomain_iff :
    (∀ (L : Stdlib) (host : String),
      (isValidBlogDomain L host = false ↔
        ∃ skip ∈ skipDomains, ∃ a b : List Char, (L.toLower host).data = a ++ skip.data ++ b) ∧
      (isValidBlogDomain L host = true ↔
        ¬ ∃ skip ∈ skipDomains, ∃ a b : List Char, (L.toLower host).data = a ++ skip.data ++ b)) ∧
    skipDomains.length = 16 ∧
    isValidBlogDomain goStd "www.twitter.com" = false ∧
    isValidBlogDomain goStd "GitHub.COM" = false ∧
    isValidBlogDomain goStd "notgithub.community.example" = false ∧
    isValidBlogDomain goStd "myblog.com" = true ∧
    isValidBlogDomain goStd "example.blog" = true ∧
    isValidBlogDomain goStd "personal-website.net" = true := by
  refine ⟨fun L host => ?_, by decide, by decide, by decide, by decide, by decide, by decide, by decide⟩
  have key : isValidBlogDomain L host = false ↔
      ∃ skip ∈ skipDomains, ∃ a b : List Char, (L.toLower host).data = a ++ skip.data ++ b := by
    unfold isValidBlogDomain
    rw [isValidBlogDomainLoop_false_iff]
    simp only [Contains_iff]
  refine ⟨key, ?_⟩
  rw [← key]
  cases isValidBlogDomain L host <;> simp

/-! ## C4, C5, C6: `extractExternalLinks` -/

/-- The update of `seen` and `links` in `extractExternalLinks` for one candidate. -/
theorem extractStep_eq (L : Stdlib) (baseURL : String) (baseU : URL)
    (hb : L.urlParse baseURL = some baseU) (acc : List String × List String) (a : Anchor)
    (ha : a.href.isSome = true) :
    extractStep L baseURL baseU acc a =
      match candidateOf L baseURL a with
      | some c => if acc.1.contains c then acc else (c :: acc.1, acc.2 ++ [c])
      | none => acc := by
  obtain ⟨href, hhref⟩ := Option.isSome_iff_exists.mp ha
  simp only [extractStep, candidateOf, hhref, hb, Option.getD_some]
  by_cases h0 : resolveURL L baseURL href = ""
  · simp only [h0, if_true]
    cases L.urlParse "" <;> simp
  · simp only [h0, if_false]
    cases hp : L.urlParse (resolveURL L baseURL href) with
    | none => simp
    | some u =>
      by_cases h1 : u.Host = baseU.Host
      · simp [h1]
      · by_cases h2 : u.Host = ""
        · simp [h2]
        · by_cases h3 : isValidBlogDomain L u.Host = true
          · by_cases h4 : acc.1.contains (resolveURL L baseURL href) = true
            · simp [h0, h1, h2, h3, h4]
            · simp [h0, h1, h2, h3, h4]
          · simp [h1, h2, h3]

theorem firstOccurrences_filter (p : String → Bool) (l : List String) :
    firstOccurrences (l.filter p) = (firstOccurrences l).filter p := by
  induction l with
  | nil => rfl
  | cons x xs ih =>
    by_cases hp : p x = true
    · simp only [List.filter_cons_of_pos hp, firstOccurrences, ih, List.filter_filter]
      congr 1
      apply List.filter_congr
      intro y _
      exact Bool.and_comm _ _
    · have hp2 : p x = false := by simpa using hp
      rw [List.filter_cons_of_neg hp, ih]
      simp only [firstOccurrences, List.filter_cons_of_neg hp, List.filter_filter]
      apply List.filter_congr
      intro y _
      by_cases hy : y = x
      · subst hy
        simp [hp2]
      · simp [hy]

theorem mem_firstOccurrences (l : List String) (x : String) :
    x ∈ firstOccurrences l ↔ x ∈ l := by
  induction l with
  | nil => simp [firstOccurrences]
  | cons y ys ih =>
    simp only [firstOccurrences, List.mem_cons, List.mem_filter, ih]
    by_cases h : x = y
    · simp [h]
    · simp [h]

theorem nodup_firstOccurrences (l : List String) : (firstOccurrences l).Nodup := by
  induction l with
  | nil => simp [firstOccurrences]
  | cons y ys ih =>
    simp only [firstOccurrences, List.nodup_cons, List.mem_filter]
    refine ⟨?_, ih.filter _⟩
    simp

theorem sublist_firstOccurrences (l : List String) : (firstOccurrences l).Sublist l := by
  induction l with
  | nil => simp [firstOccurrences]
  | cons y ys ih =>
    simp only [firstOccurrences]
    exact List.Sublist.cons₂ _ ((List.filter_sublist _).trans ih)

/-- The loop of `extractExternalLinks`, started with any `seen` and `links`,
appends the first occurrences of the candidates that are not yet in `seen`. -/
theorem extract_foldl (L : Stdlib) (baseURL : String) (baseU : URL)
    (hb : L.urlParse baseURL = some baseU) (anchors : List Anchor)
    (acc : List String × List String) :
    ((anchors.filter (fun a => a.href.isSome)).foldl (extractStep L baseURL baseU) acc).2 =
      acc.2 ++ firstOccurrences
        ((anchors.filterMap (candidateOf L baseURL)).filter (fun c => !acc.1.contains c)) := by
  induction anchors generalizing acc with
  | nil => simp [firstOccurrences]
  | cons a as ih =>
    by_cases ha : a.href.isSome = true
    · rw [List.filter_cons_of_pos (by simpa using ha), List.foldl_cons,
        extractStep_eq L baseURL baseU hb acc a ha, ih]
      cases hc : candidateOf L baseURL a with
      | none => simp [List.filterMap_cons, hc]
      | some c =>
        by_cases hs : c ∈ acc.1
        · simp [List.filterMap_cons, hc, hs]
        · have hs2 : acc.1.contains c = false := by simpa using hs
          simp only [hs2, Bool.false_eq_true, if_false, List.filterMap_cons, hc]
          rw [List.filter_cons_of_pos (by simp [hs]), firstOccurrences,
            ← firstOccurrences_filter, List.filter_filter, List.append_assoc]
          simp only [List.singleton_append]
          congr 3
          apply List.filter_congr
          intro y _
          by_cases hy : y = c
          · subst hy
            simp
          · simp [hy]
    · have hnone : a.href = none := by
        cases h : a.href with
        | none => rfl
        | some v => simp [h] at ha
      rw [List.filter_cons_of_neg (by simpa using ha), ih]
      simp [List.filterMap_cons, candidateOf, hnone]

/-- The result of `extractExternalLinks` is the list of candidates of the page,
each kept at its first occurrence. -/
theorem extract_eq_firstOccurrences (L : Stdlib) (doc : Document) (baseURL : String) :
    extractExternalLinks L doc baseURL = firstOccurrences (candidates L doc baseURL) := by
  unfold extractExternalLinks candidates
  cases hb : L.urlParse baseURL with
  | none =>
    have : doc.anchors.filterMap (candidateOf L baseURL) = [] := by
      rw [List.filterMap_eq_nil_iff]
      intro a _
      unfold candidateOf
      rw [hb]
      cases a.href <;> rfl
    simp [this, firstOccurrences]
  | some baseU =>
    simp only []
    rw [extract_foldl L baseURL baseU hb]
    simp

theorem candidateOf_some (L : Stdlib) (baseURL : String) (a : Anchor) (c : String)
    (h : candidateOf L baseURL a = some c) :
    ∃ href pu pb, a.href = some href ∧ c = resolveURL L baseURL href ∧ c ≠ "" ∧
      L.urlParse c = some pu ∧ L.urlParse baseURL = some pb ∧
      pu.Host ≠ "" ∧ pu.Host ≠ pb.Host ∧ isValidBlogDomain L pu.Host = true := by
  unfold candidateOf at h
  cases hh : a.href with
  | none => simp [hh] at h
  | some href =>
    cases hb : L.urlParse baseURL with
    | none => simp [hh, hb] at h
    | some pb =>
      cases hp : L.urlParse (resolveURL L baseURL href) with
      | none => simp [hh, hb, hp] at h
      | some pu =>
        simp only [hh, hb, hp] at h
        split at h
        · rename_i hc
          have hc2 : c = resolveURL L baseURL href := by
            simpa using h.symm
          refine ⟨href, pu, pb, rfl, hc2, ?_, ?_, rfl, hc.2.1, hc.2.2.1, hc.2.2.2⟩
          · rw [hc2]; exact hc.1
          · rw [hc2]; exact hp
        · simp at h

/-- C4: the list returned by `extractExternalLinks` contains no duplicates,
for every document and every base URL. -/
theorem C4_extractExternalLinks_nodup (L : Stdlib) (doc : Document) (baseURL : String) :
    (extractExternalLinks L doc baseURL).Nodup := by
  rw [extract_eq_firstOccurrences]
  exact nodup_firstOccurrences _

/-- C5: every URL returned by `extractExternalLinks` parses, and its host is
neither empty nor equal to the host of the base URL. -/
theorem C5_extractExternalLinks_external (L : Stdlib) (doc : Document) (baseURL u : String)
    (hu : u ∈ extractExternalLinks L doc baseURL) :
    ∃ pu pb, L.urlParse u = some pu ∧ L.urlParse baseURL = some pb ∧
      pu.Host ≠ pb.Host ∧ pu.Host ≠ "" := by
  rw [extract_eq_firstOccurrences, mem_firstOccurrences] at hu
  obtain ⟨a, _, ha⟩ := List.mem_filterMap.mp hu
  obtain ⟨_, pu, pb, _, _, _, h1, h2, h3, h4, _⟩ := candidateOf_some L baseURL a u ha
  exact ⟨pu, pb, h1, h2, h4, h3⟩

/-- C5 on the friend-link page of the demo site: `https://b.example/` is
returned, and its host `b.example` differs from the base host `a.example`. -/
theorem C5_witness :
    "https://b.example/" ∈ extractExternalLinks goStd demoLinksDoc "https://a.example/links" ∧
    ∃ pu pb, goStd.urlParse "https://b.example/" = some pu ∧
      goStd.urlParse "https://a.example/links" = some pb ∧ pu.Host ≠ pb.Host ∧ pu.Host ≠ "" :=
  ⟨by decide, C5_extractExternalLinks_external goStd demoLinksDoc "https://a.example/links"
      "https://b.example/" (by decide)⟩

/-- C6: `extractExternalLinks` returns exactly the candidates of the page in
document order: the absolute resolutions of the anchor hrefs whose host is
non-empty, differs from the base host and passes `isValidBlogDomain`, each at
its first occurrence; every candidate is returned and nothing else is. -/
theorem C6_extractExternalLinks_candidates (L : Stdlib) (doc : Document) (baseURL : String) :
    extractExternalLinks L doc baseURL = firstOccurrences (candidates L doc baseURL) ∧
    (∀ u, u ∈ extractExternalLinks L doc baseURL ↔
      ∃ a ∈ doc.anchors, candidateOf L baseURL a = some u) ∧
    (extractExternalLinks L doc baseURL).Sublist (candidates L doc baseURL) := by
  refine ⟨extract_eq_firstOccurrences L doc baseURL, fun u => ?_, ?_⟩
  · rw [extract_eq_firstOccurrences, mem_firstOccurrences]
    exact List.mem_filterMap
  · rw [extract_eq_firstOccurrences]
    exact sublist_firstOccurrences _

/-! ## C7: `findFriendLinkPage` -/

theorem matchPatterns_eq (L : Stdlib) (homepage href text hrefLower : String)
    (ps : List String) :
    matchPatterns L homepage href text hrefLower ps =
      if (ps.any (fun p => Contains text p || Contains hrefLower p) &&
          resolveURL L homepage href != "") = true
      then resolveURL L homepage href else "" := by
  induction ps with
  | nil => simp [matchPatterns]
  | cons p ps ih =>
    unfold matchPatterns
    by_cases hr : resolveURL L homepage href = ""
    · simp [hr, ih]
    · by_cases hp : (Contains text p || Contains hrefLower p) = true
      · simp [hr, hp]
      · have hp2 : (Contains text p || Contains hrefLower p) = false := by simpa using hp
        simp only [hp2, Bool.false_eq_true, if_false, ih, List.any_cons, Bool.false_or]

theorem findFriendLinkStep_eq (L : Stdlib) (homepage : String) (a : Anchor) :
    findFriendLinkStep L homepage "" a =
      if eligibleAnchor L homepage a = true then resolveURL L homepage (a.href.getD "") else "" := by
  unfold findFriendLinkStep eligibleAnchor anchorMatches
  cases h : a.href with
  | none => simp
  | some href => simp [matchPatterns_eq]

theorem eligible_resolves (L : Stdlib) (homepage : String) (a : Anchor)
    (h : eligibleAnchor L homepage a = true) : resolveURL L homepage (a.href.getD "") ≠ "" := by
  unfold eligibleAnchor at h
  cases hh : a.href with
  | none => simp [hh] at h
  | some href =>
    simp only [hh, Bool.and_eq_true, bne_iff_ne] at h
    simpa using h.2

theorem foldl_findFriendLinkStep_found (L : Stdlib) (homepage : String) (found : String)
    (hf : found ≠ "") (as : List Anchor) :
    as.foldl (findFriendLinkStep L homepage) found = found := by
  induction as with
  | nil => rfl
  | cons a as ih =>
    rw [List.foldl_cons]
    have : findFriendLinkStep L homepage found a = found := by
      unfold findFriendLinkStep
      simp [hf]
    rw [this, ih]

theorem scanFriendLink_eq (L : Stdlib) (homepage : String) (doc : Document) :
    scanFriendLink L homepage doc = firstEligibleFriendLink L homepage doc := by
  unfold scanFriendLink firstEligibleFriendLink
  generalize doc.anchors = as
  induction as with
  | nil => simp
  | cons a as ih =>
    rw [List.foldl_cons, findFriendLinkStep_eq]
    by_cases he : eligibleAnchor L homepage a = true
    · have hr := eligible_resolves L homepage a he
      simp only [he, if_true, List.find?_cons]
      rw [foldl_findFriendLinkStep_found L homepage _ hr]
      simp [hr]
    · have he2 : eligibleAnchor L homepage a = false := by simpa using he
      simp only [he2, Bool.false_eq_true, if_false, List.find?_cons]
      exact ih

/-- C7, as stated, fails on a homepage whose first matching anchor has an empty
href: the first anchor with a matching text is `<a href="">友链</a>`, whose href
resolves to the empty string, and `findFriendLinkPage` returns the page of the
later anchor `/links`. -/
theorem C7_counterexample_later_anchor_wins :
    emptyHrefDoc.anchors.find? (anchorMatches goStd) = some { href := some "", text := "友链" } ∧
    claimedFriendLinkPage goStd "https://a.example/" emptyHrefDoc = .ok "" ∧
    (findFriendLinkPage (staticWorld emptyHrefSite none) "https://a.example/" 0).1 =
      .ok "https://a.example/links" := by
  refine ⟨by decide, by rfl, by rfl⟩

/-- C7 (amended): for every fetched homepage, `findFriendLinkPage` returns the
absolute resolution of the href of the first anchor, in document order, that
has an href attribute, whose text or href contains one of the patterns
(compared in lower case) and whose href resolves to a non-empty URL; when no
anchor is eligible it reports that no friend-link page was found. -/
theorem C7_findFriendLinkPage_first_eligible {σ : Type} (W : World σ) (homepage : String)
    (s s1 : σ) (doc : Document) (hfetch : fetchHTML W homepage s = (.ok doc, s1)) :
    findFriendLinkPage W homepage s = (firstEligibleFriendLink W.std homepage doc, s1) := by
  unfold findFriendLinkPage
  rw [hfetch]
  simp only [scanFriendLink_eq]

/-- C7 on the demo site: the homepage has the anchors `/about` and `/links`
(text `友链`), and the friend-link page is `https://a.example/links`. -/
theorem C7_witness :
    fetchHTML (staticWorld demoSite none) "https://a.example/" 0 =
      (.ok { anchors := [{ href := some "/about", text := "About" },
                         { href := some "/links", text := " 友链 " }] }, 1) ∧
    findFriendLinkPage (staticWorld demoSite none) "https://a.example/" 0 =
      (.ok "https://a.example/links", 1) :=
  ⟨by rfl, (C7_findFriendLinkPage_first_eligible (staticWorld demoSite none)
      "https://a.example/" 0 1 _ (by rfl)).trans (by rfl)⟩

/-! ## C8, C9, C10: fallback, errors and cancellation in the orchestrator -/

/-- The result of `findFriendLinksWithProgress` is decided by the fetch of the
friend-link page alone. -/
theorem findFriendLinksWithProgress_result {σ : Type} (W : World σ) (homepage : String)
    (progressCb : ProgressCallback σ) (r : Run σ) :
    (findFriendLinksWithProgress W homepage progressCb r).1 =
      match (friendPageFetch W homepage progressCb r).1 with
      | .ok doc => .ok (extractExternalLinks W.std doc (friendPageURL W homepage r))
      | .error err => .error err := by
  unfold findFriendLinksWithProgress friendPageFetch friendPageRun friendPageURL
  simp only []
  split <;> rename_i h <;> simp [h]

/-- The workers of `discoverRSSFeedsWithProgress` only add blogs that a probe
of one of the given URLs returned. -/
theorem fanOut_results {σ : Type} (W : World σ) (total : Nat) (progressCb : ProgressCallback σ)
    (urls : List String) (st : FanOut σ) :
    ∀ b ∈ (urls.foldl (fanOutStep W total progressCb) st).results,
      b ∈ st.results ∨ ∃ u ∈ urls, ∃ s, (discoverBlogRSS W u s).1 = .ok b := by
  induction urls generalizing st with
  | nil =>
    intro b hb
    exact Or.inl hb
  | cons u us ih =>
    intro b hb
    rw [List.foldl_cons] at hb
    rcases ih _ b hb with h | ⟨v, hv, s, hs⟩
    · unfold fanOutStep at h
      simp only [] at h
      split at h
      · rename_i blog s2 hprobe
        simp only [List.mem_append, List.mem_singleton] at h
        rcases h with h | h
        · left
          cases progressCb <;> simp_all
        · right
          exact ⟨u, List.mem_cons_self _ _, _, by rw [hprobe, h]⟩
      · left
        cases progressCb <;> simp_all
    · exact Or.inr ⟨v, List.mem_cons_of_mem _ hv, s, hs⟩

/-- The error component of `DiscoverFromFeedWithProgress`, stage by stage. -/
theorem discover_outcome {σ : Type} (W : World σ) (feedURL : String)
    (progressCb : ProgressCallback σ) (r : Run σ) :
    match (getFeedHomepage W feedURL (homepageRun feedURL progressCb r).world).1 with
    | .error e =>
      (DiscoverFromFeedWithProgress W feedURL progressCb r).1 =
        .error ("failed to get homepage from feed: " ++ e)
    | .ok homepage =>
      match (friendPageFetch W homepage progressCb
              (friendLinksRun W feedURL homepage progressCb r)).1 with
      | .error e =>
        (DiscoverFromFeedWithProgress W feedURL progressCb r).1 =
          .error ("failed to find friend links: " ++ e)
      | .ok doc =>
        ∃ blogs, (DiscoverFromFeedWithProgress W feedURL progressCb r).1 = .ok blogs ∧
          ∀ b ∈ blogs, ∃ u ∈ extractExternalLinks W.std doc
              (friendPageURL W homepage (friendLinksRun W feedURL homepage progressCb r)),
            ∃ s, (discoverBlogRSS W u s).1 = .ok b := by
  unfold DiscoverFromFeedWithProgress
  simp only []
  cases hg : getFeedHomepage W feedURL (homepageRun feedURL progressCb r).world with
  | mk res s1 =>
    have hg2 : getFeedHomepage W feedURL
        (emit progressCb (progressFetchingHomepage feedURL) r).world = (res, s1) := hg
    cases res with
    | error e => simp only [hg2]
    | ok homepage =>
      simp only [hg2]
      have hrun : friendLinksRun W feedURL homepage progressCb r =
          emit progressCb (progressFindingFriendLinks homepage)
            { emit progressCb (progressFetchingHomepage feedURL) r with world := s1 } := by
        unfold friendLinksRun homepageRun
        rw [hg2]
      rw [hrun]
      have hres := findFriendLinksWithProgress_result W homepage progressCb
        (emit progressCb (progressFindingFriendLinks homepage)
            { emit progressCb (progressFetchingHomepage feedURL) r with world := s1 })
      cases hf : findFriendLinksWithProgress W homepage progressCb
          (emit progressCb (progressFindingFriendLinks homepage)
            { emit progressCb (progressFetchingHomepage feedURL) r with world := s1 }) with
      | mk fres r2 =>
        rw [hf] at hres
        simp only [] at hres
        cases hfetch : (friendPageFetch W homepage progressCb
            (emit progressCb (progressFindingFriendLinks homepage)
              { emit progressCb (progressFetchingHomepage feedURL) r with world := s1 })).1 with
        | error e =>
          rw [hfetch] at hres
          simp only [] at hres
          subst hres
          rfl
        | ok doc =>
          rw [hfetch] at hres
          simp only [] at hres
          subst hres
          simp only []
          split
          · exact ⟨[], rfl, by simp⟩
          · refine ⟨_, rfl, ?_⟩
            intro b hb
            unfold discoverRSSFeedsWithProgress at hb
            simp only [] at hb
            rcases fanOut_results W _ progressCb _ _ b hb with h | h
            · simp at h
            · exact h

/-- C8, as stated, fails when the homepage cannot be fetched: the locator fails
with `HTTP error: 404`, the fallback fetches the homepage again, and
`findFriendLinksWithProgress` returns that same error instead of candidates. -/
theorem C8_counterexample_homepage_unreachable :
    (findFriendLinkPage (staticWorld downSite none) "https://a.example/" 0).1 =
      .error "HTTP error: 404" ∧
    (findFriendLinksWithProgress (staticWorld downSite none) "https://a.example/" none
      { world := 0 }).1 = .error "HTTP error: 404" := by
  refine ⟨by rfl, by rfl⟩

/-- C8 (amended): when `findFriendLinkPage` fails, `findFriendLinksWithProgress`
does not return at once: it takes the homepage itself as the friend-link page
URL and fetches it; if this fetch succeeds it returns the candidates extracted
from the homepage, and if it fails it returns the error of this fetch. -/
theorem C8_soft_fallback_to_homepage {σ : Type} (W : World σ) (homepage : String)
    (progressCb : ProgressCallback σ) (r : Run σ) (e : String)
    (hfail : (findFriendLinkPage W homepage r.world).1 = .error e) :
    friendPageURL W homepage r = homepage ∧
    (findFriendLinksWithProgress W homepage progressCb r).1 =
      match (fetchHTML W homepage (friendPageRun W homepage progressCb r).world).1 with
      | .ok doc => .ok (extractExternalLinks W.std doc homepage)
      | .error err => .error err := by
  have hurl : friendPageURL W homepage r = homepage := by
    unfold friendPageURL
    rw [hfail]
  refine ⟨hurl, ?_⟩
  rw [findFriendLinksWithProgress_result]
  unfold friendPageFetch
  rw [hurl]

/-- C8 on a homepage without friend-link anchor: the locator reports that no
page was found, and the candidates are extracted from the homepage itself. -/
theorem C8_witness :
    (findFriendLinkPage (staticWorld noFriendSite none) "https://a.example/" 0).1 =
      .error "friend link page not found" ∧
    (findFriendLinksWithProgress (staticWorld noFriendSite none) "https://a.example/" none
      { world := 0 }).1 = .ok ["https://b.example/"] :=
  ⟨by rfl, (C8_soft_fallback_to_homepage (staticWorld noFriendSite none) "https://a.example/"
      none { world := 0 } "friend link page not found" (by rfl)).2.trans (by rfl)⟩

/-- C9, as stated, fails when the located friend-link page cannot be fetched
while the homepage can: the feed parses, the homepage is fetched and links to
`/links`, `/links` answers 404, and the call returns an error although a
fetch of the homepage, made right after, succeeds. No fallback is attempted. -/
theorem C9_counterexample_no_fallback_after_located_page :
    (getFeedHomepage (staticWorld brokenLinksSite none) "https://a.example/feed.xml" 0).1 =
      .ok "https://a.example/" ∧
    (findFriendLinkPage (staticWorld brokenLinksSite none) "https://a.example/" 1).1 =
      .ok "https://a.example/links" ∧
    (DiscoverFromFeedWithProgress (staticWorld brokenLinksSite none)
      "https://a.example/feed.xml" none { world := 0 }).1 =
      .error "failed to find friend links: HTTP error: 404" ∧
    (DiscoverFromFeedWithProgress (staticWorld brokenLinksSite none)
      "https://a.example/feed.xml" none { world := 0 }).2.world = 3 ∧
    (fetchHTML (staticWorld brokenLinksSite none) "https://a.example/" 3).1 =
      .ok { anchors := [{ href := some "/links", text := "友链" },
                        { href := some "https://b.example/", text := "B" }] } := by
  refine ⟨by rfl, by rfl, by rfl, by rfl, by rfl⟩

/-- When the fetch of the friend-link page fails, `findFriendLinksWithProgress`
ends in the world that this fetch has left. -/
theorem findFriendLinksWithProgress_error_world {σ : Type} (W : World σ) (homepage : String)
    (progressCb : ProgressCallback σ) (r : Run σ) (e : String)
    (hfail : (friendPageFetch W homepage progressCb r).1 = .error e) :
    (findFriendLinksWithProgress W homepage progressCb r).2.world =
      (friendPageFetch W homepage progressCb r).2 := by
  unfold findFriendLinksWithProgress
  unfold friendPageFetch friendPageRun friendPageURL at hfail ⊢
  simp only [] at hfail ⊢
  split
  · rename_i err s2 h
    rw [h]
  · rename_i doc s2 h
    rw [h] at hfail
    cases hfail

/-- The world in which `DiscoverFromFeedWithProgress` ends when it fails. -/
theorem discover_error_world {σ : Type} (W : World σ) (feedURL : String)
    (progressCb : ProgressCallback σ) (r : Run σ) :
    (∀ e, (getFeedHomepage W feedURL (homepageRun feedURL progressCb r).world).1 = .error e →
      (DiscoverFromFeedWithProgress W feedURL progressCb r).2.world =
        (getFeedHomepage W feedURL (homepageRun feedURL progressCb r).world).2) ∧
    (∀ homepage e,
      (getFeedHomepage W feedURL (homepageRun feedURL progressCb r).world).1 = .ok homepage →
      (friendPageFetch W homepage progressCb
        (friendLinksRun W feedURL homepage progressCb r)).1 = .error e →
      (DiscoverFromFeedWithProgress W feedURL progressCb r).2.world =
        (friendPageFetch W homepage progressCb
          (friendLinksRun W feedURL homepage progressCb r)).2) := by
  refine ⟨?_, ?_⟩
  · intro e he
    unfold DiscoverFromFeedWithProgress
    simp only []
    cases hg : getFeedHomepage W feedURL (homepageRun feedURL progressCb r).world with
    | mk res s1 =>
      have hg2 : getFeedHomepage W feedURL
          (emit progressCb (progressFetchingHomepage feedURL) r).world = (res, s1) := hg
      rw [hg] at he
      simp only [] at he
      subst he
      simp only [hg2]
  · intro homepage e hh hfail
    unfold DiscoverFromFeedWithProgress
    simp only []
    cases hg : getFeedHomepage W feedURL (homepageRun feedURL progressCb r).world with
    | mk res s1 =>
      have hg2 : getFeedHomepage W feedURL
          (emit progressCb (progressFetchingHomepage feedURL) r).world = (res, s1) := hg
      rw [hg] at hh
      simp only [] at hh
      subst hh
      simp only [hg2]
      have hrun : friendLinksRun W feedURL homepage progressCb r =
          emit progressCb (progressFindingFriendLinks homepage)
            { emit progressCb (progressFetchingHomepage feedURL) r with world := s1 } := by
        unfold friendLinksRun homepageRun
        rw [hg2]
      rw [hrun] at hfail ⊢
      have hw := findFriendLinksWithProgress_error_world W homepage progressCb _ e hfail
      have hres := findFriendLinksWithProgress_result W homepage progressCb
        (emit progressCb (progressFindingFriendLinks homepage)
            { emit progressCb (progressFetchingHomepage feedURL) r with world := s1 })
      rw [hfail] at hres
      simp only [] at hres
      cases hf : findFriendLinksWithProgress W homepage progressCb
          (emit progressCb (progressFindingFriendLinks homepage)
            { emit progressCb (progressFetchingHomepage feedURL) r with world := s1 }) with
      | mk fres r2 =>
        rw [hf] at hres hw
        simp only [] at hres hw
        subst hres
        exact hw

/-- C9 (amended): `DiscoverFromFeedWithProgress` returns an error in exactly
two cases: (i) `getFeedHomepage` fails, and the error is wrapped as `failed to
get homepage from feed`; (ii) the one fetch of the friend-link page fails, this
page being the located page or, when the locator failed, the homepage itself,
and the error is wrapped as `failed to find friend links`. In both cases the
call ends in the world that the failed step has left: no other fetch is made
after it. In every other case it returns a list with a nil error. -/
theorem C9_error_cases {σ : Type} (W : World σ) (feedURL : String)
    (progressCb : ProgressCallback σ) (r : Run σ) :
    match (getFeedHomepage W feedURL (homepageRun feedURL progressCb r).world).1 with
    | .error e =>
      (DiscoverFromFeedWithProgress W feedURL progressCb r).1 =
        .error ("failed to get homepage from feed: " ++ e) ∧
      (DiscoverFromFeedWithProgress W feedURL progressCb r).2.world =
        (getFeedHomepage W feedURL (homepageRun feedURL progressCb r).world).2
    | .ok homepage =>
      match (friendPageFetch W homepage progressCb
              (friendLinksRun W feedURL homepage progressCb r)).1 with
      | .error e =>
        (DiscoverFromFeedWithProgress W feedURL progressCb r).1 =
          .error ("failed to find friend links: " ++ e) ∧
        (DiscoverFromFeedWithProgress W feedURL progressCb r).2.world =
          (friendPageFetch W homepage progressCb
            (friendLinksRun W feedURL homepage progressCb r)).2
      | .ok _ => ∃ blogs, (DiscoverFromFeedWithProgress W feedURL progressCb r).1 = .ok blogs := by
  have h := discover_outcome W feedURL progressCb r
  have hw := discover_error_world W feedURL progressCb r
  cases hg : (getFeedHomepage W feedURL (homepageRun feedURL progressCb r).world).1 with
  | error e =>
    rw [hg] at h
    exact ⟨h, hw.1 e hg⟩
  | ok homepage =>
    rw [hg] at h
    simp only [] at h ⊢
    cases hf : (friendPageFetch W homepage progressCb
        (friendLinksRun W feedURL homepage progressCb r)).1 with
    | error e =>
      rw [hf] at h
      exact ⟨h, hw.2 homepage e hg hf⟩
    | ok doc =>
      rw [hf] at h
      obtain ⟨blogs, hb, _⟩ := h
      exact ⟨blogs, hb⟩

theorem fetchHTML_done {σ : Type} (W : World σ) (hctx : honoursCtx W) (urlStr : String) (s : σ)
    (hdone : W.ctxDone s = true) : ∃ e, (fetchHTML W urlStr s).1 = .error e := by
  obtain ⟨e, he⟩ := hctx.1
    { Method := "GET", URL := urlStr, UserAgent := "MrRSS/1.0 (Blog Discovery Bot)" } s hdone
  refine ⟨e, ?_⟩
  unfold fetchHTML
  cases hc : W.clientDo
      { Method := "GET", URL := urlStr, UserAgent := "MrRSS/1.0 (Blog Discovery Bot)" } s with
  | mk res s1 =>
    rw [hc] at he
    simp only [] at he
    subst he
    rfl

theorem getFeedHomepage_done {σ : Type} (W : World σ) (hctx : honoursCtx W) (feedURL : String)
    (s : σ) (hdone : W.ctxDone s = true) : ∃ e, (getFeedHomepage W feedURL s).1 = .error e := by
  obtain ⟨e, he⟩ := hctx.2 feedURL s hdone
  refine ⟨e, ?_⟩
  unfold getFeedHomepage
  cases hc : W.parseURLWithContext feedURL s with
  | mk res s1 =>
    rw [hc] at he
    simp only [] at he
    subst he
    rfl

theorem staticWorld_honoursCtx (site : Site) (cancelAt : Option Nat) :
    honoursCtx (staticWorld site cancelAt) := by
  constructor
  · intro req s hdone
    cases cancelAt with
    | none => simp [staticWorld] at hdone
    | some k =>
      have hk : k ≤ s := by simpa [staticWorld] using hdone
      exact ⟨"context canceled", by simp [staticWorld, hk]⟩
  · intro u s hdone
    cases cancelAt with
    | none => simp [staticWorld] at hdone
    | some k =>
      have hk : k ≤ s := by simpa [staticWorld] using hdone
      exact ⟨"context canceled", by simp [staticWorld, hk]⟩

/-- C10, as stated, fails when the context is cancelled during the fan-out:
on the demo site, cancelled from the seventh network call on (after the probe
of `b.example`, before the probe of `c.example`), the call returns the one blog
found so far together with a nil error, the context being done at the end;
without cancellation the same call returns both blogs. -/
theorem C10_counterexample_some_blogs_nil_error :
    (DiscoverFromFeedWithProgress (staticWorld demoSite (some 6))
      "https://a.example/feed.xml" none { world := 0 }).1 = .ok [demoBlogB] ∧
    (staticWorld demoSite (some 6)).ctxDone
      (DiscoverFromFeedWithProgress (staticWorld demoSite (some 6))
        "https://a.example/feed.xml" none { world := 0 }).2.world = true ∧
    (DiscoverFromFeedWithProgress (staticWorld demoSite none)
      "https://a.example/feed.xml" none { world := 0 }).1 = .ok [demoBlogB, demoBlogC] := by
  refine ⟨by rfl, by rfl, by rfl⟩

/-- C10 (amended): on a network that honours the context, a call of
`DiscoverFromFeedWithProgress` whose context is done when the feed is parsed,
or when the friend-link page is fetched, returns a non-nil error (the wrapped
error of that stage); once the friend-link page has been fetched, the call
returns a nil error together with blogs that the probes of the candidates
returned, whether or not the context is done during the fan-out. -/
theorem C10_cancellation_outcome {σ : Type} (W : World σ) (feedURL : String)
    (progressCb : ProgressCallback σ) (r : Run σ) (hctx : honoursCtx W) :
    (W.ctxDone (homepageRun feedURL progressCb r).world = true →
      ∃ e, (DiscoverFromFeedWithProgress W feedURL progressCb r).1 =
        .error ("failed to get homepage from feed: " ++ e)) ∧
    (∀ homepage,
      (getFeedHomepage W feedURL (homepageRun feedURL progressCb r).world).1 = .ok homepage →
      W.ctxDone (friendPageRun W homepage progressCb
        (friendLinksRun W feedURL homepage progressCb r)).world = true →
      ∃ e, (DiscoverFromFeedWithProgress W feedURL progressCb r).1 =
        .error ("failed to find friend links: " ++ e)) ∧
    (∀ homepage doc,
      (getFeedHomepage W feedURL (homepageRun feedURL progressCb r).world).1 = .ok homepage →
      (friendPageFetch W homepage progressCb
        (friendLinksRun W feedURL homepage progressCb r)).1 = .ok doc →
      ∃ blogs, (DiscoverFromFeedWithProgress W feedURL progressCb r).1 = .ok blogs ∧
        ∀ b ∈ blogs, ∃ u ∈ extractExternalLinks W.std doc
            (friendPageURL W homepage (friendLinksRun W feedURL homepage progressCb r)),
          ∃ s, (discoverBlogRSS W u s).1 = .ok b) := by
  have h := discover_outcome W feedURL progressCb r
  refine ⟨fun hdone => ?_, fun homepage hg hdone => ?_, fun homepage doc hg hf => ?_⟩
  · obtain ⟨e, he⟩ := getFeedHomepage_done W hctx feedURL _ hdone
    rw [he] at h
    exact ⟨e, h⟩
  · rw [hg] at h
    simp only [] at h
    obtain ⟨e, he⟩ := fetchHTML_done W hctx
      (friendPageURL W homepage (friendLinksRun W feedURL homepage progressCb r)) _ hdone
    have he2 : (friendPageFetch W homepage progressCb
        (friendLinksRun W feedURL homepage progressCb r)).1 = .error e := he
    rw [he2] at h
    exact ⟨e, h⟩
  · rw [hg] at h
    simp only [] at h
    rw [hf] at h
    exact h

/-- C10 on the demo site cancelled from the seventh network call on: the
network honours the context, and the three cases of the theorem hold there. -/
theorem C10_witness :
    honoursCtx (staticWorld demoSite (some 6)) ∧
    (getFeedHomepage (staticWorld demoSite (some 6)) "https://a.example/feed.xml" 0).1 =
      .ok "https://a.example/" ∧
    (friendPageFetch (staticWorld demoSite (some 6)) "https://a.example/" none
      (friendLinksRun (staticWorld demoSite (some 6)) "https://a.example/feed.xml"
        "https://a.example/" none { world := 0 })).1 = .ok demoLinksDoc ∧
    ∃ blogs, (DiscoverFromFeedWithProgress (staticWorld demoSite (some 6))
        "https://a.example/feed.xml" none { world := 0 }).1 = .ok blogs ∧
      ∀ b ∈ blogs, ∃ u ∈ extractExternalLinks goStd demoLinksDoc
          (friendPageURL (staticWorld demoSite (some 6)) "https://a.example/"
            (friendLinksRun (staticWorld demoSite (some 6)) "https://a.example/feed.xml"
              "https://a.example/" none { world := 0 })),
        ∃ s, (discoverBlogRSS (staticWorld demoSite (some 6)) u s).1 = .ok b :=
  ⟨staticWorld_honoursCtx demoSite (some 6), by rfl, by rfl,
   (C10_cancellation_outcome (staticWorld demoSite (some 6)) "https://a.example/feed.xml" none
      { world := 0 } (staticWorld_honoursCtx demoSite (some 6))).2.2
      "https://a.example/" demoLinksDoc (by rfl) (by rfl)⟩

/-! ## C11, C12: empty candidate lists and probe failures -/

/-- The workers of `discoverRSSFeedsWithProgress` send exactly the blogs of the
probes that succeeded, in the order of the run. -/
theorem fanOut_results_eq {σ : Type} (W : World σ) (total : Nat) (progressCb : ProgressCallback σ)
    (urls : List String) (st : FanOut σ) :
    (urls.foldl (fanOutStep W total progressCb) st).results =
      st.results ++ successes (probeOutcomes W total progressCb urls st) := by
  induction urls generalizing st with
  | nil => simp [probeOutcomes, successes]
  | cons u us ih =>
    rw [List.foldl_cons, ih]
    have hstep : (fanOutStep W total progressCb st u).results =
        st.results ++ successes [(u, (discoverBlogRSS W u (workerRun total progressCb st u).world).1)] := by
      unfold fanOutStep workerRun successes
      cases progressCb with
      | none =>
        simp only [ite_self]
        cases hp : discoverBlogRSS W u st.run.world with
        | mk res s2 => cases res <;> simp
      | some cb =>
        simp only [ite_self]
        cases hp : discoverBlogRSS W u
            (emit (some cb) (progressCheckingFeed u (st.processed + 1) total st.foundCount) st.run).world with
        | mk res s2 => cases res <;> simp
    rw [hstep, List.append_assoc]
    congr 1
    simp only [successes, probeOutcomes, ← List.filterMap_append, List.singleton_append]

theorem probeOutcomes_urls {σ : Type} (W : World σ) (total : Nat) (progressCb : ProgressCallback σ)
    (urls : List String) (st : FanOut σ) :
    (probeOutcomes W total progressCb urls st).map Prod.fst = urls := by
  induction urls generalizing st with
  | nil => rfl
  | cons u us ih => simp [probeOutcomes, ih]

theorem probeOutcomes_mem {σ : Type} (W : World σ) (total : Nat) (progressCb : ProgressCallback σ)
    (urls : List String) (st : FanOut σ) (o : String × Except String DiscoveredBlog)
    (ho : o ∈ probeOutcomes W total progressCb urls st) :
    ∃ s, o.2 = (discoverBlogRSS W o.1 s).1 := by
  induction urls generalizing st with
  | nil => simp [probeOutcomes] at ho
  | cons u us ih =>
    simp only [probeOutcomes, List.mem_cons] at ho
    rcases ho with h | h
    · exact ⟨_, by rw [h]⟩
    · exact ih _ h

/-- A blog returned by `discoverBlogRSS` carries the candidate URL, the feed
URL that `findRSSFeed` found and the title of the feed parsed from it. -/
theorem discoverBlogRSS_ok {σ : Type} (W : World σ) (blogURL : String) (s : σ)
    (blog : DiscoveredBlog) (h : (discoverBlogRSS W blogURL s).1 = .ok blog) :
    ∃ rssURL feed s1 s2, findRSSFeed W blogURL s = (.ok rssURL, s1) ∧
      W.parseURLWithContext rssURL s1 = (.ok feed, s2) ∧
      blog = { Name := feed.Title, Homepage := blogURL, RSSFeed := rssURL,
               IconURL := getFavicon W.std blogURL,
               RecentArticles := recentArticlesLoop feed.Items 0 [] } := by
  unfold discoverBlogRSS at h
  cases hf : findRSSFeed W blogURL s with
  | mk res s1 =>
    cases res with
    | error e => simp [hf] at h
    | ok rssURL =>
      cases hp : W.parseURLWithContext rssURL s1 with
      | mk res2 s2 =>
        cases res2 with
        | error e => simp [hf, hp] at h
        | ok feed =>
          simp only [hf, hp, Except.ok.injEq] at h
          exact ⟨rssURL, feed, s1, s2, rfl, hp, h.symm⟩

/-- The orchestrator after the friend links have been found. -/
theorem discover_after_links {σ : Type} (W : World σ) (feedURL homepage : String)
    (progressCb : ProgressCallback σ) (r r2 : Run σ) (links : List String)
    (hg : (getFeedHomepage W feedURL (homepageRun feedURL progressCb r).world).1 = .ok homepage)
    (hf : findFriendLinksWithProgress W homepage progressCb
      (friendLinksRun W feedURL homepage progressCb r) = (.ok links, r2)) :
    DiscoverFromFeedWithProgress W feedURL progressCb r =
      if links.length = 0 then (.ok [], r2)
      else
        (.ok (discoverRSSFeedsWithProgress W links progressCb
              (emit progressCb (progressCheckingRSS links.length) r2)).1,
         (discoverRSSFeedsWithProgress W links progressCb
              (emit progressCb (progressCheckingRSS links.length) r2)).2) := by
  unfold DiscoverFromFeedWithProgress
  simp only []
  cases hg0 : getFeedHomepage W feedURL (homepageRun feedURL progressCb r).world with
  | mk res s1 =>
    rw [hg0] at hg
    simp only [] at hg
    subst hg
    have hg2 : getFeedHomepage W feedURL
        (emit progressCb (progressFetchingHomepage feedURL) r).world = (.ok homepage, s1) := hg0
    have hrun : friendLinksRun W feedURL homepage progressCb r =
        emit progressCb (progressFindingFriendLinks homepage)
          { emit progressCb (progressFetchingHomepage feedURL) r with world := s1 } := by
      unfold friendLinksRun homepageRun
      rw [hg2]
    rw [hrun] at hf
    simp only [hg2, hf]

/-- C11: when the homepage is resolved and the friend-link page is fetched but
yields zero candidate links, `DiscoverFromFeedWithProgress` returns an empty
list and a nil error, and ends in the state in which the links were found: no
probe is run and no `checking_rss` update is sent. -/
theorem C11_no_candidates_empty_list {σ : Type} (W : World σ) (feedURL homepage : String)
    (progressCb : ProgressCallback σ) (r : Run σ) (doc : Document)
    (hg : (getFeedHomepage W feedURL (homepageRun feedURL progressCb r).world).1 = .ok homepage)
    (hdoc : (friendPageFetch W homepage progressCb
      (friendLinksRun W feedURL homepage progressCb r)).1 = .ok doc)
    (hzero : candidates W.std doc
      (friendPageURL W homepage (friendLinksRun W feedURL homepage progressCb r)) = []) :
    DiscoverFromFeedWithProgress W feedURL progressCb r =
      (.ok [], (findFriendLinksWithProgress W homepage progressCb
        (friendLinksRun W feedURL homepage progressCb r)).2) := by
  have hres := findFriendLinksWithProgress_result W homepage progressCb
    (friendLinksRun W feedURL homepage progressCb r)
  rw [hdoc] at hres
  simp only [extract_eq_firstOccurrences, hzero, firstOccurrences] at hres
  cases hf : findFriendLinksWithProgress W homepage progressCb
      (friendLinksRun W feedURL homepage progressCb r) with
  | mk res r2 =>
    rw [hf] at hres
    simp only [] at hres
    subst hres
    rw [discover_after_links W feedURL homepage progressCb r r2 [] hg hf]
    simp

/-- C11 on a homepage with zero external anchors: the call returns the empty
list after three network calls (feed, homepage, homepage again as friend page). -/
theorem C11_witness :
    (getFeedHomepage (staticWorld loneSite none) "https://a.example/feed.xml" 0).1 =
      .ok "https://a.example/" ∧
    candidates goStd
      { anchors := [{ href := some "/about", text := "About" },
                    { href := some "https://a.example/archive", text := "Archive" }] }
      "https://a.example/" = [] ∧
    (DiscoverFromFeedWithProgress (staticWorld loneSite none) "https://a.example/feed.xml" none
      { world := 0 }).1 = .ok [] ∧
    (DiscoverFromFeedWithProgress (staticWorld loneSite none) "https://a.example/feed.xml" none
      { world := 0 }).2.world = 3 :=
  ⟨by rfl, by rfl,
   congrArg Prod.fst (C11_no_candidates_empty_list (staticWorld loneSite none)
     "https://a.example/feed.xml" "https://a.example/" none { world := 0 }
     { anchors := [{ href := some "/about", text := "About" },
                   { href := some "https://a.example/archive", text := "Archive" }] }
     (by rfl) (by rfl) (by rfl)),
   by rfl⟩

/-- C12: probe failures are never pipeline errors. Once the candidates have
been extracted, `DiscoverFromFeedWithProgress` returns a nil error and a list
that holds, up to order, exactly one blog for each candidate whose probe
succeeded and nothing for the other candidates; each blog has the candidate
URL as `Homepage`, the feed URL found for it as `RSSFeed` and the title of the
feed parsed from that URL as `Name`. -/
theorem C12_probe_failures_excluded {σ : Type} (W : World σ) (feedURL homepage : String)
    (progressCb : ProgressCallback σ) (r r2 : Run σ) (links : List String)
    (hg : (getFeedHomepage W feedURL (homepageRun feedURL progressCb r).world).1 = .ok homepage)
    (hf : findFriendLinksWithProgress W homepage progressCb
      (friendLinksRun W feedURL homepage progressCb r) = (.ok links, r2)) :
    ∃ blogs outcomes,
      (DiscoverFromFeedWithProgress W feedURL progressCb r).1 = .ok blogs ∧
      outcomes = probeOutcomes W links.length progressCb links
        { run := emit progressCb (progressCheckingRSS links.length) r2 } ∧
      outcomes.map Prod.fst = links ∧
      blogs.Perm (successes outcomes) ∧
      ∀ o ∈ outcomes, ∀ blog, o.2 = .ok blog →
        blog.Homepage = o.1 ∧
        ∃ rssURL feed s s1 s2, findRSSFeed W o.1 s = (.ok rssURL, s1) ∧
          W.parseURLWithContext rssURL s1 = (.ok feed, s2) ∧
          blog.RSSFeed = rssURL ∧ blog.Name = feed.Title := by
  refine ⟨successes (probeOutcomes W links.length progressCb links
      { run := emit progressCb (progressCheckingRSS links.length) r2 }), _, ?_, rfl,
    probeOutcomes_urls _ _ _ _ _, List.Perm.refl _, ?_⟩
  · rw [discover_after_links W feedURL homepage progressCb r r2 links hg hf]
    by_cases hl : links.length = 0
    · have : links = [] := List.length_eq_zero.mp hl
      subst this
      simp [probeOutcomes, successes]
    · simp only [hl, if_false]
      unfold discoverRSSFeedsWithProgress
      simp only [fanOut_results_eq, List.nil_append]
  · intro o ho blog hblog
    obtain ⟨s, hs⟩ := probeOutcomes_mem W _ _ _ _ o ho
    rw [hblog] at hs
    obtain ⟨rssURL, feed, s1, s2, h1, h2, h3⟩ := discoverBlogRSS_ok W o.1 s blog hs.symm
    subst h3
    exact ⟨rfl, rssURL, feed, s, s1, s2, h1, h2, rfl, rfl⟩

/-- C12 on the demo site, where the feed of `c.example` does not parse: the
probe of `b.example` succeeds, the probe of `c.example` fails, and the call
returns the blog of `b.example` alone with a nil error. -/
theorem C12_witness :
    (getFeedHomepage (staticWorld brokenFeedSite none) "https://a.example/feed.xml" 0).1 =
      .ok "https://a.example/" ∧
    (findFriendLinksWithProgress (staticWorld brokenFeedSite none) "https://a.example/" none
      (friendLinksRun (staticWorld brokenFeedSite none) "https://a.example/feed.xml"
        "https://a.example/" none { world := 0 })).1 =
      .ok ["https://b.example/", "https://c.example/"] ∧
    (DiscoverFromFeedWithProgress (staticWorld brokenFeedSite none) "https://a.example/feed.xml"
      none { world := 0 }).1 = .ok [demoBlogB] ∧
    ∃ blogs outcomes,
      (DiscoverFromFeedWithProgress (staticWorld brokenFeedSite none) "https://a.example/feed.xml"
        none { world := 0 }).1 = .ok blogs ∧
      outcomes = probeOutcomes (staticWorld brokenFeedSite none) 2 none
        ["https://b.example/", "https://c.example/"] { run := { world := 3 } } ∧
      outcomes.map Prod.fst = ["https://b.example/", "https://c.example/"] ∧
      blogs.Perm (successes outcomes) ∧
      ∀ o ∈ outcomes, ∀ blog, o.2 = .ok blog →
        blog.Homepage = o.1 ∧
        ∃ rssURL feed s s1 s2,
          findRSSFeed (staticWorld brokenFeedSite none) o.1 s = (.ok rssURL, s1) ∧
          (staticWorld brokenFeedSite none).parseURLWithContext rssURL s1 = (.ok feed, s2) ∧
          blog.RSSFeed = rssURL ∧ blog.Name = feed.Title :=
  ⟨by rfl, by rfl, by rfl,
   C12_probe_failures_excluded (staticWorld brokenFeedSite none) "https://a.example/feed.xml"
     "https://a.example/" none { world := 0 } { world := 3 }
     ["https://b.example/", "https://c.example/"] (by rfl) (by rfl)⟩

/-! ## C13, C14: `getFeedHomepage` -/

/-- C13, as stated, fails when the feed cannot be read although its URL parses:
on a web where every feed is unreadable, `getFeedHomepage` of the well-formed
URL `https://a.example/feed.xml` returns the error of the feed parser and no
`scheme://host` fallback. -/
theorem C13_counterexample_unreadable_feed :
    goStd.urlParse "https://a.example/feed.xml" =
      some { Scheme := "https", Host := "a.example", Path := "/feed.xml" } ∧
    (getFeedHomepage (staticWorld downSite none) "https://a.example/feed.xml" 0).1 =
      .error "failed to parse feed" := by
  refine ⟨by decide, by rfl⟩

/-- C13 (amended): `getFeedHomepage` fails exactly when the feed cannot be
parsed (whether or not the feed URL parses), or when the feed parses without a
homepage link and the feed URL itself cannot be parsed; the error of the feed
parser is returned unchanged. Whenever the feed parses and the feed URL parses,
it returns a homepage and no error. -/
theorem C13_getFeedHomepage_failures {σ : Type} (W : World σ) (feedURL : String) (s : σ) :
    (∀ e, (W.parseURLWithContext feedURL s).1 = .error e →
      (getFeedHomepage W feedURL s).1 = .error e) ∧
    ((∃ e, (getFeedHomepage W feedURL s).1 = .error e) ↔
      ((∃ e, (W.parseURLWithContext feedURL s).1 = .error e) ∨
       ∃ feed, (W.parseURLWithContext feedURL s).1 = .ok feed ∧ feed.Link = "" ∧
         W.std.urlParse feedURL = none)) ∧
    (∀ feed u, (W.parseURLWithContext feedURL s).1 = .ok feed → W.std.urlParse feedURL = some u →
      ∃ homepage, (getFeedHomepage W feedURL s).1 = .ok homepage) := by
  unfold getFeedHomepage
  cases hp : W.parseURLWithContext feedURL s with
  | mk res s1 =>
    cases res with
    | error e0 => simp
    | ok feed =>
      by_cases hl : feed.Link = ""
      · cases hu : W.std.urlParse feedURL with
        | none => simp [hl]
        | some u => simp [hl]
      · simp [hl]

/-- C14: for every feed URL whose feed parses, `getFeedHomepage` returns the
declared homepage link of the feed when that link is non-empty, and otherwise
the string `scheme://host` built from the parsed feed URL, whose path, query
and fragment are not used. -/
theorem C14_getFeedHomepage_value {σ : Type} (W : World σ) (feedURL : String) (s s1 : σ)
    (feed : Feed) (hfeed : W.parseURLWithContext feedURL s = (.ok feed, s1)) :
    (feed.Link ≠ "" → getFeedHomepage W feedURL s = (.ok feed.Link, s1)) ∧
    (∀ u, feed.Link = "" → W.std.urlParse feedURL = some u →
      getFeedHomepage W feedURL s = (.ok (u.Scheme ++ "://" ++ u.Host), s1)) := by
  unfold getFeedHomepage
  rw [hfeed]
  constructor
  · intro hl
    simp [hl]
  · intro u hl hu
    simp [hl, hu]

/-- C14 at concrete feeds: the feed of the demo site declares the homepage
`https://a.example/`, and a feed without link read from
`https://a.example/blog/feed.xml?x=1#top` gets the homepage `https://a.example`. -/
theorem C14_witness :
    getFeedHomepage (staticWorld demoSite none) "https://a.example/feed.xml" 0 =
      (.ok "https://a.example/", 1) ∧
    goStd.urlParse "https://a.example/blog/feed.xml?x=1#top" =
      some { Scheme := "https", Host := "a.example", Path := "/blog/feed.xml",
             RawQuery := "x=1", Fragment := "top" } ∧
    getFeedHomepage (staticWorld noLinkSite none) "https://a.example/blog/feed.xml?x=1#top" 0 =
      (.ok "https://a.example", 1) :=
  ⟨(C14_getFeedHomepage_value (staticWorld demoSite none) "https://a.example/feed.xml" 0 1
      { Title := "A", Link := "https://a.example/", Items := [] } (by rfl)).1 (by decide),
   by decide,
   ((C14_getFeedHomepage_value (staticWorld noLinkSite none)
      "https://a.example/blog/feed.xml?x=1#top" 0 1 { Title := "A", Link := "", Items := [] }
      (by rfl)).2
      { Scheme := "https", Host := "a.example", Path := "/blog/feed.xml",
        RawQuery := "x=1", Fragment := "top" } rfl (by decide)).trans (by rfl)⟩

/-! ## C19, C20: recent articles and favicon -/

theorem recentArticlesLoop_eq (items : List Item) (i : Nat) (acc : List RecentArticle) :
    recentArticlesLoop items i acc = acc ++ (items.take (3 - i)).map recentArticle := by
  induction items generalizing i acc with
  | nil => simp [recentArticlesLoop]
  | cons item rest ih =>
    unfold recentArticlesLoop
    by_cases hi : i < 3
    · simp only [hi, if_true, ih]
      have h3 : 3 - i = (3 - (i + 1)) + 1 := by omega
      rw [h3, List.take_succ_cons, List.map_cons, List.append_assoc]
      rfl
    · have h0 : 3 - i = 0 := by omega
      simp [hi, h0]

theorem zeroPad_length (width n : Nat) (hw : 0 < width) (hn : n < 10 ^ width) :
    (zeroPad width n).length = width := by
  have hlen : (Nat.repr n).length ≤ width := Nat.repr_length n width hw hn
  have hts : toString n = Nat.repr n := rfl
  unfold zeroPad
  rw [hts]
  simp only [String.length, List.length_append, List.length_replicate] at hlen ⊢
  omega

/-- C19: the `RecentArticles` of a discovered blog are the first `min n 3` of
the `n` items of the parsed feed, in the order of the feed; each carries the
title of the item and its published date printed by the layout `2006-01-02`
(ten characters `YYYY-MM-DD` for the years up to 9999), or the empty string
when the item has no published date. -/
theorem C19_recent_articles {σ : Type} (W : World σ) (blogURL : String) (s : σ)
    (blog : DiscoveredBlog) (h : (discoverBlogRSS W blogURL s).1 = .ok blog) :
    ∃ rssURL feed s1 s2, findRSSFeed W blogURL s = (.ok rssURL, s1) ∧
      W.parseURLWithContext rssURL s1 = (.ok feed, s2) ∧
      blog.RecentArticles = (feed.Items.take (min feed.Items.length 3)).map recentArticle ∧
      blog.RecentArticles.length = min feed.Items.length 3 ∧
      blog.RecentArticles.length ≤ 3 ∧
      (∀ item ∈ feed.Items, (recentArticle item).Title = item.Title ∧
        (item.PublishedParsed = none → (recentArticle item).Date = "") ∧
        (∀ d, item.PublishedParsed = some d →
          (recentArticle item).Date =
            zeroPad 4 d.Year ++ "-" ++ zeroPad 2 d.Month ++ "-" ++ zeroPad 2 d.Day ∧
          (d.Year < 10000 → d.Month < 100 → d.Day < 100 →
            (recentArticle item).Date.length = 10))) := by
  obtain ⟨rssURL, feed, s1, s2, h1, h2, h3⟩ := discoverBlogRSS_ok W blogURL s blog h
  refine ⟨rssURL, feed, s1, s2, h1, h2, ?_, ?_, ?_, ?_⟩
  · subst h3
    simp only [recentArticlesLoop_eq, List.nil_append, Nat.sub_zero]
    congr 1
    by_cases hle : feed.Items.length ≤ 3
    · rw [Nat.min_eq_left hle, List.take_of_length_le hle, List.take_of_length_le (le_refl _)]
    · rw [Nat.min_eq_right (by omega)]
  · subst h3
    simp only [recentArticlesLoop_eq, List.nil_append, Nat.sub_zero, List.length_map,
      List.length_take]
    omega
  · subst h3
    simp only [recentArticlesLoop_eq, List.nil_append, Nat.sub_zero, List.length_map,
      List.length_take]
    omega
  · intro item _
    refine ⟨rfl, ?_, ?_⟩
    · intro hn
      simp [recentArticle, hn]
    · intro d hd
      refine ⟨by simp [recentArticle, hd, formatDate], ?_⟩
      intro hy hm hday
      have e1 := zeroPad_length 4 d.Year (by decide) (by simpa using hy)
      have e2 := zeroPad_length 2 d.Month (by decide) (by simpa using hm)
      have e3 := zeroPad_length 2 d.Day (by decide) (by simpa using hday)
      simp only [recentArticle, hd, formatDate, String.length_append, e1, e2, e3]
      rfl

/-- C19 on the demo site and on a feed of four items: the blog of `b.example`
has the one article of its feed, dated `2024-01-01`, and of four items the
first three are kept, the second one without date. -/
theorem C19_witness :
    (discoverBlogRSS (staticWorld demoSite none) "https://b.example/" 0).1 = .ok demoBlogB ∧
    demoBlogB.RecentArticles = [{ Title := "Hello", Date := "2024-01-01" }] ∧
    recentArticlesLoop fourItems 0 [] =
      [{ Title := "one", Date := "2024-01-01" }, { Title := "two", Date := "" },
       { Title := "three", Date := "0987-12-31" }] ∧
    ∃ rssURL feed s1 s2,
      findRSSFeed (staticWorld demoSite none) "https://b.example/" 0 = (.ok rssURL, s1) ∧
      (staticWorld demoSite none).parseURLWithContext rssURL s1 = (.ok feed, s2) ∧
      demoBlogB.RecentArticles = (feed.Items.take (min feed.Items.length 3)).map recentArticle ∧
      demoBlogB.RecentArticles.length = min feed.Items.length 3 ∧
      demoBlogB.RecentArticles.length ≤ 3 ∧
      (∀ item ∈ feed.Items, (recentArticle item).Title = item.Title ∧
        (item.PublishedParsed = none → (recentArticle item).Date = "") ∧
        (∀ d, item.PublishedParsed = some d →
          (recentArticle item).Date =
            zeroPad 4 d.Year ++ "-" ++ zeroPad 2 d.Month ++ "-" ++ zeroPad 2 d.Day ∧
          (d.Year < 10000 → d.Month < 100 → d.Day < 100 →
            (recentArticle item).Date.length = 10))) :=
  ⟨by rfl, by rfl, by rfl,
   C19_recent_articles (staticWorld demoSite none) "https://b.example/" 0 demoBlogB (by rfl)⟩

/-- C20: for every blog URL that parses, `getFavicon` returns
`https://www.google.com/s2/favicons?domain=` followed by the host of the URL,
so that two blog URLs with the same host get the same icon URL. -/
theorem C20_getFavicon_host (L : Stdlib) (blogURL other : String) (u v : URL)
    (hu : L.urlParse blogURL = some u) (hv : L.urlParse other = some v) :
    getFavicon L blogURL = "https://www.google.com/s2/favicons?domain=" ++ u.Host ∧
    (u.Host = v.Host → getFavicon L blogURL = getFavicon L other) := by
  unfold getFavicon
  rw [hu, hv]
  refine ⟨rfl, ?_⟩
  intro h
  simp only [h]

/-- C20 on the example of the tests: `https://example.com/blog` and
`https://example.com/about?x=1` both get the icon of `example.com`. -/
theorem C20_witness :
    getFavicon goStd "https://example.com/blog" =
      "https://www.google.com/s2/favicons?domain=example.com" ∧
    getFavicon goStd "https://example.com/blog" = getFavicon goStd "https://example.com/about?x=1" :=
  ⟨(C20_getFavicon_host goStd "https://example.com/blog" "https://example.com/about?x=1"
      { Scheme := "https", Host := "example.com", Path := "/blog" }
      { Scheme := "https", Host := "example.com", Path := "/about", RawQuery := "x=1" }
      (by decide) (by decide)).1,
   (C20_getFavicon_host goStd "https://example.com/blog" "https://example.com/about?x=1"
      { Scheme := "https", Host := "example.com", Path := "/blog" }
      { Scheme := "https", Host := "example.com", Path := "/about", RawQuery := "x=1" }
      (by decide) (by decide)).2 rfl⟩

/-! ## C16, C17: `isValidFeed` -/

theorem any_Contains_iff (s : String) (ps : List String) :
    ps.any (fun p => Contains s p) = true ↔
      ∃ p ∈ ps, ∃ a b : List Char, s.data = a ++ p.data ++ b := by
  simp only [List.any_eq_true, Contains_iff]

theorem hasPrefixB_iff (l p : List Nat) : hasPrefixB l p = true ↔ ∃ t, l = p ++ t := by
  induction p generalizing l with
  | nil => simp [hasPrefixB]
  | cons q ps ih =>
    cases l with
    | nil => simp [hasPrefixB]
    | cons c cs =>
      simp only [hasPrefixB, Bool.and_eq_true, beq_iff_eq, ih, List.cons_append, List.cons.injEq]
      constructor
      · rintro ⟨rfl, t, rfl⟩
        exact ⟨t, rfl, rfl⟩
      · rintro ⟨t, rfl, rfl⟩
        exact ⟨rfl, t, rfl⟩

theorem containsB_iff (l sub : List Nat) :
    containsB l sub = true ↔ ∃ a b, l = a ++ sub ++ b := by
  induction l with
  | nil =>
    simp only [containsB, hasPrefixB_iff]
    constructor
    · rintro ⟨t, ht⟩
      exact ⟨[], t, by simpa using ht⟩
    · rintro ⟨a, b, hab⟩
      have h1 : a = [] := by
        cases a with
        | nil => rfl
        | cons x xs => simp at hab
      subst h1
      exact ⟨b, by simpa using hab⟩
  | cons c cs ih =>
    simp only [containsB, Bool.or_eq_true, hasPrefixB_iff, ih]
    constructor
    · rintro (⟨t, ht⟩ | ⟨a, b, hab⟩)
      · exact ⟨[], t, by simpa using ht⟩
      · exact ⟨c :: a, b, by simp [hab]⟩
    · rintro ⟨a, b, hab⟩
      cases a with
      | nil => exact Or.inl ⟨b, by simpa using hab⟩
      | cons x xs =>
        simp only [List.cons_append, List.cons.injEq] at hab
        exact Or.inr ⟨xs, b, by simpa using hab.2⟩

theorem any_ContainsBytes_iff (content : List Nat) (ps : List String) :
    ps.any (fun p => ContainsBytes content p) = true ↔
      ∃ p ∈ ps, ∃ a b : List Nat, content = a ++ utf8Encode p.data ++ b := by
  simp only [List.any_eq_true, ContainsBytes, containsB_iff]

theorem readAtLeastOne_length (body : List String) : (readAtLeastOne body).length ≤ 512 := by
  unfold readAtLeastOne
  split
  · decide
  · simp only [List.length_take]
    omega

theorem readAtLeastOne_chunk (body : List String) :
    readAtLeastOne body = [] ∨
      ∃ chunk ∈ body, chunk ≠ "" ∧ readAtLeastOne body = (utf8Encode chunk.data).take 512 := by
  unfold readAtLeastOne
  cases hf : body.find? (fun chunk => chunk ≠ "") with
  | none => exact Or.inl rfl
  | some chunk =>
    right
    refine ⟨chunk, List.mem_of_find?_eq_some hf, ?_, rfl⟩
    have := List.find?_some hf
    simpa using this

/-- C16, as stated, fails on a content type written in capitals: the `HEAD`
request answers 200 with `Application/RSS+XML`, which contains `rss` and `xml`
when compared in lower case, and `isValidFeed` returns false. -/
theorem C16_counterexample_capital_content_type :
    (staticWorld upperCaseSite none).clientDo (headRequest "https://b.example/feed") 0 =
      (.ok { StatusCode := 200, ContentType := "Application/RSS+XML" }, 1) ∧
    Contains (asciiToLower "Application/RSS+XML") "rss" = true ∧
    isValidFeed (staticWorld upperCaseSite none) "https://b.example/feed" 0 = (false, 1) := by
  refine ⟨by rfl, by decide, by rfl⟩

/-- C16 (amended): for every feed URL whose `HEAD` request answers 200,
`isValidFeed` returns true exactly when the `Content-Type` header, as it is
written, contains `xml`, `rss` or `atom` as a substring (the comparison is
case-sensitive); the decision is taken from the `HEAD` response alone, no
other request is made. -/
theorem C16_head_content_type {σ : Type} (W : World σ) (feedURL : String) (s s1 : σ)
    (resp : Response) (hhead : W.clientDo (headRequest feedURL) s = (.ok resp, s1))
    (h200 : resp.StatusCode = 200) :
    isValidFeed W feedURL s =
      (Contains resp.ContentType "xml" || Contains resp.ContentType "rss" ||
        Contains resp.ContentType "atom", s1) ∧
    ((isValidFeed W feedURL s).1 = true ↔
      ∃ p ∈ ["xml", "rss", "atom"], ∃ a b : List Char, resp.ContentType.data = a ++ p.data ++ b) := by
  have hv : isValidFeed W feedURL s =
      (Contains resp.ContentType "xml" || Contains resp.ContentType "rss" ||
        Contains resp.ContentType "atom", s1) := by
    unfold isValidFeed
    have hh : W.clientDo { Method := "HEAD", URL := feedURL } s = (.ok resp, s1) := hhead
    rw [hh]
    simp [h200]
  refine ⟨hv, ?_⟩
  rw [hv, ← any_Contains_iff]
  simp only [List.any_cons, List.any_nil, Bool.or_false, Bool.or_assoc]

/-- C16 on the feed of `b.example`: `application/rss+xml` is valid, and the
state after the check shows the single `HEAD` request. -/
theorem C16_witness :
    (staticWorld demoSite none).clientDo (headRequest "https://b.example/feed") 0 =
      (.ok { StatusCode := 200, ContentType := "application/rss+xml" }, 1) ∧
    isValidFeed (staticWorld demoSite none) "https://b.example/feed" 0 = (true, 1) :=
  ⟨by rfl, (C16_head_content_type (staticWorld demoSite none) "https://b.example/feed" 0 1
      { StatusCode := 200, ContentType := "application/rss+xml" } (by rfl) rfl).1.trans (by rfl)⟩

/-- C17, as stated, fails when the `HEAD` request fails with a transport error:
on a web that drops every `HEAD` request and answers every `GET` with an RSS
document, `isValidFeed` returns false after the one failed request, without
trying the `GET` that would deliver `<rss`. -/
theorem C17_counterexample_head_transport_error :
    headlessWorld.clientDo (headRequest "https://b.example/feed") 0 = (.error "EOF", 1) ∧
    (headlessWorld.clientDo (getRequest "https://b.example/feed") 1).1 =
      .ok { StatusCode := 200, ContentType := "application/rss+xml", Body := ["<rss version=2>"] } ∧
    sniffsAsFeed (readAtLeastOne ["<rss version=2>"]) = true ∧
    isValidFeed headlessWorld "https://b.example/feed" 0 = (false, 1) := by
  refine ⟨by rfl, by rfl, by decide, by rfl⟩

/-- C17 (amended): for every feed URL whose `HEAD` request answers with a
status other than 200, `isValidFeed` retries with `GET` and decides on the
body: it returns true exactly when the `GET` answers 200 and the first bytes
read (at least 1, at most 512, taken from the first read that delivers data)
contain the bytes of one of `<?xml`, `<rss`, `<feed`, `<atom`. When the `HEAD`
request itself fails, `isValidFeed` returns false without a `GET`. -/
theorem C17_get_fallback_sniff {σ : Type} (W : World σ) (feedURL : String) (s s1 : σ)
    (resp : Response) (hhead : W.clientDo (headRequest feedURL) s = (.ok resp, s1))
    (hnot200 : resp.StatusCode ≠ 200) :
    (isValidFeed W feedURL s).2 = (W.clientDo (getRequest feedURL) s1).2 ∧
    ((isValidFeed W feedURL s).1 = true ↔
      ∃ resp2, (W.clientDo (getRequest feedURL) s1).1 = .ok resp2 ∧ resp2.StatusCode = 200 ∧
        1 ≤ (readAtLeastOne resp2.Body).length ∧ (readAtLeastOne resp2.Body).length ≤ 512 ∧
        (∃ chunk ∈ resp2.Body, chunk ≠ "" ∧
          readAtLeastOne resp2.Body = (utf8Encode chunk.data).take 512) ∧
        ∃ p ∈ ["<?xml", "<rss", "<feed", "<atom"], ∃ a b : List Nat,
          readAtLeastOne resp2.Body = a ++ utf8Encode p.data ++ b) ∧
    (∀ (otherURL : String) (t t1 : σ) (e : String),
      W.clientDo (headRequest otherURL) t = (.error e, t1) →
      isValidFeed W otherURL t = (false, t1)) := by
  refine ⟨?_, ?_, ?_⟩
  · unfold isValidFeed
    have hh : W.clientDo { Method := "HEAD", URL := feedURL } s = (.ok resp, s1) := hhead
    rw [hh]
    simp only [hnot200, ne_eq, not_false_eq_true, if_true]
    cases hg : W.clientDo { Method := "GET", URL := feedURL } s1 with
    | mk res s2 =>
      have hg2 : W.clientDo (getRequest feedURL) s1 = (res, s2) := hg
      rw [hg2]
      cases res with
      | error e => rfl
      | ok resp2 =>
        simp only []
        split
        · rfl
        · split <;> rfl
  · unfold isValidFeed
    have hh : W.clientDo { Method := "HEAD", URL := feedURL } s = (.ok resp, s1) := hhead
    rw [hh]
    simp only [hnot200, ne_eq, not_false_eq_true, if_true]
    cases hg : W.clientDo { Method := "GET", URL := feedURL } s1 with
    | mk res s2 =>
      have hg2 : W.clientDo (getRequest feedURL) s1 = (res, s2) := hg
      rw [hg2]
      cases res with
      | error e => simp
      | ok resp2 =>
        simp only [Except.ok.injEq, exists_eq_left']
        by_cases h2 : resp2.StatusCode = 200
        · by_cases hc : readAtLeastOne resp2.Body = []
          · simp [h2, hc]
          · have hpos : 1 ≤ (readAtLeastOne resp2.Body).length := by
              have : (readAtLeastOne resp2.Body).length ≠ 0 := by
                intro h0
                exact hc (List.length_eq_zero.mp h0)
              omega
            have hle := readAtLeastOne_length resp2.Body
            have hchunk : ∃ chunk ∈ resp2.Body, chunk ≠ "" ∧
                readAtLeastOne resp2.Body = (utf8Encode chunk.data).take 512 := by
              rcases readAtLeastOne_chunk resp2.Body with h | h
              · exact absurd h hc
              · exact h
            simp only [h2, hc, not_true_eq_false, if_false, hpos, hle, hchunk, true_and,
              ← any_ContainsBytes_iff, List.any_cons, List.any_nil, Bool.or_false, Bool.or_assoc]
        · simp [h2]
  · intro otherURL t t1 e he
    unfold isValidFeed
    have hh : W.clientDo { Method := "HEAD", URL := otherURL } t = (.error e, t1) := he
    rw [hh]

set_option maxRecDepth 100000 in
/-- C17 on a feed whose `HEAD` answers 405: the `GET` answers 200, the first
non-empty read delivers `<rss version=2>`, and the feed is valid. On a body
whose marker `<rss>` starts before byte 512 and ends after it, behind 170
three-byte characters, the feed is not valid: the buffer holds 512 bytes, not
512 characters. -/
theorem C17_witness :
    (staticWorld getOnlySite none).clientDo (headRequest "https://b.example/feed") 0 =
      (.ok { StatusCode := 405 }, 1) ∧
    readAtLeastOne ["", "<rss version=2>", "<channel>"] = utf8Encode "<rss version=2>".data ∧
    isValidFeed (staticWorld getOnlySite none) "https://b.example/feed" 0 = (true, 2) ∧
    (isValidFeed (staticWorld getOnlySite none) "https://b.example/feed" 0).2 =
      ((staticWorld getOnlySite none).clientDo (getRequest "https://b.example/feed") 1).2 ∧
    wideBody.length = 175 ∧ (readAtLeastOne [wideBody]).length = 512 ∧
    isValidFeed (staticWorld wideSite none) "https://b.example/feed" 0 = (false, 2) :=
  ⟨by rfl, by rfl, by rfl,
   (C17_get_fallback_sniff (staticWorld getOnlySite none) "https://b.example/feed" 0 1
      { StatusCode := 405 } (by rfl) (by decide)).1, by rfl, by rfl, by rfl⟩

/-! ## C15, C18: `findRSSFeed` -/

theorem foldl_foundFeedStep_found (L : Stdlib) (blogURL found : String) (hf : found ≠ "")
    (ls : List LinkTag) : ls.foldl (foundFeedStep L blogURL) found = found := by
  induction ls with
  | nil => rfl
  | cons l ls ih =>
    rw [List.foldl_cons]
    have : foundFeedStep L blogURL found l = found := by
      unfold foundFeedStep
      simp [hf]
    rw [this, ih]

/-- The scan of the `<link>` elements by `findRSSFeed` ends with the resolved
href of the first usable element. -/
theorem foundFeed_eq_firstHeadFeed (L : Stdlib) (blogURL : String) (doc : Document) :
    (doc.links.filter feedLinkSelected).foldl (foundFeedStep L blogURL) "" =
      firstHeadFeed L blogURL doc := by
  unfold firstHeadFeed
  generalize doc.links = ls
  induction ls with
  | nil => rfl
  | cons l ls ih =>
    by_cases hsel : feedLinkSelected l = true
    · rw [List.filter_cons_of_pos hsel, List.foldl_cons]
      cases hh : l.hrefAttr with
      | none =>
        have hu : headLinkUsable L blogURL l = false := by simp [headLinkUsable, hh]
        have hstep : foundFeedStep L blogURL "" l = "" := by simp [foundFeedStep, hh]
        rw [hstep, ih]
        simp only [List.find?_cons, hu]
      | some href =>
        have hstep : foundFeedStep L blogURL "" l = resolveURL L blogURL href := by
          simp [foundFeedStep, hh]
        rw [hstep]
        by_cases hr : resolveURL L blogURL href = ""
        · have hu : headLinkUsable L blogURL l = false := by simp [headLinkUsable, hh, hr]
          rw [hr, ih]
          simp only [List.find?_cons, hu]
        · have hu : headLinkUsable L blogURL l = true := by simp [headLinkUsable, hh, hr, hsel]
          rw [foldl_foundFeedStep_found L blogURL _ hr]
          simp only [List.find?_cons, hu, hh, Option.getD_some]
    · have hu : headLinkUsable L blogURL l = false := by
        have : feedLinkSelected l = false := by simpa using hsel
        simp [headLinkUsable, this]
      rw [List.filter_cons_of_neg hsel, ih]
      simp only [List.find?_cons, hu]

/-- The two stages of `findRSSFeed` on a blog URL that parses. -/
theorem findRSSFeed_eq {σ : Type} (W : World σ) (blogURL : String) (s : σ) (u : URL)
    (hparse : W.std.urlParse blogURL = some u) :
    findRSSFeed W blogURL s =
      if (headCheck W blogURL s).1 = true then (.ok (headFeed W blogURL s), (headCheck W blogURL s).2)
      else
        match (checkCommonPaths W (u.Scheme ++ "://" ++ u.Host) commonPaths
                (headCheck W blogURL s).2).1 with
        | fURL :: _ =>
          (.ok fURL, (checkCommonPaths W (u.Scheme ++ "://" ++ u.Host) commonPaths
                (headCheck W blogURL s).2).2)
        | [] =>
          (.error "RSS feed not found",
            (checkCommonPaths W (u.Scheme ++ "://" ++ u.Host) commonPaths
                (headCheck W blogURL s).2).2) := by
  unfold findRSSFeed headCheck headFeed
  rw [hparse]

/-- The feed URLs sent by the catalog checks are those whose check succeeded. -/
theorem checkCommonPaths_eq {σ : Type} (W : World σ) (baseURL : String) (paths : List String)
    (s : σ) :
    (checkCommonPaths W baseURL paths s).1 =
      ((catalogChecks W baseURL paths s).filter (fun c => c.2)).map Prod.fst := by
  induction paths generalizing s with
  | nil => rfl
  | cons path rest ih =>
    unfold checkCommonPaths catalogChecks
    simp only []
    by_cases hv : (isValidFeed W (baseURL ++ path) s).1 = true
    · simp [hv, ih]
    · have hv2 : (isValidFeed W (baseURL ++ path) s).1 = false := by simpa using hv
      simp [hv2, ih]

theorem catalogChecks_mem {σ : Type} (W : World σ) (baseURL : String) (paths : List String)
    (s : σ) (c : String × Bool) (hc : c ∈ catalogChecks W baseURL paths s) :
    ∃ path ∈ paths, c.1 = baseURL ++ path ∧ ∃ s0, c.2 = (isValidFeed W c.1 s0).1 := by
  induction paths generalizing s with
  | nil => simp [catalogChecks] at hc
  | cons path rest ih =>
    simp only [catalogChecks, List.mem_cons] at hc
    rcases hc with h | h
    · subst h
      exact ⟨path, List.mem_cons_self _ _, rfl, s, rfl⟩
    · obtain ⟨p, hp, h1, h2⟩ := ih _ h
      exact ⟨p, List.mem_cons_of_mem _ hp, h1, h2⟩

/-- A URL returned by `findRSSFeed` passed `isValidFeed` during the probe. -/
theorem findRSSFeed_ok_valid {σ : Type} (W : World σ) (blogURL : String) (s s1 : σ) (url : String)
    (h : findRSSFeed W blogURL s = (.ok url, s1)) :
    ∃ u, W.std.urlParse blogURL = some u ∧ ∃ s0, (isValidFeed W url s0).1 = true ∧
      ((url = headFeed W blogURL s ∧ url ≠ "") ∨
        ∃ path ∈ commonPaths, url = u.Scheme ++ "://" ++ u.Host ++ path) := by
  cases hparse : W.std.urlParse blogURL with
  | none =>
    unfold findRSSFeed at h
    rw [hparse] at h
    simp at h
  | some u =>
    refine ⟨u, rfl, ?_⟩
    rw [findRSSFeed_eq W blogURL s u hparse] at h
    by_cases hh : (headCheck W blogURL s).1 = true
    · simp only [hh, if_true, Prod.mk.injEq, Except.ok.injEq] at h
      have hne : headFeed W blogURL s ≠ "" := by
        intro h0
        unfold headCheck at hh
        simp [h0] at hh
      have hv : (isValidFeed W (headFeed W blogURL s) (fetchHTML W blogURL s).2).1 = true := by
        unfold headCheck at hh
        simpa [hne] using hh
      refine ⟨(fetchHTML W blogURL s).2, ?_, Or.inl ⟨h.1.symm, ?_⟩⟩
      · rw [← h.1]
        exact hv
      · rw [← h.1]
        exact hne
    · simp only [hh, Bool.false_eq_true, if_false] at h
      cases hsent : (checkCommonPaths W (u.Scheme ++ "://" ++ u.Host) commonPaths
          (headCheck W blogURL s).2).1 with
      | nil =>
        rw [hsent] at h
        simp at h
      | cons fURL rest =>
        rw [hsent] at h
        simp only [Prod.mk.injEq, Except.ok.injEq] at h
        have hmem : fURL ∈ (checkCommonPaths W (u.Scheme ++ "://" ++ u.Host) commonPaths
            (headCheck W blogURL s).2).1 := by
          rw [hsent]
          exact List.mem_cons_self _ _
        rw [checkCommonPaths_eq, List.mem_map] at hmem
        obtain ⟨c, hc, hc1⟩ := hmem
        rw [List.mem_filter] at hc
        obtain ⟨path, hp, hurl, s0, hs0⟩ := catalogChecks_mem W _ _ _ c hc.1
        refine ⟨s0, ?_, Or.inr ⟨path, hp, ?_⟩⟩
        · rw [← h.1, ← hc1, ← hs0]
          exact hc.2
        · rw [← h.1, ← hc1, hurl]

/-- C15, as stated, fails on a page whose first selected `<link>` element has
no `rel="alternate"`: the first `<link rel="alternate">` element with an RSS
type points to `/main.rss`, which passes feed validation, but the selector
also takes the earlier `<link rel="feed" type="application/rss+xml">`, whose
href `/comments/feed` is the one that is validated; it fails, the catalog
paths fail, and `findRSSFeed` reports that no feed was found. -/
theorem C15_counterexample_earlier_link_without_rel :
    (fetchHTML (staticWorld relFeedSite none) "https://d.example/" 0).1 =
      .ok { links := [{ relAttr := some "feed", typeAttr := some "application/rss+xml",
                        hrefAttr := some "/comments/feed" },
                      { relAttr := some "alternate", typeAttr := some "application/rss+xml",
                        hrefAttr := some "/main.rss" }] } ∧
    [({ relAttr := some "feed", typeAttr := some "application/rss+xml",
        hrefAttr := some "/comments/feed" } : LinkTag),
     { relAttr := some "alternate", typeAttr := some "application/rss+xml",
       hrefAttr := some "/main.rss" }].find? claimedHeadLink =
      some { relAttr := some "alternate", typeAttr := some "application/rss+xml",
             hrefAttr := some "/main.rss" } ∧
    resolveURL goStd "https://d.example/" "/main.rss" = "https://d.example/main.rss" ∧
    (isValidFeed (staticWorld relFeedSite none) "https://d.example/main.rss" 1).1 = true ∧
    (findRSSFeed (staticWorld relFeedSite none) "https://d.example/" 0).1 =
      .error "RSS feed not found" := by
  refine ⟨by rfl, by decide, by decide, by rfl, by rfl⟩

/-- C15 (amended): head-tag discovery takes priority over path enumeration.
For every candidate whose URL parses, whose page is fetched, and in which the
first `<link>` element that the selector `link[type='application/rss+xml'],
link[type='application/atom+xml'], link[rel='alternate'][type*='xml']` selects
and whose href resolves to a non-empty URL passes feed validation,
`findRSSFeed` returns that resolved URL and stops in the state after this
validation: no common path is probed. -/
theorem C15_head_tag_priority {σ : Type} (W : World σ) (blogURL : String) (s s1 s2 : σ)
    (u : URL) (doc : Document) (hparse : W.std.urlParse blogURL = some u)
    (hfetch : fetchHTML W blogURL s = (.ok doc, s1))
    (hne : firstHeadFeed W.std blogURL doc ≠ "")
    (hvalid : isValidFeed W (firstHeadFeed W.std blogURL doc) s1 = (true, s2)) :
    findRSSFeed W blogURL s = (.ok (firstHeadFeed W.std blogURL doc), s2) := by
  have hfeed : headFeed W blogURL s = firstHeadFeed W.std blogURL doc := by
    unfold headFeed
    rw [hfetch]
    exact foundFeed_eq_firstHeadFeed W.std blogURL doc
  have hcheck : headCheck W blogURL s = (true, s2) := by
    unfold headCheck
    rw [hfeed, hfetch]
    simp only [hne, ne_eq, not_false_eq_true, if_true]
    exact hvalid
  rw [findRSSFeed_eq W blogURL s u hparse, hcheck, hfeed]
  simp

/-- C15 on the blog `b.example` of the demo site, whose page announces `/feed`
while the catalog paths before `/feed` all answer 404: the announced feed is
returned after three network calls (page, `HEAD`, nothing else). -/
theorem C15_witness :
    goStd.urlParse "https://b.example/" = some { Scheme := "https", Host := "b.example", Path := "/" } ∧
    firstHeadFeed goStd "https://b.example/"
      { links := [{ relAttr := some "alternate", typeAttr := some "application/rss+xml",
                    hrefAttr := some "/feed" }] } = "https://b.example/feed" ∧
    findRSSFeed (staticWorld demoSite none) "https://b.example/" 0 =
      (.ok "https://b.example/feed", 2) :=
  ⟨by decide, by decide,
   (C15_head_tag_priority (staticWorld demoSite none) "https://b.example/" 0 1 2
      { Scheme := "https", Host := "b.example", Path := "/" }
      { links := [{ relAttr := some "alternate", typeAttr := some "application/rss+xml",
                    hrefAttr := some "/feed" }] }
      (by decide) (by rfl) (by decide) (by rfl)).trans (by rfl)⟩

/-- C18: every blog returned by `discoverBlogRSS` has an `RSSFeed` that passed
feed validation during the probe. `findRSSFeed` returns a URL only if
`isValidFeed` returned true for exactly that URL, the URL being the head-tag
feed or the origin followed by one of the common feed paths; and on a blog URL
that parses it returns the error `RSS feed not found` when neither the
head-tag feed nor any catalog path validates. -/
theorem C18_rss_feed_validated {σ : Type} (W : World σ) (blogURL : String) (s : σ) (u : URL)
    (hparse : W.std.urlParse blogURL = some u) :
    (∀ url s1, findRSSFeed W blogURL s = (.ok url, s1) →
      ∃ s0, (isValidFeed W url s0).1 = true ∧
        ((url = headFeed W blogURL s ∧ url ≠ "") ∨
          ∃ path ∈ commonPaths, url = u.Scheme ++ "://" ++ u.Host ++ path)) ∧
    ((headCheck W blogURL s).1 = false →
      (∀ c ∈ catalogChecks W (u.Scheme ++ "://" ++ u.Host) commonPaths (headCheck W blogURL s).2,
        c.2 = false) →
      (findRSSFeed W blogURL s).1 = .error "RSS feed not found") ∧
    (∀ blog, (discoverBlogRSS W blogURL s).1 = .ok blog →
      ∃ s0, (isValidFeed W blog.RSSFeed s0).1 = true) := by
  refine ⟨?_, ?_, ?_⟩
  · intro url s1 h
    obtain ⟨v, hv, s0, h1, h2⟩ := findRSSFeed_ok_valid W blogURL s s1 url h
    rw [hparse] at hv
    cases hv
    exact ⟨s0, h1, h2⟩
  · intro hhead hall
    rw [findRSSFeed_eq W blogURL s u hparse]
    have hsent : (checkCommonPaths W (u.Scheme ++ "://" ++ u.Host) commonPaths
        (headCheck W blogURL s).2).1 = [] := by
      rw [checkCommonPaths_eq, List.map_eq_nil_iff, List.filter_eq_nil_iff]
      intro c hc
      simp [hall c hc]
    simp only [hhead, Bool.false_eq_true, if_false, hsent]
  · intro blog hblog
    obtain ⟨rssURL, feed, s1, s2, h1, _, h3⟩ := discoverBlogRSS_ok W blogURL s blog hblog
    obtain ⟨_, _, s0, hv, _⟩ := findRSSFeed_ok_valid W blogURL s s1 rssURL h1
    subst h3
    exact ⟨s0, hv⟩

/-- C18 on the demo site: the feed of `b.example` is returned after its
validation, and on `d.example`, where the announced feed and every catalog
path fail validation, `findRSSFeed` reports `RSS feed not found`. -/
theorem C18_witness :
    goStd.urlParse "https://d.example/" = some { Scheme := "https", Host := "d.example", Path := "/" } ∧
    (headCheck (staticWorld relFeedSite none) "https://d.example/" 0).1 = false ∧
    (findRSSFeed (staticWorld relFeedSite none) "https://d.example/" 0).1 =
      .error "RSS feed not found" ∧
    (isValidFeed (staticWorld demoSite none) "https://b.example/feed" 1).1 = true ∧
    (discoverBlogRSS (staticWorld demoSite none) "https://b.example/" 0).1 = .ok demoBlogB :=
  ⟨by decide, by rfl,
   (C18_rss_feed_validated (staticWorld relFeedSite none) "https://d.example/" 0
      { Scheme := "https", Host := "d.example", Path := "/" } (by decide)).2.1 (by rfl)
      (by decide),
   by rfl, by rfl⟩

/-! ## C21: the stages reported to the callback -/

theorem fanOutStep_emitted {σ : Type} (W : World σ) (total : Nat) (cb : Progress → σ → σ)
    (st : FanOut σ) (u : String) :
    (fanOutStep W total (some cb) st u).run.emitted =
      st.run.emitted ++ [progressCheckingFeed u (st.processed + 1) total st.foundCount] := by
  unfold fanOutStep
  simp only [ite_self]
  cases hp : discoverBlogRSS W u
      (emit (some cb) (progressCheckingFeed u (st.processed + 1) total st.foundCount) st.run).world with
  | mk res s2 => cases res <;> rfl

theorem fanOut_emitted {σ : Type} (W : World σ) (total : Nat) (cb : Progress → σ → σ)
    (urls : List String) (st : FanOut σ) :
    ∃ ups, (urls.foldl (fanOutStep W total (some cb)) st).run.emitted = st.run.emitted ++ ups ∧
      ups.map (fun p => p.Stage) = List.replicate urls.length "checking_rss" := by
  induction urls generalizing st with
  | nil => exact ⟨[], by simp, rfl⟩
  | cons u us ih =>
    obtain ⟨ups, h1, h2⟩ := ih (fanOutStep W total (some cb) st u)
    refine ⟨progressCheckingFeed u (st.processed + 1) total st.foundCount :: ups, ?_, ?_⟩
    · rw [List.foldl_cons, h1, fanOutStep_emitted]
      simp
    · simp only [List.map_cons, h2, List.length_cons, List.replicate_succ]
      rfl

theorem findFriendLinks_emitted {σ : Type} (W : World σ) (homepage : String)
    (cb : Progress → σ → σ) (r : Run σ) :
    ((∃ e, (findFriendLinksWithProgress W homepage (some cb) r).1 = .error e) ∧
      (findFriendLinksWithProgress W homepage (some cb) r).2.emitted =
        r.emitted ++ [progressFetchingFriendPage (friendPageURL W homepage r)]) ∨
    (∃ links, (findFriendLinksWithProgress W homepage (some cb) r).1 = .ok links ∧
      (findFriendLinksWithProgress W homepage (some cb) r).2.emitted =
        r.emitted ++ [progressFetchingFriendPage (friendPageURL W homepage r),
                      progressFoundLinks links.length]) := by
  unfold findFriendLinksWithProgress friendPageURL
  simp only []
  split
  · left
    rename_i err s2 _
    exact ⟨⟨err, rfl⟩, rfl⟩
  · right
    rename_i doc s2 _
    exact ⟨_, rfl, by simp [emit]⟩

theorem fanOutStep_world {σ : Type} (W : World σ) (total : Nat) (cb : Progress → σ → σ)
    (st : FanOut σ) (u : String) :
    (fanOutStep W total (some cb) st u).run.world =
      (discoverBlogRSS W u
        (cb (progressCheckingFeed u (st.processed + 1) total st.foundCount) st.run.world)).2 := by
  unfold fanOutStep
  simp only [ite_self]
  cases hp : discoverBlogRSS W u
      (emit (some cb) (progressCheckingFeed u (st.processed + 1) total st.foundCount) st.run).world with
  | mk res s2 =>
    have hp2 : discoverBlogRSS W u
        (cb (progressCheckingFeed u (st.processed + 1) total st.foundCount) st.run.world) =
          (res, s2) := hp
    rw [hp2]
    cases res <;> rfl

/-- The run of `DiscoverFromFeedWithProgress` with a callback, stage by stage:
the work of every stage starts in the world that the update of the stage has
left. -/
theorem discover_trace {σ : Type} (W : World σ) (feedURL : String)
    (cb : Progress → σ → σ) (r : Run σ) :
    (∀ e s1, getFeedHomepage W feedURL (cb (progressFetchingHomepage feedURL) r.world) =
        (.error e, s1) →
      (DiscoverFromFeedWithProgress W feedURL (some cb) r).2 =
        { world := s1, emitted := r.emitted ++ [progressFetchingHomepage feedURL] }) ∧
    (∀ homepage s1 located s2 page,
      getFeedHomepage W feedURL (cb (progressFetchingHomepage feedURL) r.world) =
        (.ok homepage, s1) →
      findFriendLinkPage W homepage (cb (progressFindingFriendLinks homepage) s1) =
        (located, s2) →
      page = (match located with
        | .ok u => u
        | .error _ => homepage) →
      (∀ e s3, fetchHTML W page (cb (progressFetchingFriendPage page) s2) = (.error e, s3) →
        (DiscoverFromFeedWithProgress W feedURL (some cb) r).2 =
          { world := s3,
            emitted := r.emitted ++ [progressFetchingHomepage feedURL,
              progressFindingFriendLinks homepage, progressFetchingFriendPage page] }) ∧
      (∀ doc s3, fetchHTML W page (cb (progressFetchingFriendPage page) s2) = (.ok doc, s3) →
        ((extractExternalLinks W.std doc page).length = 0 →
          (DiscoverFromFeedWithProgress W feedURL (some cb) r).2 =
            { world := cb (progressFoundLinks 0) s3,
              emitted := r.emitted ++ [progressFetchingHomepage feedURL,
                progressFindingFriendLinks homepage, progressFetchingFriendPage page,
                progressFoundLinks 0] }) ∧
        ((extractExternalLinks W.std doc page).length ≠ 0 →
          (DiscoverFromFeedWithProgress W feedURL (some cb) r).2 =
            ((extractExternalLinks W.std doc page).foldl
              (fanOutStep W (extractExternalLinks W.std doc page).length (some cb))
              { run :=
                { world := cb (progressCheckingRSS (extractExternalLinks W.std doc page).length)
                    (cb (progressFoundLinks (extractExternalLinks W.std doc page).length) s3),
                  emitted := r.emitted ++ [progressFetchingHomepage feedURL,
                    progressFindingFriendLinks homepage, progressFetchingFriendPage page,
                    progressFoundLinks (extractExternalLinks W.std doc page).length,
                    progressCheckingRSS (extractExternalLinks W.std doc page).length] } }).run))) := by
  refine ⟨?_, ?_⟩
  · intro e s1 hg
    unfold DiscoverFromFeedWithProgress
    simp only [emit, hg]
  · intro homepage s1 located s2 page hg hloc hpage
    refine ⟨?_, ?_⟩
    · intro e s3 hfetch
      unfold DiscoverFromFeedWithProgress findFriendLinksWithProgress
      simp only [emit, hg, hloc]
      rw [← hpage]
      simp only [hfetch]
      simp
    · intro doc s3 hfetch
      refine ⟨?_, ?_⟩
      · intro hzero
        unfold DiscoverFromFeedWithProgress findFriendLinksWithProgress
        simp only [emit, hg, hloc]
        rw [← hpage]
        simp only [hfetch, hzero, if_true]
        simp
      · intro hne
        unfold DiscoverFromFeedWithProgress findFriendLinksWithProgress discoverRSSFeedsWithProgress
        simp only [emit, hg, hloc]
        rw [← hpage]
        simp only [hfetch, hne, if_false]
        simp

theorem stage_sequence {σ : Type} (W : World σ) (feedURL : String)
    (cb : Progress → σ → σ) (r : Run σ) :
    ∃ new k n,
      (DiscoverFromFeedWithProgress W feedURL (some cb) r).2.emitted = r.emitted ++ new ∧
      new.head? = some (progressFetchingHomepage feedURL) ∧
      new.map (fun p => p.Stage) = stageOrder.take k ++ List.replicate n "checking_rss" ∧
      1 ≤ k ∧ k ≤ 4 ∧ (k < 4 → n = 0) ∧
      (∀ p ∈ new, p.Stage ≠ "") ∧
      (homepageRun feedURL (some cb) r).world = cb (progressFetchingHomepage feedURL) r.world ∧
      ((∃ e, (getFeedHomepage W feedURL (homepageRun feedURL (some cb) r).world).1 = .error e) →
        new = [progressFetchingHomepage feedURL]) := by
  have hstage : ∀ (new : List Progress) (k n : Nat),
      new.map (fun p => p.Stage) = stageOrder.take k ++ List.replicate n "checking_rss" →
      ∀ p ∈ new, p.Stage ≠ "" := by
    intro new k n hmap p hp
    have hmem : p.Stage ∈ new.map (fun p => p.Stage) := List.mem_map.mpr ⟨p, hp, rfl⟩
    rw [hmap, List.mem_append] at hmem
    rcases hmem with h | h
    · have h2 := List.mem_of_mem_take h
      simp only [stageOrder, List.mem_cons, List.mem_singleton, List.not_mem_nil, or_false] at h2
      rcases h2 with h2 | h2 | h2 | h2 <;> rw [h2] <;> decide
    · rw [(List.mem_replicate.mp h).2]
      decide
  unfold DiscoverFromFeedWithProgress
  simp only []
  cases hg : getFeedHomepage W feedURL (homepageRun feedURL (some cb) r).world with
  | mk res s1 =>
    have hg2 : getFeedHomepage W feedURL
        (emit (some cb) (progressFetchingHomepage feedURL) r).world = (res, s1) := hg
    cases res with
    | error e =>
      simp only [hg2]
      refine ⟨[progressFetchingHomepage feedURL], 1, 0, rfl, rfl, rfl, by decide, by decide,
        fun _ => rfl, ?_, rfl, fun _ => rfl⟩
      exact hstage _ 1 0 rfl
    | ok homepage =>
      simp only [hg2]
      generalize hrr : emit (some cb) (progressFindingFriendLinks homepage)
        { emit (some cb) (progressFetchingHomepage feedURL) r with world := s1 } = rr
      have hrem : rr.emitted = r.emitted ++
          [progressFetchingHomepage feedURL, progressFindingFriendLinks homepage] := by
        rw [← hrr]
        simp [emit]
      have hcases := findFriendLinks_emitted W homepage cb rr
      generalize friendPageURL W homepage rr = fp at hcases
      rcases hcases with ⟨⟨e, he⟩, hem⟩ | ⟨links, hl, hem⟩
      · cases hf : findFriendLinksWithProgress W homepage (some cb) rr with
        | mk fres r2 =>
          rw [hf] at he hem
          simp only [] at he hem
          subst he
          simp only []
          refine ⟨[progressFetchingHomepage feedURL, progressFindingFriendLinks homepage,
            progressFetchingFriendPage fp], 3, 0, ?_, rfl, rfl, by decide, by decide,
            fun _ => rfl, ?_, rfl, ?_⟩
          · rw [hem, hrem]
            simp
          · exact hstage _ 3 0 rfl
          · rintro ⟨e2, he2⟩
            simp at he2
      · cases hf : findFriendLinksWithProgress W homepage (some cb) rr with
        | mk fres r2 =>
          rw [hf] at hl hem
          simp only [] at hl hem
          subst hl
          simp only []
          by_cases hzero : links.length = 0
          · simp only [hzero, if_true]
            refine ⟨[progressFetchingHomepage feedURL, progressFindingFriendLinks homepage,
              progressFetchingFriendPage fp, progressFoundLinks links.length], 4, 0, ?_, rfl, rfl,
              by decide, by decide, fun h => absurd h (by decide), ?_, rfl, ?_⟩
            · rw [hem, hrem]
              simp
            · exact hstage _ 4 0 rfl
            · rintro ⟨e2, he2⟩
              simp at he2
          · simp only [hzero, if_false]
            unfold discoverRSSFeedsWithProgress
            simp only []
            obtain ⟨ups, hu1, hu2⟩ := fanOut_emitted W links.length cb links
              { run := emit (some cb) (progressCheckingRSS links.length) r2 }
            have hmap : ([progressFetchingHomepage feedURL, progressFindingFriendLinks homepage,
                progressFetchingFriendPage fp,
                progressFoundLinks links.length, progressCheckingRSS links.length] ++ ups).map
                  (fun p => p.Stage) =
                stageOrder.take 4 ++ List.replicate (links.length + 1) "checking_rss" := by
              simp only [List.map_append, hu2, List.replicate_succ]
              rfl
            refine ⟨[progressFetchingHomepage feedURL, progressFindingFriendLinks homepage,
                progressFetchingFriendPage fp,
                progressFoundLinks links.length, progressCheckingRSS links.length] ++ ups,
              4, links.length + 1, ?_, rfl, hmap, by decide, by decide,
              fun h => absurd h (by decide), hstage _ 4 _ hmap, rfl, ?_⟩
            · rw [hu1]
              simp only [emit, hem, hrem]
              simp
            · rintro ⟨e2, he2⟩
              simp at he2

/-- C21: for every feed URL and every non-nil callback, the stages passed to the
callback by `DiscoverFromFeedWithProgress` are, in the order of the calls, a
non-empty beginning of `fetching_homepage`, `finding_friend_links`,
`fetching_friend_page`, `found_links`, followed (only when all four were
reported) by `checking_rss` zero or more times; no stage is empty, and the
callback is called at least once even when the feed cannot be fetched. Every
update is made before the work of its stage starts: the feed is parsed in the
world that the update `fetching_homepage` has left, the friend-link page is
searched in the world left by `finding_friend_links`, it is fetched in the
world left by `fetching_friend_page`, `found_links` and `checking_rss` follow
this fetch with no work in between, and every candidate is probed in the
world left by its own update `checking_rss`; when a stage fails, the run ends
in the world that its work has left, with the updates made so far. -/
theorem C21_stage_sequence {σ : Type} (W : World σ) (feedURL : String)
    (cb : Progress → σ → σ) (r : Run σ) :
    (∃ new k n,
      (DiscoverFromFeedWithProgress W feedURL (some cb) r).2.emitted = r.emitted ++ new ∧
      new.head? = some (progressFetchingHomepage feedURL) ∧
      new.map (fun p => p.Stage) = stageOrder.take k ++ List.replicate n "checking_rss" ∧
      1 ≤ k ∧ k ≤ 4 ∧ (k < 4 → n = 0) ∧
      (∀ p ∈ new, p.Stage ≠ "") ∧
      ((∃ e, (getFeedHomepage W feedURL (cb (progressFetchingHomepage feedURL) r.world)).1 =
          .error e) →
        new = [progressFetchingHomepage feedURL])) ∧
    (∀ e s1, getFeedHomepage W feedURL (cb (progressFetchingHomepage feedURL) r.world) =
        (.error e, s1) →
      (DiscoverFromFeedWithProgress W feedURL (some cb) r).2 =
        { world := s1, emitted := r.emitted ++ [progressFetchingHomepage feedURL] }) ∧
    (∀ homepage s1 located s2 page,
      getFeedHomepage W feedURL (cb (progressFetchingHomepage feedURL) r.world) =
        (.ok homepage, s1) →
      findFriendLinkPage W homepage (cb (progressFindingFriendLinks homepage) s1) =
        (located, s2) →
      page = (match located with
        | .ok u => u
        | .error _ => homepage) →
      (∀ e s3, fetchHTML W page (cb (progressFetchingFriendPage page) s2) = (.error e, s3) →
        (DiscoverFromFeedWithProgress W feedURL (some cb) r).2 =
          { world := s3,
            emitted := r.emitted ++ [progressFetchingHomepage feedURL,
              progressFindingFriendLinks homepage, progressFetchingFriendPage page] }) ∧
      (∀ doc s3, fetchHTML W page (cb (progressFetchingFriendPage page) s2) = (.ok doc, s3) →
        ((extractExternalLinks W.std doc page).length = 0 →
          (DiscoverFromFeedWithProgress W feedURL (some cb) r).2 =
            { world := cb (progressFoundLinks 0) s3,
              emitted := r.emitted ++ [progressFetchingHomepage feedURL,
                progressFindingFriendLinks homepage, progressFetchingFriendPage page,
                progressFoundLinks 0] }) ∧
        ((extractExternalLinks W.std doc page).length ≠ 0 →
          (DiscoverFromFeedWithProgress W feedURL (some cb) r).2 =
            ((extractExternalLinks W.std doc page).foldl
              (fanOutStep W (extractExternalLinks W.std doc page).length (some cb))
              { run :=
                { world := cb (progressCheckingRSS (extractExternalLinks W.std doc page).length)
                    (cb (progressFoundLinks (extractExternalLinks W.std doc page).length) s3),
                  emitted := r.emitted ++ [progressFetchingHomepage feedURL,
                    progressFindingFriendLinks homepage, progressFetchingFriendPage page,
                    progressFoundLinks (extractExternalLinks W.std doc page).length,
                    progressCheckingRSS (extractExternalLinks W.std doc page).length] } }).run))) ∧
    (∀ (total : Nat) (st : FanOut σ) (u : String),
      (fanOutStep W total (some cb) st u).run.emitted =
        st.run.emitted ++ [progressCheckingFeed u (st.processed + 1) total st.foundCount] ∧
      (fanOutStep W total (some cb) st u).run.world =
        (discoverBlogRSS W u
          (cb (progressCheckingFeed u (st.processed + 1) total st.foundCount) st.run.world)).2) :=
  ⟨(stage_sequence W feedURL cb r).imp fun _ h1 => h1.imp fun _ h2 => h2.imp fun _ h =>
      ⟨h.1, h.2.1, h.2.2.1, h.2.2.2.1, h.2.2.2.2.1, h.2.2.2.2.2.1, h.2.2.2.2.2.2.1,
        h.2.2.2.2.2.2.2.2⟩,
    (discover_trace W feedURL cb r).1, (discover_trace W feedURL cb r).2,
    fun total st u => ⟨fanOutStep_emitted W total cb st u, fanOutStep_world W total cb st u⟩⟩

/-- The stages on the demo site: the callback is called seven times, with the
stages in their order. -/
theorem demoSite_stages :
    ((DiscoverFromFeedWithProgress (staticWorld demoSite none) "https://a.example/feed.xml"
      (some (fun _ s => s)) { world := 0 }).2.emitted.map (fun p => p.Stage)) =
      ["fetching_homepage", "finding_friend_links", "fetching_friend_page", "found_links",
        "checking_rss", "checking_rss", "checking_rss"] := by
  rfl

/-! ## C22, C23: the worker pools -/

theorem length_eraseIdx_of_get {α : Type} {l : List α} {i : Nat} {a : α}
    (h : l[i]? = some a) : (l.eraseIdx i).length + 1 = l.length := by
  have hi : i < l.length := by
    by_contra hn
    have hnone : l[i]? = none := List.getElem?_eq_none (Nat.le_of_not_lt hn)
    rw [hnone] at h
    cases h
  rw [List.length_eraseIdx_of_lt hi]
  omega

/-- What one step of the pool changes, in numbers: the sizes of the lists and
the counters before and after the step. -/
theorem poolStep_sizes (cap total : Nat) (cb : Bool) (s s1 : Pool) (a : PoolAction)
    (h : poolStep cap total cb s a = some s1) :
    (a = .dispatch ∧ s.inFlight < cap ∧ s1.todo.length + 1 = s.todo.length ∧
      s1.reporting.length = s.reporting.length + 1 ∧ s1.probing.length = s.probing.length ∧
      s1.counting.length = s.counting.length ∧ s1.sending.length = s.sending.length ∧
      s1.releasing = s.releasing ∧ s1.processed = s.processed ∧
      s1.foundCount = s.foundCount ∧ s1.succeeded = s.succeeded ∧
      s1.results.length = s.results.length ∧ s1.reads = s.reads) ∨
    ((∃ i, a = .report i) ∧ s1.todo.length = s.todo.length ∧
      s1.reporting.length + 1 = s.reporting.length ∧ s1.probing.length = s.probing.length + 1 ∧
      s1.counting.length = s.counting.length ∧ s1.sending.length = s.sending.length ∧
      s1.releasing = s.releasing ∧
      s1.foundCount = s.foundCount ∧ s1.succeeded = s.succeeded ∧
      s1.results.length = s.results.length ∧
      ((cb = true ∧ s1.processed = s.processed + 1 ∧
          ∃ u, s1.reads = s.reads ++
            [(progressCheckingFeed u (s.processed + 1) total s.foundCount, s.succeeded)]) ∨
        (cb = false ∧ s1.processed = s.processed ∧ s1.reads = s.reads))) ∨
    ((∃ i blog, a = .probeOk i blog) ∧ s1.todo.length = s.todo.length ∧
      s1.reporting.length = s.reporting.length ∧ s1.probing.length + 1 = s.probing.length ∧
      s1.counting.length = s.counting.length + 1 ∧ s1.sending.length = s.sending.length ∧
      s1.releasing = s.releasing ∧ s1.processed = s.processed ∧
      s1.foundCount = s.foundCount ∧ s1.succeeded = s.succeeded + 1 ∧
      s1.results.length = s.results.length ∧ s1.reads = s.reads) ∨
    ((∃ i, a = .probeFail i) ∧ s1.todo.length = s.todo.length ∧
      s1.reporting.length = s.reporting.length ∧ s1.probing.length + 1 = s.probing.length ∧
      s1.counting.length = s.counting.length ∧ s1.sending.length = s.sending.length ∧
      s1.releasing = s.releasing + 1 ∧ s1.processed = s.processed ∧
      s1.foundCount = s.foundCount ∧ s1.succeeded = s.succeeded ∧
      s1.results.length = s.results.length ∧ s1.reads = s.reads) ∨
    ((∃ i, a = .count i) ∧ s1.todo.length = s.todo.length ∧
      s1.reporting.length = s.reporting.length ∧ s1.probing.length = s.probing.length ∧
      s1.counting.length + 1 = s.counting.length ∧ s1.sending.length = s.sending.length + 1 ∧
      s1.releasing = s.releasing ∧ s1.processed = s.processed ∧
      s1.foundCount = s.foundCount + 1 ∧ s1.succeeded = s.succeeded ∧
      s1.results.length = s.results.length ∧ s1.reads = s.reads) ∨
    ((∃ i, a = .send i) ∧ s.results.length < total ∧ s1.todo.length = s.todo.length ∧
      s1.reporting.length = s.reporting.length ∧ s1.probing.length = s.probing.length ∧
      s1.counting.length = s.counting.length ∧ s1.sending.length + 1 = s.sending.length ∧
      s1.releasing = s.releasing + 1 ∧ s1.processed = s.processed ∧
      s1.foundCount = s.foundCount ∧ s1.succeeded = s.succeeded ∧
      s1.results.length = s.results.length + 1 ∧ s1.reads = s.reads) ∨
    (a = .release ∧ s1.todo.length = s.todo.length ∧
      s1.reporting.length = s.reporting.length ∧ s1.probing.length = s.probing.length ∧
      s1.counting.length = s.counting.length ∧ s1.sending.length = s.sending.length ∧
      s1.releasing + 1 = s.releasing ∧ s1.processed = s.processed ∧
      s1.foundCount = s.foundCount ∧ s1.succeeded = s.succeeded ∧
      s1.results.length = s.results.length ∧ s1.reads = s.reads) := by
  cases a with
  | dispatch =>
    left
    unfold poolStep at h
    cases htodo : s.todo with
    | nil => simp [htodo] at h
    | cons u rest =>
      simp only [htodo] at h
      by_cases hc : s.inFlight < cap
      · simp only [hc, if_true, Option.some.injEq] at h
        subst h
        simp [hc]
      · simp [hc] at h
  | report i =>
    right; left
    unfold poolStep at h
    cases hr : s.reporting[i]? with
    | none => simp [hr] at h
    | some u =>
      have hlen := length_eraseIdx_of_get hr
      simp only [hr] at h
      cases cb with
      | true =>
        simp only [if_true, Option.some.injEq] at h
        subst h
        refine ⟨⟨i, rfl⟩, rfl, hlen, by simp, rfl, rfl, rfl, rfl, rfl, rfl,
          Or.inl ⟨rfl, rfl, u, rfl⟩⟩
      | false =>
        simp only [Bool.false_eq_true, if_false, Option.some.injEq] at h
        subst h
        refine ⟨⟨i, rfl⟩, rfl, hlen, by simp, rfl, rfl, rfl, rfl, rfl, rfl,
          Or.inr ⟨rfl, rfl, rfl⟩⟩
  | probeOk i blog =>
    right; right; left
    unfold poolStep at h
    cases hr : s.probing[i]? with
    | none => simp [hr] at h
    | some u =>
      have hlen := length_eraseIdx_of_get hr
      simp only [hr, Option.some.injEq] at h
      subst h
      exact ⟨⟨i, blog, rfl⟩, rfl, rfl, hlen, by simp, rfl, rfl, rfl, rfl, rfl, rfl, rfl⟩
  | probeFail i =>
    right; right; right; left
    unfold poolStep at h
    cases hr : s.probing[i]? with
    | none => simp [hr] at h
    | some u =>
      have hlen := length_eraseIdx_of_get hr
      simp only [hr, Option.some.injEq] at h
      subst h
      exact ⟨⟨i, rfl⟩, rfl, rfl, hlen, rfl, rfl, rfl, rfl, rfl, rfl, rfl, rfl⟩
  | count i =>
    right; right; right; right; left
    unfold poolStep at h
    cases hr : s.counting[i]? with
    | none => simp [hr] at h
    | some blog =>
      have hlen := length_eraseIdx_of_get hr
      simp only [hr, Option.some.injEq] at h
      subst h
      exact ⟨⟨i, rfl⟩, rfl, rfl, rfl, hlen, by simp, rfl, rfl, rfl, rfl, rfl, rfl⟩
  | send i =>
    right; right; right; right; right; left
    unfold poolStep at h
    cases hr : s.sending[i]? with
    | none => simp [hr] at h
    | some blog =>
      have hlen := length_eraseIdx_of_get hr
      simp only [hr] at h
      by_cases hc : s.results.length < total
      · simp only [hc, if_true, Option.some.injEq] at h
        subst h
        exact ⟨⟨i, rfl⟩, hc, rfl, rfl, rfl, rfl, hlen, rfl, rfl, rfl, rfl, by simp, rfl⟩
      · simp [hc] at h
  | release =>
    right; right; right; right; right; right
    unfold poolStep at h
    by_cases hc : 0 < s.releasing
    · simp only [hc, if_true, Option.some.injEq] at h
      subst h
      refine ⟨rfl, rfl, rfl, rfl, rfl, rfl, ?_, rfl, rfl, rfl, rfl, rfl⟩
      show s.releasing - 1 + 1 = s.releasing
      omega
    · simp [hc] at h

theorem poolStep_inv (cap total : Nat) (cb : Bool) (s s1 : Pool) (a : PoolAction)
    (h : poolStep cap total cb s a = some s1) (hinv : PoolInv cap total s) :
    PoolInv cap total s1 ∧ s1.measure + 1 ≤ s.measure := by
  obtain ⟨h1, h2, h3⟩ := hinv
  unfold PoolInv Pool.inFlight Pool.unsent Pool.measure at *
  rcases poolStep_sizes cap total cb s s1 a h with
    ⟨_, hc, e1, e2, e3, e4, e5, e6, e7, e8, e9, e10, _⟩ |
    ⟨_, e1, e2, e3, e4, e5, e6, e8, e9, e10, _⟩ |
    ⟨_, e1, e2, e3, e4, e5, e6, e7, e8, e9, e10, _⟩ |
    ⟨_, e1, e2, e3, e4, e5, e6, e7, e8, e9, e10, _⟩ |
    ⟨_, e1, e2, e3, e4, e5, e6, e7, e8, e9, e10, _⟩ |
    ⟨_, hc, e1, e2, e3, e4, e5, e6, e7, e8, e9, e10, _⟩ |
    ⟨_, e1, e2, e3, e4, e5, e6, e7, e8, e9, e10, _⟩
  all_goals (try unfold Pool.inFlight at *)
  all_goals (refine ⟨⟨?_, ?_, ?_⟩, ?_⟩ <;> omega)

theorem runPool_inv (cap total : Nat) (cb : Bool) (acts : List PoolAction) (s s1 : Pool)
    (hrun : runPool cap total cb acts s = some s1) (hinv : PoolInv cap total s) :
    PoolInv cap total s1 ∧ acts.length + s1.measure ≤ s.measure := by
  induction acts generalizing s with
  | nil =>
    simp only [runPool, Option.some.injEq] at hrun
    subst hrun
    exact ⟨hinv, by simp⟩
  | cons a rest ih =>
    unfold runPool at hrun
    cases hstep : poolStep cap total cb s a with
    | none => simp [hstep] at hrun
    | some s2 =>
      simp only [hstep] at hrun
      obtain ⟨hinv2, hm⟩ := poolStep_inv cap total cb s s2 a hstep hinv
      obtain ⟨hinv1, hm1⟩ := ih s2 hrun hinv2
      refine ⟨hinv1, ?_⟩
      simp only [List.length_cons]
      omega

theorem poolInit_inv (cap : Nat) (blogURLs : List String) :
    PoolInv cap blogURLs.length (poolInit blogURLs) := by
  simp [PoolInv, poolInit, Pool.inFlight, Pool.unsent]

theorem poolStep_reads (cap total : Nat) (s s1 : Pool) (a : PoolAction)
    (h : poolStep cap total true s a = some s1) (hinv : PoolInv cap total s)
    (hreads : ReadsInv total s) : ReadsInv total s1 := by
  obtain ⟨_, _, h3⟩ := hinv
  obtain ⟨r1, r2, r3, r4, r5⟩ := hreads
  have keep : s1.reads = s.reads → s1.processed = s.processed →
      s.succeeded ≤ s1.succeeded → s.foundCount ≤ s1.foundCount →
      s1.processed + s1.todo.length + s1.reporting.length = total → ReadsInv total s1 := by
    intro e1 e2 e3 e4 e5
    refine ⟨by rw [e1, e2]; exact r1, by rw [e1]; exact r2, by rw [e1]; exact r3, ?_, e5⟩
    intro x hx
    rw [e1] at hx
    obtain ⟨a1, a2, a3⟩ := r4 x hx
    exact ⟨a1, by omega, by omega⟩
  rcases poolStep_sizes cap total true s s1 a h with
    ⟨_, hc, e1, e2, e3, e4, e5, e6, e7, e8, e9, e10, e11⟩ |
    ⟨_, e1, e2, e3, e4, e5, e6, e8, e9, e10, hcb⟩ |
    ⟨_, e1, e2, e3, e4, e5, e6, e7, e8, e9, e10, e11⟩ |
    ⟨_, e1, e2, e3, e4, e5, e6, e7, e8, e9, e10, e11⟩ |
    ⟨_, e1, e2, e3, e4, e5, e6, e7, e8, e9, e10, e11⟩ |
    ⟨_, hc, e1, e2, e3, e4, e5, e6, e7, e8, e9, e10, e11⟩ |
    ⟨_, e1, e2, e3, e4, e5, e6, e7, e8, e9, e10, e11⟩
  · exact keep e11 e7 (by omega) (by omega) (by omega)
  · rcases hcb with ⟨_, ep, u, er⟩ | ⟨hf, _, _⟩
    · refine ⟨?_, ?_, ?_, ?_, by omega⟩
      · rw [er, ep, List.map_append, r1, List.range'_1_concat]
        simp [progressCheckingFeed, Nat.add_comm]
      · intro x hx
        rw [er, List.mem_append] at hx
        rcases hx with hx | hx
        · exact r2 x hx
        · rw [List.mem_singleton] at hx
          subst hx
          exact ⟨rfl, rfl⟩
      · rw [er, List.map_append, List.pairwise_append]
        refine ⟨r3, by simp, ?_⟩
        intro a ha b hb
        obtain ⟨x, hx, rfl⟩ := List.mem_map.mp ha
        simp only [List.map_cons, List.map_nil, List.mem_singleton] at hb
        subst hb
        exact (r4 x hx).2.2
      · intro x hx
        rw [er, List.mem_append] at hx
        rcases hx with hx | hx
        · obtain ⟨a1, a2, a3⟩ := r4 x hx
          exact ⟨a1, by omega, by omega⟩
        · rw [List.mem_singleton] at hx
          subst hx
          simp only [progressCheckingFeed]
          exact ⟨by omega, by omega, by omega⟩
    · cases hf
  · exact keep e11 e7 (by omega) (by omega) (by omega)
  · exact keep e11 e7 (by omega) (by omega) (by omega)
  · exact keep e11 e7 (by omega) (by omega) (by omega)
  · exact keep e11 e7 (by omega) (by omega) (by omega)
  · exact keep e11 e7 (by omega) (by omega) (by omega)

theorem runPool_reads (cap total : Nat) (acts : List PoolAction) (s s1 : Pool)
    (hrun : runPool cap total true acts s = some s1) (hinv : PoolInv cap total s)
    (hreads : ReadsInv total s) : ReadsInv total s1 := by
  induction acts generalizing s with
  | nil =>
    simp only [runPool, Option.some.injEq] at hrun
    subst hrun
    exact hreads
  | cons a rest ih =>
    unfold runPool at hrun
    cases hstep : poolStep cap total true s a with
    | none => simp [hstep] at hrun
    | some s2 =>
      simp only [hstep] at hrun
      exact ih s2 hrun (poolStep_inv cap total true s s2 a hstep hinv).1
        (poolStep_reads cap total s s2 a hstep hinv hreads)

theorem poolInit_reads (blogURLs : List String) :
    ReadsInv blogURLs.length (poolInit blogURLs) := by
  simp [ReadsInv, poolInit]

/-- C22: within one run over N candidates with a non-nil callback, in every
state that the pool can reach, the per-candidate `checking_rss` updates, taken
in the order in which the counters were read, have `Current` equal to 1, 2,
3, and so on (up to N once every worker has finished), `Total` equal to N, and
a `FoundCount` that never decreases and never exceeds the number of probes
that had succeeded when it was read. -/
theorem C22_progress_counters (cap : Nat) (blogURLs : List String) (acts : List PoolAction)
    (s : Pool)
    (hrun : runPool cap blogURLs.length true acts (poolInit blogURLs) = some s) :
    s.reads.map (fun x => x.1.Current) = List.range' 1 s.processed ∧
    s.processed ≤ blogURLs.length ∧
    (s.final = true → s.reads.map (fun x => x.1.Current) = List.range' 1 blogURLs.length) ∧
    (∀ x ∈ s.reads, x.1.Total = blogURLs.length ∧ x.1.Stage = "checking_rss") ∧
    (s.reads.map (fun x => x.1.FoundCount)).Pairwise (fun a b => a ≤ b) ∧
    (∀ x ∈ s.reads, x.1.FoundCount ≤ x.2 ∧ x.2 ≤ s.succeeded) := by
  obtain ⟨r1, r2, r3, r4, r5⟩ := runPool_reads cap blogURLs.length acts (poolInit blogURLs) s hrun
    (poolInit_inv cap blogURLs) (poolInit_reads blogURLs)
  refine ⟨r1, by omega, ?_, r2, r3, fun x hx => ⟨(r4 x hx).1, (r4 x hx).2.1⟩⟩
  intro hfinal
  have hz : s.todo.length = 0 ∧ s.reporting.length = 0 := by
    simp only [Pool.final, Pool.inFlight, Bool.and_eq_true, List.isEmpty_iff, beq_iff_eq]
      at hfinal
    obtain ⟨ht, hf⟩ := hfinal
    rw [ht]
    exact ⟨rfl, by omega⟩
  have hp : s.processed = blogURLs.length := by omega
  rw [r1, hp]

/-- C22 on a run over the two candidates of the demo site: the two updates
read `Current` 1 and 2, `Total` 2, and `FoundCount` 0 and 1. -/
theorem C22_witness :
    (runPool 15 2 true demoPoolRun (poolInit ["https://b.example/", "https://c.example/"])).map
      (fun s => (s.final, s.results, s.reads.map (fun x => (x.1.Current, x.1.Total, x.1.FoundCount, x.2)))) =
      some (true, [demoBlogB], [(1, 2, 0, 0), (2, 2, 1, 1)]) ∧
    ∀ s, runPool 15 2 true demoPoolRun (poolInit ["https://b.example/", "https://c.example/"]) = some s →
      s.reads.map (fun x => x.1.Current) = List.range' 1 s.processed ∧
      s.processed ≤ 2 ∧
      (s.final = true → s.reads.map (fun x => x.1.Current) = List.range' 1 2) ∧
      (∀ x ∈ s.reads, x.1.Total = 2 ∧ x.1.Stage = "checking_rss") ∧
      (s.reads.map (fun x => x.1.FoundCount)).Pairwise (fun a b => a ≤ b) ∧
      (∀ x ∈ s.reads, x.1.FoundCount ≤ x.2 ∧ x.2 ≤ s.succeeded) :=
  ⟨by rfl, fun s hs =>
    C22_progress_counters 15 ["https://b.example/", "https://c.example/"] demoPoolRun s hs⟩

theorem pool_progress (cap total : Nat) (cb : Bool) (s : Pool) (hcap : 0 < cap)
    (hinv : PoolInv cap total s) (hnf : s.final = false) :
    ∃ a s1, a.noSuccess = true ∧ poolStep cap total cb s a = some s1 := by
  obtain ⟨_, h2, _⟩ := hinv
  have fin : ∀ a : PoolAction, a.noSuccess = true →
      (poolStep cap total cb s a).isSome = true →
      ∃ a s1, a.noSuccess = true ∧ poolStep cap total cb s a = some s1 := by
    intro a ha h
    obtain ⟨s1, hs1⟩ := Option.isSome_iff_exists.mp h
    exact ⟨a, s1, ha, hs1⟩
  by_cases hrel : 0 < s.releasing
  · exact fin .release rfl (by simp [poolStep, hrel])
  cases hsend : s.sending with
  | cons b rest =>
    have hlt : s.results.length < total := by
      simp only [Pool.unsent, hsend, List.length_cons] at h2
      omega
    exact fin (.send 0) rfl (by simp [poolStep, hsend, hlt])
  | nil =>
    cases hcount : s.counting with
    | cons b rest => exact fin (.count 0) rfl (by simp [poolStep, hcount])
    | nil =>
      cases hprobe : s.probing with
      | cons u rest => exact fin (.probeFail 0) rfl (by simp [poolStep, hprobe])
      | nil =>
        cases hrep : s.reporting with
        | cons u rest =>
          cases cb
          · exact fin (.report 0) rfl (by simp [poolStep, hrep])
          · exact fin (.report 0) rfl (by simp [poolStep, hrep])
        | nil =>
          have hfl : s.inFlight = 0 := by
            simp only [Pool.inFlight, hsend, hcount, hprobe, hrep, List.length_nil]
            omega
          cases htodo : s.todo with
          | nil => simp [Pool.final, htodo, hfl] at hnf
          | cons u rest =>
            exact fin .dispatch rfl (by simp [poolStep, htodo, hfl, hcap])

theorem runPool_noSuccess (cap total : Nat) (cb : Bool) (acts : List PoolAction) (s s1 : Pool)
    (hrun : runPool cap total cb acts s = some s1)
    (hall : acts.all PoolAction.noSuccess = true)
    (h0 : s.counting.length = 0 ∧ s.sending.length = 0 ∧ s.results.length = 0) :
    s1.counting.length = 0 ∧ s1.sending.length = 0 ∧ s1.results.length = 0 := by
  induction acts generalizing s with
  | nil =>
    simp only [runPool, Option.some.injEq] at hrun
    subst hrun
    exact h0
  | cons a rest ih =>
    unfold runPool at hrun
    simp only [List.all_cons, Bool.and_eq_true] at hall
    cases hstep : poolStep cap total cb s a with
    | none => simp [hstep] at hrun
    | some s2 =>
      simp only [hstep] at hrun
      refine ih s2 hrun hall.2 ?_
      obtain ⟨c0, d0, r0⟩ := h0
      rcases poolStep_sizes cap total cb s s2 a hstep with
        ⟨_, hc, e1, e2, e3, e4, e5, e6, e7, e8, e9, e10, _⟩ |
        ⟨_, e1, e2, e3, e4, e5, e6, e8, e9, e10, _⟩ |
        ⟨⟨i, blog, ha⟩, _⟩ |
        ⟨_, e1, e2, e3, e4, e5, e6, e7, e8, e9, e10, _⟩ |
        ⟨_, e1, e2, e3, e4, e5, e6, e7, e8, e9, e10, _⟩ |
        ⟨_, hc, e1, e2, e3, e4, e5, e6, e7, e8, e9, e10, _⟩ |
        ⟨_, e1, e2, e3, e4, e5, e6, e7, e8, e9, e10, _⟩
      · exact ⟨by omega, by omega, by omega⟩
      · exact ⟨by omega, by omega, by omega⟩
      · rw [ha] at hall
        simp [PoolAction.noSuccess] at hall
      · exact ⟨by omega, by omega, by omega⟩
      · omega
      · omega
      · exact ⟨by omega, by omega, by omega⟩

theorem innerStep_sizes (cap buffer : Nat) (s s1 : InnerPool) (a : InnerAction)
    (h : innerStep cap buffer s a = some s1) :
    (s.checking.length < cap ∧ s1.waiting.length + 1 = s.waiting.length ∧
      s1.checking.length = s.checking.length + 1 ∧ s1.sent.length = s.sent.length) ∨
    (s1.waiting.length = s.waiting.length ∧ s1.checking.length + 1 = s.checking.length ∧
      s1.sent.length ≤ s.sent.length + 1) := by
  cases a with
  | acquire i =>
    simp only [innerStep] at h
    cases hw : s.waiting[i]? with
    | none => simp [hw] at h
    | some fURL =>
      simp only [hw] at h
      split at h
      · rename_i hlt
        simp only [Option.some.injEq] at h
        subst h
        have := length_eraseIdx_of_get hw
        left
        refine ⟨hlt, this, ?_, ?_⟩ <;> simp
      · simp at h
  | finish i valid =>
    simp only [innerStep] at h
    cases hw : s.checking[i]? with
    | none => simp [hw] at h
    | some fURL =>
      simp only [hw] at h
      have := length_eraseIdx_of_get hw
      right
      split at h
      · split at h
        · simp only [Option.some.injEq] at h
          subst h
          refine ⟨?_, this, ?_⟩ <;> simp
        · simp at h
      · simp only [Option.some.injEq] at h
        subst h
        exact ⟨rfl, this, by simp⟩

theorem runInner_inv (cap buffer : Nat) (acts : List InnerAction) (s s1 : InnerPool)
    (hrun : runInner cap buffer acts s = some s1) (hinv : s.checking.length ≤ cap) :
    s1.checking.length ≤ cap ∧
      acts.length + (2 * s1.waiting.length + s1.checking.length) ≤
        2 * s.waiting.length + s.checking.length := by
  induction acts generalizing s with
  | nil =>
    simp only [runInner, Option.some.injEq] at hrun
    subst hrun
    exact ⟨hinv, by simp⟩
  | cons a rest ih =>
    unfold runInner at hrun
    cases hstep : innerStep cap buffer s a with
    | none => simp [hstep] at hrun
    | some s2 =>
      simp only [hstep] at hrun
      have hs := innerStep_sizes cap buffer s s2 a hstep
      have hinv2 : s2.checking.length ≤ cap := by omega
      obtain ⟨h1, h2⟩ := ih s2 hrun hinv2
      refine ⟨h1, ?_⟩
      simp only [List.length_cons]
      omega

theorem inner_progress (cap buffer : Nat) (s : InnerPool) (hcap : 0 < cap)
    (hnf : s.final = false) :
    ∃ a s1, innerStep cap buffer s a = some s1 ∧ s1.sent = s.sent := by
  cases hc : s.checking with
  | cons fURL rest =>
    exact ⟨.finish 0 false, { s with checking := s.checking.eraseIdx 0 },
      by simp [innerStep, hc], rfl⟩
  | nil =>
    cases hw : s.waiting with
    | nil => simp [InnerPool.final, hc, hw] at hnf
    | cons fURL rest =>
      exact ⟨.acquire 0, { s with waiting := s.waiting.eraseIdx 0, checking := s.checking ++ [fURL] },
        by simp [innerStep, hc, hw, hcap], rfl⟩

/-- C23: in every state that a run of `discoverRSSFeedsWithProgress` over
`blogURLs` can reach, at most 15 candidate probes are in flight; a run has at
most six steps per candidate; in a state where some worker has not finished, a
step other than the successful return of a probe can be taken, so the run is
never stuck when every probe fails; and when every probe fails the run ends
with no result. Within one `findRSSFeed`, at most 5 validations of common
paths are in flight, a run has at most two steps per path, and while some
goroutine has not finished a step can be taken that sends no feed URL. -/
theorem C23_pool_capacities (cb : Bool) (blogURLs : List String) (acts : List PoolAction)
    (s : Pool)
    (hrun : runPool 15 blogURLs.length cb acts (poolInit blogURLs) = some s) :
    s.probing.length ≤ s.inFlight ∧ s.inFlight ≤ 15 ∧
    acts.length + s.measure ≤ 6 * blogURLs.length ∧
    (s.final = false → ∃ a s1, a.noSuccess = true ∧
      poolStep 15 blogURLs.length cb s a = some s1) ∧
    (acts.all PoolAction.noSuccess = true → s.results = []) ∧
    (∀ (baseURL : String) (inner : List InnerAction) (t : InnerPool),
      runInner 5 commonPaths.length inner (innerInit baseURL commonPaths) = some t →
      t.checking.length ≤ 5 ∧
      inner.length + (2 * t.waiting.length + t.checking.length) ≤ 2 * commonPaths.length ∧
      (t.final = false → ∃ a t1, innerStep 5 commonPaths.length t a = some t1 ∧
        t1.sent = t.sent)) := by
  obtain ⟨hinv, hm⟩ := runPool_inv 15 blogURLs.length cb acts (poolInit blogURLs) s hrun
    (poolInit_inv 15 blogURLs)
  refine ⟨by unfold Pool.inFlight; omega, hinv.1, ?_, ?_, ?_, ?_⟩
  · simpa [Pool.measure, poolInit] using hm
  · intro hnf
    exact pool_progress 15 blogURLs.length cb s (by decide) hinv hnf
  · intro hall
    have h := runPool_noSuccess 15 blogURLs.length cb acts (poolInit blogURLs) s hrun hall
      ⟨rfl, rfl, rfl⟩
    exact List.length_eq_zero.mp h.2.2
  · intro baseURL inner t ht
    obtain ⟨h1, h2⟩ := runInner_inv 5 commonPaths.length inner (innerInit baseURL commonPaths) t ht
      (by simp [innerInit])
    refine ⟨h1, ?_, fun hnf => inner_progress 5 commonPaths.length t (by decide) hnf⟩
    simpa [innerInit] using h2

/-- C23 on a run over the two candidates of the demo site, which ends with
every worker finished after ten steps. -/
theorem C23_witness :
    (runPool 15 2 true demoPoolRun (poolInit ["https://b.example/", "https://c.example/"])).map
      (fun s => (s.final, s.inFlight, s.measure)) = some (true, 0, 0) ∧
    (runInner 2 3 demoInnerRun (innerInit "https://b.example" ["/feed", "/rss", "/atom.xml"])).map
      (fun t => (t.final, t.sent)) = some (true, ["https://b.example/rss"]) ∧
    ∀ s, runPool 15 2 true demoPoolRun (poolInit ["https://b.example/", "https://c.example/"]) = some s →
      s.probing.length ≤ s.inFlight ∧ s.inFlight ≤ 15 ∧
      demoPoolRun.length + s.measure ≤ 6 * 2 :=
  ⟨by rfl, by decide, fun s hs =>
    let h := C23_pool_capacities true ["https://b.example/", "https://c.example/"] demoPoolRun s hs
    ⟨h.1, h.2.1, h.2.2.1⟩⟩

end Discovery

namespace Cache

/-! ## C24 to C28: the content cache -/

/-- C24, evaluated at a failing input: in a cache of max size 1, `Set(0, "a")`
followed by `Set(1, "b")` leaves two items, because the article ID 0 is also
the value of `oldestID` that means "no item found". The same happens with
non-zero IDs when the stored item was set at the very clock reading that
initialises `oldestTime`. -/
theorem C24_failing_input_size_exceeds_max :
    Size (Set (Set (NewContentCache 1 3600) 0 "a" 10 10) 1 "b" 20 20) = 2 ∧
    Size (Set (Set (NewContentCache 1 3600) 7 "a" 10 10) 8 "b" 10 10) = 2 ∧
    Size (Set (Set (NewContentCache 1 3600) 7 "a" 10 10) 8 "b" 20 20) = 1 := by
  refine ⟨by decide, by decide, by decide⟩

/-- C25, evaluated at a failing input: in a cache of max size 2 that holds the
article 0 (set at 10) and the article 5 (set at 20), `Set(6, "c")` at 30 removes
nothing: the oldest item, stored under the article ID 0, is still served, and
the cache holds three items. With the oldest item stored under the ID 4
instead, it is removed. -/
theorem C25_failing_input_oldest_not_removed :
    Get (Set (Set (Set (NewContentCache 2 3600) 0 "a" 10 10) 5 "b" 20 20) 6 "c" 30 30) 0 31 =
      ("a", true) ∧
    Size (Set (Set (Set (NewContentCache 2 3600) 0 "a" 10 10) 5 "b" 20 20) 6 "c" 30 30) = 3 ∧
    Get (Set (Set (Set (NewContentCache 2 3600) 4 "a" 10 10) 5 "b" 20 20) 6 "c" 30 30) 4 31 =
      ("", false) ∧
    Size (Set (Set (Set (NewContentCache 2 3600) 4 "a" 10 10) 5 "b" 20 20) 6 "c" 30 30) = 2 := by
  refine ⟨by decide, by decide, by decide, by decide⟩

theorem mapLookup_mapAssign (m : List (Int × ContentCacheItem)) (key : Int)
    (item : ContentCacheItem) : mapLookup (mapAssign m key item) key = some item := by
  unfold mapLookup mapAssign mapDelete
  have hnone : (m.filter (fun e => e.1 != key)).find? (fun e => e.1 == key) = none := by
    rw [List.find?_eq_none]
    intro e he
    have := (List.mem_filter.mp he).2
    simpa using this
  rw [List.find?_append, hnone]
  simp

theorem mapLookup_mapDelete (m : List (Int × ContentCacheItem)) (key : Int) :
    mapLookup (mapDelete m key) key = none := by
  unfold mapLookup mapDelete
  have hnone : (m.filter (fun e => e.1 != key)).find? (fun e => e.1 == key) = none := by
    rw [List.find?_eq_none]
    intro e he
    have := (List.mem_filter.mp he).2
    simpa using this
  rw [hnone]

/-- C26, evaluated at a failing input: the article 1 is set at time 0 with a
TTL of 60; a `Get` at time 100 finds it expired and starts the removal
goroutine; the article is set again at time 101; the goroutine runs and
deletes the fresh item; the `Get` at time 102 misses, although the TTL of the
second `Set` has not elapsed. Whenever the goroutine runs between a `Set` and
the `Get` of the same ID, the `Get` misses; when no removal runs in between,
the `Get` returns the content. -/
theorem C26_failing_input_stale_removal :
    Get (Set (NewContentCache 2 60) 1 "old" 0 0) 1 100 = ("", false) ∧
    startsRemoval (Set (NewContentCache 2 60) 1 "old" 0 0) 1 100 = true ∧
    Get (expiredRemoval (Set (Set (NewContentCache 2 60) 1 "old" 0 0) 1 "new" 101 101) 1) 1 102 =
      ("", false) ∧
    Get (Set (Set (NewContentCache 2 60) 1 "old" 0 0) 1 "new" 101 101) 1 102 = ("new", true) ∧
    (∀ (cc : ContentCache) (articleID : Int) (content : String) (now now2 later : Int),
      Get (expiredRemoval (Set cc articleID content now now2) articleID) articleID later =
        ("", false)) ∧
    (∀ (cc : ContentCache) (articleID : Int) (content : String) (now now2 later : Int),
      ¬ later > now + cc.ttl →
      Get (Set cc articleID content now now2) articleID later = (content, true)) := by
  refine ⟨by decide, by decide, by decide, by decide, ?_, ?_⟩
  · intro cc articleID content now now2 later
    unfold Get expiredRemoval
    simp only [mapLookup_mapDelete]
  · intro cc articleID content now now2 later hfresh
    unfold Get Set
    simp only [mapLookup_mapAssign]
    simp [hfresh]

/-- C27: `Get` retrieves content only if it exists and has not expired. It
returns the empty string and false when no item is stored under the ID and when
the expiry time of the stored item is before the current time; it returns the
stored content and true exactly when an item is stored under the ID and has
not expired. The expiry time of an item is its set time plus the TTL. -/
theorem C27_get_exists_and_fresh (cc : ContentCache) (articleID now : Int) :
    (mapLookup cc.cache articleID = none → Get cc articleID now = ("", false)) ∧
    (∀ item, mapLookup cc.cache articleID = some item → item.ExpiresAt < now →
      Get cc articleID now = ("", false)) ∧
    (∀ item, mapLookup cc.cache articleID = some item → ¬ item.ExpiresAt < now →
      Get cc articleID now = (item.Content, true)) ∧
    ((Get cc articleID now).2 = true ↔
      ∃ item, mapLookup cc.cache articleID = some item ∧ ¬ item.ExpiresAt < now ∧
        (Get cc articleID now).1 = item.Content) ∧
    (∀ (content : String) (t t2 : Int),
      mapLookup (Set cc articleID content t t2).cache articleID =
        some { Content := content, ExpiresAt := t + cc.ttl, SetAt := t }) := by
  unfold Get
  refine ⟨?_, ?_, ?_, ?_, ?_⟩
  · intro h
    simp [h]
  · intro item h hexp
    simp [h, hexp]
  · intro item h hexp
    simp [h, hexp]
  · cases h : mapLookup cc.cache articleID with
    | none => simp
    | some item =>
      by_cases hexp : item.ExpiresAt < now
      · simp [hexp]
      · have hle : now ≤ item.ExpiresAt := by omega
        simp [hexp, hle]
  · intro content t t2
    unfold Set
    simp only [mapLookup_mapAssign]

/-- C28: `Clear` removes all cached content. After `Clear` the size is 0 and
`Get` misses for every article ID, whatever was stored before; `maxSize` and
`ttl` are unchanged, and the cache can be filled again: a `Set` on the cleared
cache stores its item, which `Get` serves at once when the TTL is not negative. -/
theorem C28_clear_removes_all (cc : ContentCache) (articleID now : Int) :
    Size (Clear cc) = 0 ∧
    Get (Clear cc) articleID now = ("", false) ∧
    (Clear cc).maxSize = cc.maxSize ∧ (Clear cc).ttl = cc.ttl ∧
    (∀ (content : String) (t t2 : Int),
      Size (Set (Clear cc) articleID content t t2) = 1 ∧
      (0 ≤ cc.ttl → Get (Set (Clear cc) articleID content t t2) articleID t = (content, true))) := by
  refine ⟨rfl, rfl, rfl, rfl, ?_⟩
  intro content t t2
  constructor
  · unfold Set Clear Size
    simp [mapAssign, mapDelete]
  · intro httl
    unfold Get Set
    simp only [mapLookup_mapAssign]
    have : ¬ t > t + (Clear cc).ttl := by
      have h : (Clear cc).ttl = cc.ttl := rfl
      rw [h]
      omega
    simp [this]

end Cache

namespace FreshRSS

/-! ## C29: `MarkAsRead` -/

theorem find_map_set (v : Values) (key other value : String) :
    (v.map (fun e => if e.1 == other then (e.1, [value]) else e)).find? (fun e => e.1 == key) =
      (v.find? (fun e => e.1 == key)).map (fun e => if e.1 == other then (e.1, [value]) else e) := by
  induction v with
  | nil => rfl
  | cons e es ih =>
    have hkey : (if (e.1 == other) = true then (e.1, [value]) else e).1 = e.1 := by
      split <;> rfl
    rw [List.map_cons, List.find?_cons, List.find?_cons, hkey]
    cases hk : e.1 == key with
    | true => rfl
    | false => exact ih

theorem find_of_any (v : Values) (key : String) (h : v.any (fun e => e.1 == key) = true) :
    ∃ e, v.find? (fun e => e.1 == key) = some e ∧ (e.1 == key) = true := by
  induction v with
  | nil => simp at h
  | cons e es ih =>
    rw [List.find?_cons]
    cases hk : e.1 == key with
    | true => exact ⟨e, rfl, hk⟩
    | false =>
      have hes : es.any (fun e => e.1 == key) = true := by
        simpa [List.any_cons, hk] using h
      exact ih hes

theorem find_none_of_not_any (v : Values) (key : String)
    (h : ¬ v.any (fun e => e.1 == key) = true) : v.find? (fun e => e.1 == key) = none := by
  induction v with
  | nil => rfl
  | cons e es ih =>
    rw [List.find?_cons]
    cases hk : e.1 == key with
    | true => simp [List.any_cons, hk] at h
    | false =>
      have hes : ¬ es.any (fun e => e.1 == key) = true := by
        simpa [List.any_cons, hk] using h
      exact ih hes

theorem valuesOf_valuesSet_same (v : Values) (key value : String) :
    valuesOf (valuesSet v key value) key = [value] := by
  unfold valuesSet valuesOf
  by_cases h : v.any (fun e => e.1 == key) = true
  · obtain ⟨e, he, hk⟩ := find_of_any v key h
    simp only [h, if_true, find_map_set, he, Option.map_some', hk]
  · simp only [h, Bool.false_eq_true, if_false, List.find?_append, find_none_of_not_any v key h,
      Option.none_or, List.find?_cons, beq_self_eq_true]

theorem valuesOf_valuesSet_other (v : Values) (key other value : String) (hne : other ≠ key) :
    valuesOf (valuesSet v other value) key = valuesOf v key := by
  have hb : (other == key) = false := by simpa using hne
  unfold valuesSet valuesOf
  by_cases h : v.any (fun e => e.1 == other) = true
  · simp only [h, if_true, find_map_set]
    cases hf : v.find? (fun e => e.1 == key) with
    | none => rfl
    | some e =>
      have hk : (e.1 == key) = true := by
        have := List.find?_some hf
        simpa using this
      have hk2 : e.1 = key := by simpa using hk
      have ho : (e.1 == other) = false := by
        rw [hk2]
        simpa using fun h => hne h.symm
      simp only [Option.map_some', ho, Bool.false_eq_true, if_false]
  · simp only [h, Bool.false_eq_true, if_false, List.find?_append]
    cases hf : v.find? (fun e => e.1 == key) with
    | some e => rfl
    | none => simp only [Option.none_or, List.find?_cons, hb, List.find?_nil]

/-- The loop `data.Set("i", id)` leaves the last article ID alone under `i`. -/
theorem loop_keeps_last (ids : List String) (data : Values) (id : String) :
    valuesOf ((ids ++ [id]).foldl (fun data id => valuesSet data "i" id) data) "i" = [id] := by
  rw [List.foldl_append]
  exact valuesOf_valuesSet_same _ _ _

theorem loop_keeps_other (key : String) (hne : "i" ≠ key) (l : List String)
    (data : Values) :
    valuesOf (l.foldl (fun data id => valuesSet data "i" id) data) key = valuesOf data key := by
  induction l generalizing data with
  | nil => rfl
  | cons x xs ih =>
    rw [List.foldl_cons, ih, valuesOf_valuesSet_other _ _ _ _ hne]

/-- C29, evaluated at a failing input: for the article IDs `1`, `2`, `3` the
client sends, after the token request, one `POST` whose body on the wire is
`T=tok&i=3`: it names the last article only and carries no read tag. For every
non-empty list of IDs, the form from which the request is created holds the
token under `T`, the last ID alone under `i` and nothing under `a`; this form
fixes `ContentLength` and `GetBody`, and the form with the read tag, which is
longer, only replaces `Body`. -/
theorem C29_failing_input_only_last_id :
    (MarkAsRead recordingServer { baseURL := "https://rss.example/api/greader.php", authToken := "auth" }
      ["1", "2", "3"] []).1 = .ok () ∧
    (MarkAsRead recordingServer { baseURL := "https://rss.example/api/greader.php", authToken := "auth" }
      ["1", "2", "3"] []).2 =
      [ ("GET", "https://rss.example/api/greader.php/reader/api/0/token", ""),
        ("POST", "https://rss.example/api/greader.php/reader/api/0/edit-tag", "T=tok&i=3") ] ∧
    (markAsReadRequest { baseURL := "https://rss.example/api/greader.php", authToken := "auth" }
      "tok" ["1", "2", "3"]).Body = "T=tok&a=user%2F-%2Fstate%2Fcom.google%2Fread&i=3" ∧
    (∀ (c : Client) (token : String) (ids : List String) (id : String),
      valuesOf (markAsReadForm token (ids ++ [id])) "i" = [id] ∧
      valuesOf (markAsReadForm token (ids ++ [id])) "T" = [token] ∧
      valuesOf (markAsReadForm token (ids ++ [id])) "a" = [] ∧
      (markAsReadRequest c token (ids ++ [id])).GetBody =
        Encode (markAsReadForm token (ids ++ [id])) ∧
      (markAsReadRequest c token (ids ++ [id])).ContentLength =
        (Encode (markAsReadForm token (ids ++ [id]))).utf8ByteSize ∧
      (markAsReadRequest c token (ids ++ [id])).Body =
        Encode (valuesSet (markAsReadForm token (ids ++ [id])) "a"
          "user/-/state/com.google/read")) := by
  refine ⟨by rfl, by decide, by decide, ?_⟩
  intro c token ids id
  refine ⟨loop_keeps_last ids _ id, ?_, ?_, rfl, rfl, rfl⟩
  · unfold markAsReadForm
    rw [loop_keeps_other "T" (by decide)]
    exact valuesOf_valuesSet_same _ _ _
  · unfold markAsReadForm
    rw [loop_keeps_other "a" (by decide)]
    rfl

end FreshRSS

namespace Summary

/-! ## `cleanText` and the tags of its input (C30) -/

theorem removeTagsAux_mem (c : Char) (b : Bool) (l : List Char)
    (h : c ∈ removeTagsAux b l) : c ∈ l ∨ c = ' ' := by
  induction l generalizing b with
  | nil => simp [removeTagsAux] at h
  | cons a cs ih =>
    cases b with
    | true =>
      simp only [removeTagsAux] at h
      split at h
      · rcases ih _ h with h1 | h1
        · exact Or.inl (List.mem_cons_of_mem _ h1)
        · exact Or.inr h1
      · rcases ih _ h with h1 | h1
        · exact Or.inl (List.mem_cons_of_mem _ h1)
        · exact Or.inr h1
    | false =>
      simp only [removeTagsAux] at h
      split at h
      · rcases List.mem_cons.mp h with h1 | h1
        · exact Or.inr h1
        · rcases ih _ h1 with h2 | h2
          · exact Or.inl (List.mem_cons_of_mem _ h2)
          · exact Or.inr h2
      · rcases List.mem_cons.mp h with h1 | h1
        · exact Or.inl (h1 ▸ List.mem_cons_self _ _)
        · rcases ih _ h1 with h2 | h2
          · exact Or.inl (List.mem_cons_of_mem _ h2)
          · exact Or.inr h2

theorem collapseSpaces_mem (c : Char) (b : Bool) (l : List Char)
    (h : c ∈ collapseSpaces b l) : c ∈ l ∨ c = ' ' := by
  induction l generalizing b with
  | nil => simp [collapseSpaces] at h
  | cons a cs ih =>
    simp only [collapseSpaces] at h
    split at h
    · split at h
      · rcases ih _ h with h1 | h1
        · exact Or.inl (List.mem_cons_of_mem _ h1)
        · exact Or.inr h1
      · rcases List.mem_cons.mp h with h1 | h1
        · exact Or.inr h1
        · rcases ih _ h1 with h2 | h2
          · exact Or.inl (List.mem_cons_of_mem _ h2)
          · exact Or.inr h2
    · rcases List.mem_cons.mp h with h1 | h1
      · exact Or.inl (h1 ▸ List.mem_cons_self _ _)
      · rcases ih _ h1 with h2 | h2
        · exact Or.inl (List.mem_cons_of_mem _ h2)
        · exact Or.inr h2

theorem hasTag_cons (c : Char) (cs : List Char) :
    hasTag (c :: cs) = true ↔ (c = '<' ∧ '>' ∈ cs) ∨ hasTag cs = true := by
  simp [hasTag]

theorem hasTag_removeTagsAux (b : Bool) (l : List Char) :
    hasTag (removeTagsAux b l) = false := by
  induction l generalizing b with
  | nil => simp [removeTagsAux, hasTag]
  | cons a cs ih =>
    cases b with
    | true =>
      simp only [removeTagsAux]
      split
      · exact ih _
      · exact ih _
    | false =>
      simp only [removeTagsAux]
      split
      · rw [Bool.eq_false_iff, Ne, hasTag_cons]
        rintro (⟨h1, _⟩ | h1)
        · exact absurd h1 (by decide)
        · rw [ih] at h1
          cases h1
      · rename_i hn
        rw [Bool.eq_false_iff, Ne, hasTag_cons]
        rintro (⟨h1, h2⟩ | h1)
        · rcases removeTagsAux_mem _ _ _ h2 with h3 | h3
          · exact hn ⟨h1, h3⟩
          · exact absurd h3 (by decide)
        · rw [ih] at h1
          cases h1

theorem hasTag_collapseSpaces (b : Bool) (l : List Char) (h : hasTag l = false) :
    hasTag (collapseSpaces b l) = false := by
  induction l generalizing b with
  | nil => simp [collapseSpaces, hasTag]
  | cons a cs ih =>
    rw [Bool.eq_false_iff, Ne, hasTag_cons] at h
    have hcs : hasTag cs = false := by
      rw [Bool.eq_false_iff]
      exact fun h1 => h (Or.inr h1)
    simp only [collapseSpaces]
    split
    · split
      · exact ih _ hcs
      · rw [Bool.eq_false_iff, Ne, hasTag_cons]
        rintro (⟨h1, _⟩ | h1)
        · exact absurd h1 (by decide)
        · rw [ih _ hcs] at h1
          cases h1
    · rw [Bool.eq_false_iff, Ne, hasTag_cons]
      rintro (⟨h1, h2⟩ | h1)
      · rcases collapseSpaces_mem _ _ _ h2 with h3 | h3
        · exact h (Or.inl ⟨h1, h3⟩)
        · exact absurd h3 (by decide)
      · rw [ih _ hcs] at h1
        cases h1

theorem hasTag_of_sublist (l1 l2 : List Char) (hsub : l1.Sublist l2)
    (h : hasTag l1 = true) : hasTag l2 = true := by
  induction hsub with
  | slnil => exact h
  | cons a _ ih => exact (hasTag_cons _ _).mpr (Or.inr (ih h))
  | cons₂ a hs ih =>
    rcases (hasTag_cons _ _).mp h with ⟨h1, h2⟩ | h1
    · exact (hasTag_cons _ _).mpr (Or.inl ⟨h1, hs.subset h2⟩)
    · exact (hasTag_cons _ _).mpr (Or.inr (ih h1))

theorem trimSpace_sublist (s : String) : (Discovery.TrimSpace s).data.Sublist s.data := by
  simp only [Discovery.TrimSpace]
  have h1 : ((s.data.dropWhile Discovery.isSpace).reverse.dropWhile Discovery.isSpace).Sublist
      (s.data.dropWhile Discovery.isSpace).reverse := List.dropWhile_sublist _
  have h2 := List.reverse_sublist.mpr h1
  rw [List.reverse_reverse] at h2
  exact h2.trans (List.dropWhile_sublist _)

theorem hasTag_of_containsTag (l : List Char) (h : ContainsTag l) : hasTag l = true := by
  obtain ⟨before, t, after, rfl, mid, rfl, _⟩ := h
  induction before with
  | nil =>
    refine (hasTag_cons _ _).mpr (Or.inl ⟨rfl, ?_⟩)
    simp
  | cons a rest ih => exact (hasTag_cons _ _).mpr (Or.inr ih)

theorem replaceAllL_of_not_mem (old new : List Char) (c0 : Char) (rest l : List Char)
    (hold : old = c0 :: rest) (h : c0 ∉ l) : replaceAllL old new 0 l = l := by
  induction l with
  | nil => rfl
  | cons a cs ih =>
    have ha : a ≠ c0 := fun e => h (e ▸ List.mem_cons_self _ _)
    have hcs : c0 ∉ cs := fun e => h (List.mem_cons_of_mem _ e)
    simp only [replaceAllL]
    have hp : Discovery.hasPrefixL (a :: cs) old = false := by
      rw [hold]
      simp [Discovery.hasPrefixL, ha]
    simp [hp, ih hcs]

theorem ReplaceAll_of_not_mem (s old new : String) (c0 : Char) (rest : List Char)
    (hold : old.data = c0 :: rest) (h : c0 ∉ s.data) : ReplaceAll s old new = s := by
  simp only [ReplaceAll]
  rw [replaceAllL_of_not_mem old.data new.data c0 rest s.data hold h]

theorem cleanText_of_no_entity (text : String) (h : '&' ∉ text.data) :
    cleanText text =
      Discovery.TrimSpace ⟨collapseSpaces false (removeTags text.data)⟩ := by
  have hmem : '&' ∉ (⟨removeTags text.data⟩ : String).data := by
    intro hin
    rcases removeTagsAux_mem _ _ _ hin with h1 | h1
    · exact h h1
    · exact absurd h1 (by decide)
  simp only [cleanText]
  rw [ReplaceAll_of_not_mem _ "&nbsp;" " " '&' _ rfl hmem,
    ReplaceAll_of_not_mem _ "&amp;" "&" '&' _ rfl hmem,
    ReplaceAll_of_not_mem _ "&lt;" "<" '&' _ rfl hmem,
    ReplaceAll_of_not_mem _ "&gt;" ">" '&' _ rfl hmem,
    ReplaceAll_of_not_mem _ "&quot;" "\"" '&' _ rfl hmem,
    ReplaceAll_of_not_mem _ "&#39;" "'" '&' _ rfl hmem]

theorem hasTag_eq_false_of_sublist (l1 l2 : List Char) (hsub : l1.Sublist l2)
    (h : hasTag l2 = false) : hasTag l1 = false := by
  cases h1 : hasTag l1 with
  | false => rfl
  | true => rw [hasTag_of_sublist l1 l2 hsub h1] at h; cases h

theorem flatten_sublist {α : Type} (L1 L2 : List (List α)) (h : L1.Sublist L2) :
    L1.flatten.Sublist L2.flatten := by
  induction h with
  | slnil => exact List.Sublist.refl _
  | cons a _ ih =>
    rw [List.flatten_cons]
    exact ih.trans (List.sublist_append_right _ _)
  | cons₂ a _ ih =>
    rw [List.flatten_cons, List.flatten_cons]
    exact (List.Sublist.refl a).append ih

/-- The parts and the punctuation that the scan returns are pieces of the text,
in the order of the text. -/
theorem scanSentences_sublist (input part punct : List Char) (inSep : Bool) :
    ((scanSentences part punct inSep input).map (fun p => p.1 ++ p.2)).flatten.Sublist
      (part.reverse ++ punct.reverse ++ input) := by
  induction input generalizing part punct inSep with
  | nil =>
    unfold scanSentences
    split
    · rename_i hp
      have : punct = [] := List.isEmpty_iff.mp hp
      subst this
      simp
    · simp
  | cons c cs ih =>
    unfold scanSentences
    split
    · split
      · have := ih [] [] true
        simp only [List.reverse_nil, List.nil_append] at this
        exact this.trans ((List.sublist_cons_self c cs).trans (List.sublist_append_right _ _))
      · split
        · rename_i hp
          have : punct = [] := List.isEmpty_iff.mp hp
          subst this
          have := ih (c :: part) [] false
          simpa using this
        · have := ih [] [] true
          simp only [List.map_cons, List.flatten_cons, List.reverse_nil, List.nil_append] at this ⊢
          rw [List.append_assoc, List.append_assoc]
          exact (List.Sublist.refl _).append
            ((List.Sublist.refl _).append (this.trans (List.sublist_cons_self _ _)))
    · split
      · have := ih part (c :: punct) false
        simpa using this
      · have := ih (c :: (punct ++ part)) [] false
        simpa using this

theorem sentenceOf_sublist (piece : List Char × List Char) (s : String)
    (h : sentenceOf piece = some s) : s.data.Sublist (piece.1 ++ piece.2) := by
  unfold sentenceOf at h
  simp only [] at h
  split at h
  · cases h
  · split at h
    · simp only [Option.some.injEq] at h
      subst h
      exact (trimSpace_sublist ⟨piece.1⟩).append (List.Sublist.refl _)
    · cases h

theorem filterMap_sentenceOf_sublist (pieces : List (List Char × List Char)) :
    ((pieces.filterMap sentenceOf).map String.data).flatten.Sublist
      (pieces.map (fun p => p.1 ++ p.2)).flatten := by
  induction pieces with
  | nil => exact List.Sublist.refl _
  | cons p ps ih =>
    rw [List.filterMap_cons]
    cases hs : sentenceOf p with
    | none =>
      simp only [List.map_cons, List.flatten_cons]
      exact ih.trans (List.sublist_append_right _ _)
    | some s =>
      simp only [List.map_cons, List.flatten_cons]
      exact (sentenceOf_sublist p s hs).append ih

/-- The sentences of a text are pieces of the text, in the order of the text. -/
theorem splitSentences_sublist (text : String) :
    ((splitSentences text).map String.data).flatten.Sublist text.data := by
  unfold splitSentences
  have h := scanSentences_sublist text.data [] [] false
  simp only [List.reverse_nil, List.nil_append] at h
  exact (filterMap_sentenceOf_sublist _).trans h

theorem map_getD_sublist (l : List String) (k : Nat) (idx : List Nat)
    (hs : idx.Pairwise (fun a b => a < b)) (hlo : ∀ i ∈ idx, k ≤ i)
    (hhi : ∀ i ∈ idx, i < k + l.length) :
    (idx.map (fun i => l.getD (i - k) "")).Sublist l := by
  induction l generalizing k idx with
  | nil =>
    cases idx with
    | nil => exact List.Sublist.refl _
    | cons i rest =>
      have h1 := hlo i (List.mem_cons_self _ _)
      have h2 := hhi i (List.mem_cons_self _ _)
      simp at h2
      omega
  | cons a t ih =>
    cases idx with
    | nil => exact List.nil_sublist _
    | cons i rest =>
      have hrest : rest.Pairwise (fun a b => a < b) := (List.pairwise_cons.mp hs).2
      have hgt : ∀ j ∈ rest, i < j := (List.pairwise_cons.mp hs).1
      have hi := hlo i (List.mem_cons_self _ _)
      by_cases hik : i = k
      · subst hik
        have hmap : rest.map (fun j => (a :: t).getD (j - i) "") =
            rest.map (fun j => t.getD (j - (i + 1)) "") := by
          apply List.map_congr_left
          intro j hj
          have := hgt j hj
          have e : j - i = (j - (i + 1)) + 1 := by omega
          rw [e]
          rfl
        rw [List.map_cons, hmap]
        have h0 : (a :: t).getD (i - i) "" = a := by simp
        rw [h0]
        refine List.Sublist.cons₂ a (ih (i + 1) rest hrest ?_ ?_)
        · intro j hj
          have := hgt j hj
          omega
        · intro j hj
          have := hhi j (List.mem_cons_of_mem _ hj)
          simp only [List.length_cons] at this
          omega
      · have hmap : (i :: rest).map (fun j => (a :: t).getD (j - k) "") =
            (i :: rest).map (fun j => t.getD (j - (k + 1)) "") := by
          apply List.map_congr_left
          intro j hj
          have hj1 : k < j := by
            rcases List.mem_cons.mp hj with h | h
            · omega
            · have := hgt j h
              omega
          have e : j - k = (j - (k + 1)) + 1 := by omega
          rw [e]
          rfl
        rw [hmap]
        refine List.Sublist.cons a (ih (k + 1) (i :: rest) hs ?_ ?_)
        · intro j hj
          rcases List.mem_cons.mp hj with h | h
          · omega
          · have := hgt j h
            omega
        · intro j hj
          have := hhi j hj
          simp only [List.length_cons] at this
          omega

/-- The top sentences, sorted by position, are sentences of the text in the
order of the text, when the ranking is a permutation of the positions. -/
theorem topSentences_sublist (sentences : List String) (ranked : List Nat) (n : Nat)
    (hperm : ranked.Perm (List.range sentences.length)) :
    (((ranked.take n).insertionSort (fun a b => a ≤ b)).map
      (fun position => sentences.getD position "")).Sublist sentences := by
  have hnodup : ranked.Nodup := hperm.nodup_iff.mpr (List.nodup_range _)
  have hsortperm := List.perm_insertionSort (fun a b : Nat => a ≤ b) (ranked.take n)
  have hsorted := List.sorted_insertionSort (fun a b : Nat => a ≤ b) (ranked.take n)
  have hnd : ((ranked.take n).insertionSort (fun a b => a ≤ b)).Nodup :=
    hsortperm.nodup_iff.mpr (hnodup.sublist (List.take_sublist _ _))
  have hlt := hsorted.lt_of_le hnd
  have hb : ∀ i ∈ (ranked.take n).insertionSort (fun a b => a ≤ b), i < sentences.length := by
    intro i hi
    have h1 : i ∈ ranked.take n := hsortperm.mem_iff.mp hi
    have h2 : i ∈ ranked := List.mem_of_mem_take h1
    exact List.mem_range.mp (hperm.mem_iff.mp h2)
  have h := map_getD_sublist sentences 0 _ hlt (fun _ _ => Nat.zero_le _)
    (fun i hi => by simpa using hb i hi)
  simpa using h

theorem hasTag_filter (l : List Char) :
    hasTag (l.filter (fun c => c != ' ')) = hasTag l := by
  induction l with
  | nil => rfl
  | cons c cs ih =>
    by_cases hc : c = ' '
    · subst hc
      have : hasTag (' ' :: cs) = hasTag cs := by simp [hasTag]
      rw [this, ← ih]
      simp
    · have hf : (c :: cs).filter (fun c => c != ' ') = c :: cs.filter (fun c => c != ' ') := by
        simp [hc]
      rw [hf]
      simp only [hasTag, ih]
      congr 2
      simp

theorem joinL_filter (ss : List String) :
    (joinL [' '] ss).filter (fun c => c != ' ') =
      (ss.map String.data).flatten.filter (fun c => c != ' ') := by
  induction ss with
  | nil => rfl
  | cons s rest ih =>
    cases rest with
    | nil => simp [joinL]
    | cons t more =>
      simp only [joinL, List.filter_append, List.map_cons, List.flatten_cons] at ih ⊢
      rw [ih]
      simp

theorem hasTag_joinL (ss : List String) :
    hasTag (joinL [' '] ss) = hasTag (ss.map String.data).flatten := by
  rw [← hasTag_filter, joinL_filter, hasTag_filter]

theorem not_containsTag_of_hasTag (l : List Char) (h : hasTag l = false) : ¬ ContainsTag l := by
  intro hc
  rw [hasTag_of_containsTag l hc] at h
  cases h

theorem hasTag_cleanText (text : String) (hno : '&' ∉ text.data) :
    hasTag (cleanText text).data = false := by
  rw [cleanText_of_no_entity text hno]
  exact hasTag_eq_false_of_sublist _ _ (trimSpace_sublist _)
    (hasTag_collapseSpaces false _ (hasTag_removeTagsAux false _))

/-- C30, the entities: `cleanText` decodes `&lt;` and `&gt;` after it has
removed the tags, so the output for `&lt;b&gt;` is `<b>`, which is an HTML tag
in the sense of the claim, and `Summarize` returns it as the summary. -/
theorem C30_counterexample_encoded_tag :
    cleanText "&lt;b&gt;" = "<b>" ∧ ContainsTag (cleanText "&lt;b&gt;").data ∧
    ∀ (S : Scoring) (length : SummaryLength),
      Summarize S "&lt;b&gt;" length = { Summary := "<b>", KeyPoints := [], IsTooShort := true } := by
  have h : cleanText "&lt;b&gt;" = "<b>" := by decide
  refine ⟨h, ?_, ?_⟩
  · rw [h]
    exact ⟨[], ['<', 'b', '>'], [], rfl, ['b'], rfl, by decide⟩
  · intro S length
    simp only [Summarize, h]
    rfl

/-- C30, amended: `cleanText` removes the tags of its input before it decodes
entities. For every input without `&`, the output of `cleanText` contains no
HTML tag, and neither do the summary and the key points of `Summarize`, in
each of its three branches, for every `calculateNumSentences` and every
ranking that is a permutation of the positions of the sentences. For every
input, with or without `&`, the text after the tag-removal statement contains
no HTML tag. -/
theorem C30_cleanText_removes_input_tags (text : String) (hno : '&' ∉ text.data) :
    ¬ ContainsTag (cleanText text).data ∧
    (∀ (S : Scoring) (length : SummaryLength),
      (∀ sentences, (S.rankedPositions sentences).Perm (List.range sentences.length)) →
      ¬ ContainsTag (Summarize S text length).Summary.data ∧
      ∀ keyPoint ∈ (Summarize S text length).KeyPoints, ¬ ContainsTag keyPoint.data) ∧
    (∀ other : String, ¬ ContainsTag (removeTags other.data)) := by
  have hclean := hasTag_cleanText text hno
  refine ⟨not_containsTag_of_hasTag _ hclean, ?_, ?_⟩
  · intro S length hperm
    have hsent : hasTag ((splitSentences (cleanText text)).map String.data).flatten = false :=
      hasTag_eq_false_of_sublist _ _ (splitSentences_sublist _) hclean
    unfold Summarize
    simp only []
    split
    · exact ⟨not_containsTag_of_hasTag _ hclean, by simp⟩
    · split
      · refine ⟨not_containsTag_of_hasTag _ hclean, ?_⟩
        intro keyPoint hk
        apply not_containsTag_of_hasTag
        refine hasTag_eq_false_of_sublist _ _ ?_ hsent
        exact List.sublist_flatten_of_mem (List.mem_map.mpr ⟨keyPoint, hk, rfl⟩)
      · have htop := topSentences_sublist (splitSentences (cleanText text))
          (S.rankedPositions (splitSentences (cleanText text)))
          (S.calculateNumSentences (splitSentences (cleanText text)).length length)
          (hperm _)
        have hflat := flatten_sublist _ _ (htop.map String.data)
        have hkeys := hasTag_eq_false_of_sublist _ _ hflat hsent
        refine ⟨?_, ?_⟩
        · apply not_containsTag_of_hasTag
          simp only []
          rw [hasTag_joinL]
          exact hkeys
        · intro keyPoint hk
          apply not_containsTag_of_hasTag
          refine hasTag_eq_false_of_sublist _ _ ?_ hkeys
          exact List.sublist_flatten_of_mem (List.mem_map.mpr ⟨keyPoint, hk, rfl⟩)
  · intro other
    apply not_containsTag_of_hasTag
    rw [removeTags, hasTag_removeTagsAux]

set_option maxRecDepth 100000 in
/-- C30 on an article of three sentences with markup and a lone `>`: the
summary holds the first two sentences, without markup. -/
theorem C30_witness :
    Summarize positionScoring demoArticle "short" =
      { Summary := "The first sentence of the article says what the article is about. " ++
          "The second sentence of the article gives a number of details, one after another!",
        KeyPoints := ["The first sentence of the article says what the article is about.",
          "The second sentence of the article gives a number of details, one after another!"],
        SentenceCount := 2, IsTooShort := false } ∧
    ¬ ContainsTag (cleanText demoArticle).data ∧
    ¬ ContainsTag (Summarize positionScoring demoArticle "short").Summary.data ∧
    ∀ keyPoint ∈ (Summarize positionScoring demoArticle "short").KeyPoints,
      ¬ ContainsTag keyPoint.data :=
  ⟨by decide,
    (C30_cleanText_removes_input_tags demoArticle (by decide)).1,
    ((C30_cleanText_removes_input_tags demoArticle (by decide)).2.1 positionScoring "short"
      (fun _ => List.Perm.refl _)).1,
    ((C30_cleanText_removes_input_tags demoArticle (by decide)).2.1 positionScoring "short"
      (fun _ => List.Perm.refl _)).2⟩

end Summary
